import Mathlib

/-!
# Unit deployer (worker/deployer/deployer.go)

A shallow embedding of the juju-core deployer worker: the per-unit
reconciliation step `Deployer.changed` with its three helpers `deploy`,
`recall` and `remove`, and `Deployer.loop` with its startup seeding and its
main loop.

The Go code mutates the `deployed` map in place and talks to three
collaborators (the state store, the deployment `Manager`, and
`trivial.RandomPassword`).  Here the collaborators are an explicit record of
functions over an arbitrary world type `W` that is threaded through every
call, the `deployed` map is a finite set of unit names, a Go `panic` is a
separate result, and every collaborator call is appended to a log so that
statements about which calls a step issues, and in which order, can be made.
Calls to `log.Printf` are not modelled.
-/

namespace state

/-- The `state.Life` enumeration. -/
inductive Life where
  | Alive
  | Dying
  | Dead
  deriving DecidableEq, Repr

/-- Modelled from the spec: the `state.Unit` type is declared in the `state`
package, which is not among the sources.  A unit carries its identifier, its
life and its optional owner; `Name`, `Life` and `DeployerName` are plain
getters on this snapshot (`DeployerName` returns `(name, ok)` in Go, which is
`some name` or `none` here). -/
structure Unit where
  Name : String
  Life : Life
  DeployerName : Option String
  deriving DecidableEq, Repr

/-- Modelled from the spec: the owning parent entity of a unit, through which
its erasure is requested (`state.Service`, also declared outside the sources). -/
structure Service where
  Name : String
  deriving DecidableEq, Repr

end state

namespace deployer

/-- A Go `error` value. -/
structure Error where
  msg : String
  deriving DecidableEq, Repr

/-- The three outcomes of `st.Unit(name)`: a unit, an error for which
`state.IsNotFound` holds (the returned unit is then nil), or any other error. -/
inductive Lookup where
  | found (unit : state.Unit)
  | notFound
  | failed (err : Error)
  deriving DecidableEq, Repr

/-- One collaborator call, as recorded in the log of a run. -/
inductive Call where
  | Unit (unitName : String)
  | RandomPassword
  | SetPassword (unitName : String) (password : String)
  | DeployUnit (unitName : String) (initialPassword : String)
  | RecallUnit (unitName : String)
  | EnsureDead (unitName : String)
  | Service (unitName : String)
  | RemoveUnit (service : String) (unitName : String)
  | DeployedUnits
  deriving DecidableEq, Repr

/-- The `Manager` interface, over a world `W`. -/
structure Manager (W : Type) where
  DeployUnit : String → String → W → Option Error × W
  RecallUnit : String → W → Option Error × W
  DeployedUnits : W → Except Error (List String) × W

/-- The part of the state store the deployer uses, over a world `W`:
`st.Unit`, `unit.SetPassword`, `unit.EnsureDead`, `unit.Service` and
`service.RemoveUnit`. -/
structure State (W : Type) where
  Unit : String → W → Lookup × W
  SetPassword : state.Unit → String → W → Option Error × W
  EnsureDead : state.Unit → W → Option Error × W
  Service : state.Unit → W → Except Error state.Service × W
  RemoveUnit : state.Service → state.Unit → W → Option Error × W

/-- Everything outside the deployer that a step can call. -/
structure Collab (W : Type) where
  st : State W
  mgr : Manager W
  RandomPassword : W → Except Error String × W

/-- The `Deployer` struct: its entity name and its `deployed` map.  The map
only ever holds `true` values (line 130 and 173 store `true`, line 144
deletes), so it is the set of its keys.  The `st` and `mgr` fields are the
`Collab` record passed alongside; the outcomes of waiting on the tomb and on
the watcher are the `Select` values given to `Deployer.loop`. -/
structure Deployer where
  entityName : String
  deployed : Finset String
  deriving DecidableEq

/-- How a Go call ends: `return nil`, `return err`, or a panic. -/
inductive Ret where
  | nil
  | err (e : Error)
  | panic (msg : String)
  deriving DecidableEq, Repr

/-- The machine state threaded through a run: the deployer, the world of the
collaborators, and the log of collaborator calls issued so far. -/
structure Run (W : Type) where
  d : Deployer
  w : W
  calls : List Call

/-- The method `Deployer.deploy` (lines 114-132). -/
def Deployer.deploy {W : Type} (c : Collab W) (unit : state.Unit) (s : Run W) : Ret × Run W :=
  let unitName := unit.Name
  if unit.Name ∈ s.d.deployed then
    (Ret.panic "must not re-deploy a deployed unit", s)
  else
    match c.RandomPassword s.w with
    | (Except.error e, w1) => (Ret.err e, ⟨s.d, w1, s.calls ++ [Call.RandomPassword]⟩)
    | (Except.ok initialPassword, w1) =>
      match c.st.SetPassword unit initialPassword w1 with
      | (some e, w2) =>
        (Ret.err e, ⟨s.d, w2,
          s.calls ++ [Call.RandomPassword, Call.SetPassword unit.Name initialPassword]⟩)
      | (none, w2) =>
        match c.mgr.DeployUnit unitName initialPassword w2 with
        | (some e, w3) =>
          (Ret.err e, ⟨s.d, w3,
            s.calls ++ [Call.RandomPassword, Call.SetPassword unit.Name initialPassword,
              Call.DeployUnit unitName initialPassword]⟩)
        | (none, w3) =>
          (Ret.nil, ⟨⟨s.d.entityName, insert unitName s.d.deployed⟩, w3,
            s.calls ++ [Call.RandomPassword, Call.SetPassword unit.Name initialPassword,
              Call.DeployUnit unitName initialPassword]⟩)

/-- The method `Deployer.recall` (lines 136-146). -/
def Deployer.recall {W : Type} (c : Collab W) (unitName : String) (s : Run W) : Ret × Run W :=
  if unitName ∉ s.d.deployed then
    (Ret.panic "must not recall a unit that is not deployed", s)
  else
    match c.mgr.RecallUnit unitName s.w with
    | (some e, w1) => (Ret.err e, ⟨s.d, w1, s.calls ++ [Call.RecallUnit unitName]⟩)
    | (none, w1) =>
      (Ret.nil, ⟨⟨s.d.entityName, s.d.deployed.erase unitName⟩, w1,
        s.calls ++ [Call.RecallUnit unitName]⟩)

/-- The method `Deployer.remove` (lines 150-165). -/
def Deployer.remove {W : Type} (c : Collab W) (unit : state.Unit) (s : Run W) : Ret × Run W :=
  if unit.Name ∈ s.d.deployed then
    (Ret.panic "must not remove a deployed unit", s)
  else if unit.Life = state.Life.Alive then
    (Ret.panic "must not remove an Alive unit", s)
  else
    match c.st.EnsureDead unit s.w with
    | (some e, w1) => (Ret.err e, ⟨s.d, w1, s.calls ++ [Call.EnsureDead unit.Name]⟩)
    | (none, w1) =>
      match c.st.Service unit w1 with
      | (Except.error e, w2) =>
        (Ret.err e, ⟨s.d, w2, s.calls ++ [Call.EnsureDead unit.Name, Call.Service unit.Name]⟩)
      | (Except.ok service, w2) =>
        match c.st.RemoveUnit service unit w2 with
        | (some e, w3) =>
          (Ret.err e, ⟨s.d, w3,
            s.calls ++ [Call.EnsureDead unit.Name, Call.Service unit.Name,
              Call.RemoveUnit service.Name unit.Name]⟩)
        | (none, w3) =>
          (Ret.nil, ⟨s.d, w3,
            s.calls ++ [Call.EnsureDead unit.Name, Call.Service unit.Name,
              Call.RemoveUnit service.Name unit.Name]⟩)

/-- Lines 89-109 of `Deployer.changed`: what the step does once `life`,
`responsible` and `unit` (nil when not found) have been determined. -/
def Deployer.changed.act {W : Type} (c : Collab W) (unitName : String) (life : state.Life)
    (responsible : Bool) (unit : Option state.Unit) (s : Run W) : Ret × Run W :=
  let r :=
    if unitName ∈ s.d.deployed then
      if life = state.Life.Dead ∨ responsible = false then
        Deployer.recall c unitName s
      else (Ret.nil, s)
    else (Ret.nil, s)
  match r with
  | (Ret.nil, s1) =>
    if responsible = true ∧ unitName ∉ s1.d.deployed then
      if life = state.Life.Alive then
        match unit with
        | some u => Deployer.deploy c u s1
        | none => (Ret.panic "invalid memory address or nil pointer dereference", s1)
      else
        match unit with
        | some u => Deployer.remove c u s1
        | none => (Ret.nil, s1)
    else (Ret.nil, s1)
  | (e, s1) => (e, s1)

/-- The method `Deployer.changed` (lines 73-110). -/
def Deployer.changed {W : Type} (c : Collab W) (unitName : String) (s : Run W) : Ret × Run W :=
  match c.st.Unit unitName s.w with
  | (Lookup.notFound, w1) =>
    Deployer.changed.act c unitName state.Life.Dead false none
      ⟨s.d, w1, s.calls ++ [Call.Unit unitName]⟩
  | (Lookup.failed err, w1) => (Ret.err err, ⟨s.d, w1, s.calls ++ [Call.Unit unitName]⟩)
  | (Lookup.found unit, w1) =>
    Deployer.changed.act c unitName unit.Life
      (match unit.DeployerName with
        | some deployerName => decide (deployerName = s.d.entityName)
        | none => false)
      (some unit) ⟨s.d, w1, s.calls ++ [Call.Unit unitName]⟩

/-- The loop over one batch in `Deployer.loop` (lines 186-190): the step is
run on each name in order, and the first result that is not nil ends the
loop with that result. -/
def Deployer.loop.changes {W : Type} (c : Collab W) : List String → Run W → Ret × Run W
  | [], s => (Ret.nil, s)
  | unitName :: rest, s =>
    match Deployer.changed c unitName s with
    | (Ret.nil, s1) => Deployer.loop.changes c rest s1
    | (e, s1) => (e, s1)

/-- The function `NewDeployer` (lines 43-56), as far as the struct it builds
goes: the `deployed` map starts empty.  The goroutine it starts runs
`Deployer.loop`. -/
def NewDeployer (entityName : String) : Deployer :=
  ⟨entityName, ∅⟩

/-- The error `tomb.ErrDying` of the tomb library. -/
def tomb.ErrDying : Error :=
  ⟨"tomb: dying"⟩

/-- One outcome of the `select` of `Deployer.loop` (lines 179-191): the tomb is
dying, the watcher delivers a batch of changes, or the channel of the watcher
is closed, in which case `mustErr` is what `watcher.MustErr(w)` does (it
returns the error of the watcher, or panics). -/
inductive Select where
  | Dying
  | Changes (changes : List String)
  | Closed (mustErr : Ret)
  deriving DecidableEq, Repr

/-- The startup loop of `Deployer.loop` (lines 172-177): each name reported by
the manager is added to `deployed` and the step is run on it at once; the
first result that is not nil ends the loop with that result. -/
def Deployer.loop.seed {W : Type} (c : Collab W) : List String → Run W → Ret × Run W
  | [], s => (Ret.nil, s)
  | unitName :: rest, s =>
    match Deployer.changed c unitName
        ⟨⟨s.d.entityName, insert unitName s.d.deployed⟩, s.w, s.calls⟩ with
    | (Ret.nil, s1) => Deployer.loop.seed c rest s1
    | (e, s1) => (e, s1)

/-- The main loop of `Deployer.loop` (lines 178-192), run on the outcomes of
its successive `select`s.  The result is `none` when the outcomes are used up
and the loop is waiting in `select`, and `some r` when the loop has ended
with `r`. -/
def Deployer.loop.wait {W : Type} (c : Collab W) : List Select → Run W → Option Ret × Run W
  | [], s => (none, s)
  | Select.Dying :: _, s => (some (Ret.err tomb.ErrDying), s)
  | Select.Closed mustErr :: _, s => (some mustErr, s)
  | Select.Changes changes :: rest, s =>
    match Deployer.loop.changes c changes s with
    | (Ret.nil, s1) => Deployer.loop.wait c rest s1
    | (e, s1) => (some e, s1)

/-- The method `Deployer.loop` (lines 167-194), run on the outcomes of its
successive `select`s. -/
def Deployer.loop {W : Type} (c : Collab W) (selects : List Select) (s : Run W) :
    Option Ret × Run W :=
  match c.mgr.DeployedUnits s.w with
  | (Except.error err, w1) => (some (Ret.err err), ⟨s.d, w1, s.calls ++ [Call.DeployedUnits]⟩)
  | (Except.ok deployed, w1) =>
    match Deployer.loop.seed c deployed ⟨s.d, w1, s.calls ++ [Call.DeployedUnits]⟩ with
    | (Ret.nil, s1) => Deployer.loop.wait c selects s1
    | (e, s1) => (some e, s1)

/-! ## Auxiliary definitions and test doubles -/

/-- Whether a unit names the given deployer as its owner: the value that
lines 85-87 of `Deployer.changed` give to `responsible` for a found unit. -/
def responsible (unit : state.Unit) (d : Deployer) : Bool :=
  match unit.DeployerName with
  | some deployerName => decide (deployerName = d.entityName)
  | none => false

/-- The state of a run right after the lookup of `unitName` has been answered
in world `w1`. -/
def Run.afterLookup {W : Type} (s : Run W) (unitName : String) (w1 : W) : Run W :=
  ⟨s.d, w1, s.calls ++ [Call.Unit unitName]⟩

/-- The unit `unitName` is found in world `w`, is not Dead and is owned by
`entityName`: the case in which lines 91-97 of `Deployer.changed` leave a
deployed unit alone. -/
def stays {W : Type} (c : Collab W) (entityName : String) (w : W) (unitName : String) : Prop :=
  ∃ unit, (c.st.Unit unitName w).1 = Lookup.found unit ∧ unit.Life ≠ state.Life.Dead ∧
    unit.DeployerName = some entityName

/-- The run `s` with the units of `E` added to the deployed set. -/
def Run.addDeployed {W : Type} (s : Run W) (E : Finset String) : Run W :=
  ⟨⟨s.d.entityName, s.d.deployed ∪ E⟩, s.w, s.calls⟩

/-- Startup as the spec words it, to be compared with `Deployer.loop.seed`:
the deployed set is first seeded with all the units of `L`, and the seed is
then reconciled, the step being run on each unit of `L` in order (up to the
first result that is not nil). -/
def seedThenReconcile {W : Type} (c : Collab W) (L : List String) (s : Run W) : Ret × Run W :=
  Deployer.loop.changes c L (s.addDeployed L.toFinset)

/-- The world after `k` successive lookups of `unitName`, the first of them
made in world `w`. -/
def afterLookups {W : Type} (c : Collab W) (unitName : String) : Nat → W → W
  | 0, w => w
  | k + 1, w => afterLookups c unitName k (c.st.Unit unitName w).2

/-- The world in which startup makes the lookup of the unit that follows the
units `pre` in the list reported by the manager, the report having been made
in world `w1`. -/
def startupWorld {W : Type} (c : Collab W) (entityName : String) (w1 : W)
    (pre : List String) : W :=
  (Deployer.loop.seed c pre ⟨NewDeployer entityName, w1, [Call.DeployedUnits]⟩).2.w

/-- A test double for the collaborators: every operation answers from a fixed
script, whatever its arguments, and the world is the number of collaborator
calls answered so far. -/
structure Script where
  lookup : Lookup
  password : Except Error String
  setPassword : Option Error
  deployUnit : Option Error
  recallUnit : Option Error
  ensureDead : Option Error
  service : Except Error state.Service
  removeUnit : Option Error

/-- The collaborators that play a script. -/
def Script.collab (sc : Script) : Collab Nat :=
  ⟨⟨fun _ n => (sc.lookup, n + 1),
    fun _ _ n => (sc.setPassword, n + 1),
    fun _ n => (sc.ensureDead, n + 1),
    fun _ n => (sc.service, n + 1),
    fun _ _ n => (sc.removeUnit, n + 1)⟩,
   ⟨fun _ _ n => (sc.deployUnit, n + 1),
    fun _ n => (sc.recallUnit, n + 1),
    fun n => (Except.ok [], n + 1)⟩,
   fun n => (sc.password, n + 1)⟩

/-- The script in which the lookup answers `l` and every other call succeeds,
the generated password being `"pw"` and the service `"app"`. -/
def Script.allOk (l : Lookup) : Script :=
  ⟨l, Except.ok "pw", none, none, none, none, Except.ok ⟨"app"⟩, none⟩

/-- The script in which `app/3` is found Dying and owned by `machine-0`, and
`EnsureDead` fails. -/
def Script.ensureDeadFails : Script :=
  ⟨Lookup.found ⟨"app/3", state.Life.Dying, some "machine-0"⟩, Except.ok "pw", none, none, none,
    some ⟨"cannot set unit to dead"⟩, Except.ok ⟨"app"⟩, none⟩

/-- The script in which `app/1` is found Alive and owned by `machine-0`, and
`DeployUnit` fails. -/
def Script.deployUnitFails : Script :=
  ⟨Lookup.found ⟨"app/1", state.Life.Alive, some "machine-0"⟩, Except.ok "pw", none,
    some ⟨"agent already deployed"⟩, none, none, Except.ok ⟨"app"⟩, none⟩

/-- The script in which `app/2` is not found and `RecallUnit` fails. -/
def Script.recallUnitFails : Script :=
  ⟨Lookup.notFound, Except.ok "pw", none, none, some ⟨"agent not deployed"⟩, none,
    Except.ok ⟨"app"⟩, none⟩

/-- Modelled from the spec: a state store, for the `state` package that is not
among the sources.  The world is the list of units the store holds; a lookup
finds the unit of that name or reports not-found, `EnsureDead` marks the unit
Dead, `RemoveUnit` erases it from the unit namespace, `SetPassword` and
`Service` leave the units as they are, and every call succeeds.  The manager
and the password generator of this double always succeed as well. -/
def store : Collab (List state.Unit) :=
  ⟨⟨fun unitName units =>
      (match units.find? (fun x => decide (x.Name = unitName)) with
        | some unit => Lookup.found unit
        | none => Lookup.notFound, units),
    fun _ _ units => (none, units),
    fun unit units =>
      (none, units.map (fun x =>
        if x.Name = unit.Name then ⟨x.Name, state.Life.Dead, x.DeployerName⟩ else x)),
    fun _ units => (Except.ok ⟨"app"⟩, units),
    fun _ unit units => (none, units.filter (fun x => decide (x.Name ≠ unit.Name)))⟩,
   ⟨fun _ _ units => (none, units),
    fun _ units => (none, units),
    fun units => (Except.ok [], units)⟩,
   fun units => (Except.ok "pw", units)⟩

/-- Modelled from the spec: a deployment manager, for the implementations of
`Manager` that are not among the sources, following the contract written on
the interface (lines 27-38).  The world is the duplicate-free list `M` of the
units the manager has deployed.  `DeployUnit` fails if the agent is already
deployed and otherwise adds it; `RecallUnit` fails if the agent was not
deployed by the manager and otherwise removes it; `DeployedUnits` returns
`M`. -/
def setManager : Manager (List String) :=
  ⟨fun unitName _ M =>
      if unitName ∈ M then (some ⟨"agent already deployed"⟩, M) else (none, M ++ [unitName]),
    fun unitName M =>
      if unitName ∈ M then (none, M.filter (fun x => decide (x ≠ unitName)))
      else (some ⟨"agent not deployed"⟩, M),
    fun M => (Except.ok M, M)⟩

/-- The collaborators made of a state store and a password generator over a
world `S`, and of `setManager`: the world is the pair of the world of the
store and the list of the manager, and each call changes its own half. -/
def withSetManager {S : Type} (st : State S) (RandomPassword : S → Except Error String × S) :
    Collab (S × List String) :=
  ⟨⟨fun unitName w => ((st.Unit unitName w.1).1, ((st.Unit unitName w.1).2, w.2)),
    fun unit p w => ((st.SetPassword unit p w.1).1, ((st.SetPassword unit p w.1).2, w.2)),
    fun unit w => ((st.EnsureDead unit w.1).1, ((st.EnsureDead unit w.1).2, w.2)),
    fun unit w => ((st.Service unit w.1).1, ((st.Service unit w.1).2, w.2)),
    fun service unit w =>
      ((st.RemoveUnit service unit w.1).1, ((st.RemoveUnit service unit w.1).2, w.2))⟩,
   ⟨fun unitName p w =>
      ((setManager.DeployUnit unitName p w.2).1, (w.1, (setManager.DeployUnit unitName p w.2).2)),
    fun unitName w =>
      ((setManager.RecallUnit unitName w.2).1, (w.1, (setManager.RecallUnit unitName w.2).2)),
    fun w => ((setManager.DeployedUnits w.2).1, (w.1, (setManager.DeployedUnits w.2).2))⟩,
   fun w => ((RandomPassword w.1).1, ((RandomPassword w.1).2, w.2))⟩

/-- A test double for the collaborators: the manager reports the units
`deployed`, the lookup answers from the table `t`, every other call succeeds,
and the world is the number of collaborator calls answered so far. -/
def tableCollab (deployed : List String) (t : String → Lookup) : Collab Nat :=
  ⟨⟨fun unitName n => (t unitName, n + 1),
    fun _ _ n => (none, n + 1),
    fun _ n => (none, n + 1),
    fun _ n => (Except.ok ⟨"app"⟩, n + 1),
    fun _ _ n => (none, n + 1)⟩,
   ⟨fun _ _ n => (none, n + 1),
    fun _ n => (none, n + 1),
    fun n => (Except.ok deployed, n + 1)⟩,
   fun n => (Except.ok "pw", n + 1)⟩

/-- A table in which `app/1` is Alive and owned by `machine-0`, the lookup of
`app/2` fails, and no other unit is found. -/
def sampleTable (unitName : String) : Lookup :=
  if unitName = "app/1" then Lookup.found ⟨"app/1", state.Life.Alive, some "machine-0"⟩
  else if unitName = "app/2" then Lookup.failed ⟨"connection lost"⟩
  else Lookup.notFound

/-- The script in which `app/0` is found Dead and owned by `machine-0`, and
`EnsureDead` fails. -/
def Script.deadEnsureDeadFails : Script :=
  ⟨Lookup.found ⟨"app/0", state.Life.Dead, some "machine-0"⟩, Except.ok "pw", none, none, none,
    some ⟨"cannot set unit to dead"⟩, Except.ok ⟨"app"⟩, none⟩

end deployer

/-!
# Charm configuration (charm/config.go)

`Config.Validate` runs over two Go maps, whose iteration order is not fixed.
A map is an association list without duplicate keys (`AList`), and the order
of its entries is the order in which `range` visits them.  The two functions
of the `strconv` package that `Validate` calls are parameters.
-/

namespace charm

/-- A float64, as its IEEE 754 bit pattern. -/
structure Float64 where
  bits : Nat
  deriving DecidableEq, Repr

/-- A Go `interface{}` value as it occurs in `Validate`: nil, a string, an
int64 or a float64. -/
inductive Value where
  | nil
  | string (s : String)
  | int64 (i : Int)
  | float64 (f : Float64)
  deriving DecidableEq, Repr

/-- The struct `Option` (lines 15-20); its field `Type` is `Type_` here. -/
structure Option where
  Title : String
  Description : String
  Type_ : String
  Default : Value
  deriving DecidableEq, Repr

/-- The struct `Config` (lines 24-26). -/
structure Config where
  Options : AList (fun _ : String => Option)

/-- The functions of `strconv` that `Validate` calls: `ParseInt s` stands for
`strconv.ParseInt(s, 10, 64)` and `ParseFloat s` for `strconv.ParseFloat(s, 64)`;
each returns the parsed value or an error. -/
structure Strconv where
  ParseInt : String → Except String Int
  ParseFloat : String → Except String Float64

/-- The errors that `Validate` builds with `fmt.Errorf` (lines 74, 82, 88),
by the format used and its arguments. -/
inductive Error where
  | unknownOption (k : String)
  | notAnInt (k : String) (v : String)
  | notAFloat (k : String) (v : String)
  deriving DecidableEq, Repr

/-- How `Validate` ends: it returns `(processed, nil)`, it returns
`(nil, err)`, or it panics on an option type it does not know (line 92). -/
inductive Validated where
  | ok (processed : AList (fun _ : String => Value))
  | error (err : Error)
  | panic (optType : String)

/-- The first loop of `Validate` (lines 71-94), over the entries of `values`
still to be visited, with `out` as built so far. -/
def Config.Validate.values (sc : Strconv) (c : Config) :
    List (Σ _ : String, String) → AList (fun _ : String => Value) → Validated
  | [], out => Validated.ok out
  | ⟨k, v⟩ :: rest, out =>
    match c.Options.lookup k with
    | none => Validated.error (Error.unknownOption k)
    | some opt =>
      if opt.Type_ = "string" then
        Config.Validate.values sc c rest (out.insert k (Value.string v))
      else if opt.Type_ = "int" then
        match sc.ParseInt v with
        | Except.error _ => Validated.error (Error.notAnInt k v)
        | Except.ok i => Config.Validate.values sc c rest (out.insert k (Value.int64 i))
      else if opt.Type_ = "float" then
        match sc.ParseFloat v with
        | Except.error _ => Validated.error (Error.notAFloat k v)
        | Except.ok f => Config.Validate.values sc c rest (out.insert k (Value.float64 f))
      else Validated.panic opt.Type_

/-- The second loop of `Validate` (lines 95-99), over the entries of
`c.Options` still to be visited. -/
def Config.Validate.defaults :
    List (Σ _ : String, Option) → AList (fun _ : String => Value) →
      AList (fun _ : String => Value)
  | [], out => out
  | ⟨k, opt⟩ :: rest, out =>
    if k ∉ out ∧ opt.Default ≠ Value.nil then
      Config.Validate.defaults rest (out.insert k opt.Default)
    else Config.Validate.defaults rest out

/-- The method `Config.Validate` (lines 69-101). -/
def Config.Validate (sc : Strconv) (c : Config) (values : AList (fun _ : String => String)) :
    Validated :=
  match Config.Validate.values sc c values.entries ∅ with
  | Validated.ok out => Validated.ok (Config.Validate.defaults c.Options.entries out)
  | Validated.error err => Validated.error err
  | Validated.panic optType => Validated.panic optType

/-- The sign and the digits of a numeral: whether it is negative, and what
follows the optional sign. -/
def parseInt.sign : List Char → Bool × List Char
  | '+' :: r => (false, r)
  | '-' :: r => (true, r)
  | r => (false, r)

/-- A stand-in for `strconv.ParseInt(s, 10, 64)`, after its documentation: an
optional sign, then one or more decimal digits, the value lying between
`-2^63` and `2^63 - 1`. -/
def parseInt (s : String) : Except String Int :=
  let digits : List Char := (parseInt.sign s.toList).2
  if digits = [] ∨ ¬ digits.all (fun ch => decide ('0' ≤ ch ∧ ch ≤ '9')) then
    Except.error "invalid syntax"
  else
    let n : Nat := digits.foldl (fun acc ch => 10 * acc + (ch.toNat - 48)) 0
    if (parseInt.sign s.toList).1 then
      if n ≤ 2 ^ 63 then Except.ok (-(n : Int)) else Except.error "value out of range"
    else
      if n < 2 ^ 63 then Except.ok (n : Int) else Except.error "value out of range"

/-- The `strconv` double of the examples: `parseInt`, and a `ParseFloat` that
accepts only `"0"`. -/
def strconv : Strconv :=
  ⟨parseInt, fun s => if s = "0" then Except.ok ⟨0⟩ else Except.error "invalid syntax"⟩

/-- A configuration with a string option `title` (default `"My Title"`), an
int option `skill-level` (no default) and an int option `retries` (default 3). -/
def sampleConfig : Config :=
  ⟨(((∅ : AList (fun _ : String => Option)).insert "retries"
      ⟨"", "", "int", Value.int64 3⟩).insert "skill-level"
      ⟨"", "", "int", Value.nil⟩).insert "title"
      ⟨"", "", "string", Value.string "My Title"⟩⟩

/-- The values map that supplies `"5"` for `skill-level` and nothing else. -/
def sampleValues : AList (fun _ : String => String) :=
  AList.singleton "skill-level" "5"

/-- The map with `skill-level` as the int64 5, `title` as `"My Title"` and
`retries` as the int64 3. -/
def sampleProcessed : AList (fun _ : String => Value) :=
  ((AList.singleton "skill-level" (Value.int64 5)).insert "title"
    (Value.string "My Title")).insert "retries" (Value.int64 3)

end charm

/-!
# API login (state/apiserver/admin.go)

`srvAdmin.Login` with its collaborators as parameters: the authenticator
lookup of the state, the `Serve` method of the RPC connection, and the two
error values of the `common` package.  The mutex is not modelled.
-/

namespace state

/-- Modelled from the spec: the interface `state.TaggedAuthenticator`, declared
in the `state` package, which is not among the sources.  An entity has a tag
and checks a password; `CheckProvisioned` is `some check` when the entity is a
`*state.Machine`, whose method `CheckProvisioned` is `check`, and `none` for
any other entity. -/
structure TaggedAuthenticator where
  Tag : String
  PasswordValid : String → Bool
  CheckProvisioned : Option (String → Bool)

end state

namespace params

/-- The struct `params.Creds`, with the three fields `Login` reads. -/
structure Creds where
  AuthTag : String
  Password : String
  Nonce : String
  deriving DecidableEq, Repr

end params

namespace apiserver

/-- The error values of the package `common` that `Login` returns. -/
structure Common where
  ErrBadCreds : deployer.Error
  ErrNotProvisioned : deployer.Error

/-- The error `errAlreadyLoggedIn` (line 57). -/
def errAlreadyLoggedIn : deployer.Error :=
  ⟨"already logged in"⟩

/-- The three outcomes of `state.Authenticator(tag)`: an entity, an error for
which `errors.IsNotFoundError` holds, or any other error. -/
inductive Authenticated where
  | found (entity : state.TaggedAuthenticator)
  | notFound (err : deployer.Error)
  | failed (err : deployer.Error)

/-- The API root that `newSrvRoot` builds for an entity. -/
structure srvRoot where
  entity : state.TaggedAuthenticator

/-- What `Login` reaches through `a.root`: the authenticator lookup of the
state of the server, and `rpcConn.Serve`, which returns an error or nil. -/
structure initialRoot where
  Authenticator : String → Authenticated
  Serve : srvRoot → Option deployer.Error

/-- The struct `srvAdmin` (lines 51-55), without its mutex. -/
structure srvAdmin where
  root : initialRoot
  loggedIn : Bool

/-- The method `srvAdmin.apiRootForEntity` (lines 101-104). -/
def srvAdmin.apiRootForEntity (_a : srvAdmin) (entity : state.TaggedAuthenticator) :
    Except deployer.Error srvRoot :=
  Except.ok ⟨entity⟩

/-- The method `srvAdmin.Login` (lines 62-99).  The result is the error
returned (`none` for nil) and the list of the roots passed to `Serve`. -/
def srvAdmin.Login (common : Common) (a : srvAdmin) (c : params.Creds) :
    Option deployer.Error × List srvRoot :=
  if a.loggedIn then (some errAlreadyLoggedIn, [])
  else
    match a.root.Authenticator c.AuthTag with
    | Authenticated.failed err => (some err, [])
    | Authenticated.notFound _ => (some common.ErrBadCreds, [])
    | Authenticated.found entity =>
      if entity.PasswordValid c.Password = false then (some common.ErrBadCreds, [])
      else
        match a.apiRootForEntity entity with
        | Except.error err => (some err, [])
        | Except.ok newRoot =>
          if (match entity.CheckProvisioned with
              | some check => !check c.Nonce
              | none => false) = true then (some common.ErrNotProvisioned, [])
          else
            match a.root.Serve newRoot with
            | some err => (some err, [newRoot])
            | none => (none, [newRoot])

/-- A state of the server for the examples: the only entity is `machine-0`,
a machine with password `"secret"` that is provisioned with nonce `"nonce"`. -/
def sampleRoot : initialRoot :=
  ⟨fun tag =>
      if tag = "machine-0" then
        Authenticated.found ⟨"machine-0", fun p => decide (p = "secret"),
          some (fun n => decide (n = "nonce"))⟩
      else Authenticated.notFound ⟨"entity not found"⟩,
    fun _ => none⟩

/-- The error values of `common` for the examples. -/
def sampleCommon : Common :=
  ⟨⟨"invalid entity name or password"⟩, ⟨"not provisioned"⟩⟩

end apiserver

namespace deployer

/-! ## The decision table of `Deployer.changed` -/

theorem responsible_eq_true_iff (unit : state.Unit) (d : Deployer) :
    responsible unit d = true ↔ unit.DeployerName = some d.entityName := by
  unfold responsible
  cases unit.DeployerName <;> simp

theorem responsible_eq_false_iff (unit : state.Unit) (d : Deployer) :
    responsible unit d = false ↔ unit.DeployerName ≠ some d.entityName := by
  unfold responsible
  cases unit.DeployerName <;> simp

theorem changed_found {W : Type} (c : Collab W) (u : String) (s : Run W) (unit : state.Unit)
    (w1 : W) (hfound : c.st.Unit u s.w = (Lookup.found unit, w1)) :
    Deployer.changed c u s =
      Deployer.changed.act c u unit.Life (responsible unit s.d) (some unit) (s.afterLookup u w1) := by
  simp [Deployer.changed, hfound, responsible, Run.afterLookup]

theorem changed_notFound {W : Type} (c : Collab W) (u : String) (s : Run W)
    (w1 : W) (hlookup : c.st.Unit u s.w = (Lookup.notFound, w1)) :
    Deployer.changed c u s =
      Deployer.changed.act c u state.Life.Dead false none (s.afterLookup u w1) := by
  simp [Deployer.changed, hlookup, Run.afterLookup]

theorem changed_failed {W : Type} (c : Collab W) (u : String) (s : Run W) (e : Error)
    (w1 : W) (hlookup : c.st.Unit u s.w = (Lookup.failed e, w1)) :
    Deployer.changed c u s = (Ret.err e, s.afterLookup u w1) := by
  simp [Deployer.changed, hlookup, Run.afterLookup]

theorem act_unowned_deployed {W : Type} (c : Collab W) (u : String) (life : state.Life)
    (unit : Option state.Unit) (s : Run W) (hu : u ∈ s.d.deployed) :
    Deployer.changed.act c u life false unit s = Deployer.recall c u s := by
  simp only [Deployer.changed.act, hu, if_true, or_true]
  rcases h : Deployer.recall c u s with ⟨r, s1⟩
  cases r <;> simp

theorem act_unowned_undeployed {W : Type} (c : Collab W) (u : String) (life : state.Life)
    (unit : Option state.Unit) (s : Run W) (hu : u ∉ s.d.deployed) :
    Deployer.changed.act c u life false unit s = (Ret.nil, s) := by
  simp [Deployer.changed.act, hu]

theorem act_owned_deployed_not_dead {W : Type} (c : Collab W) (u : String) (life : state.Life)
    (unit : Option state.Unit) (s : Run W) (hu : u ∈ s.d.deployed)
    (hlife : life ≠ state.Life.Dead) :
    Deployer.changed.act c u life true unit s = (Ret.nil, s) := by
  simp [Deployer.changed.act, hu, hlife]

theorem act_owned_undeployed_alive {W : Type} (c : Collab W) (u : String)
    (unit : state.Unit) (s : Run W) (hu : u ∉ s.d.deployed) :
    Deployer.changed.act c u state.Life.Alive true (some unit) s = Deployer.deploy c unit s := by
  simp [Deployer.changed.act, hu]

theorem act_owned_undeployed_not_alive {W : Type} (c : Collab W) (u : String)
    (life : state.Life) (unit : state.Unit) (s : Run W) (hu : u ∉ s.d.deployed)
    (hlife : life ≠ state.Life.Alive) :
    Deployer.changed.act c u life true (some unit) s = Deployer.remove c unit s := by
  simp [Deployer.changed.act, hu, hlife]

theorem recall_of_mem {W : Type} (c : Collab W) (u : String) (s : Run W)
    (hu : u ∈ s.d.deployed) :
    Deployer.recall c u s =
      (match (c.mgr.RecallUnit u s.w).1 with
        | none => Ret.nil
        | some e => Ret.err e,
       ⟨⟨s.d.entityName,
          match (c.mgr.RecallUnit u s.w).1 with
          | none => s.d.deployed.erase u
          | some _ => s.d.deployed⟩,
        (c.mgr.RecallUnit u s.w).2, s.calls ++ [Call.RecallUnit u]⟩) := by
  rcases h : c.mgr.RecallUnit u s.w with ⟨_ | e, w1⟩ <;> simp [Deployer.recall, hu, h]

theorem act_owned_deployed_dead {W : Type} (c : Collab W) (u : String)
    (unit : state.Unit) (s : Run W) (hu : u ∈ s.d.deployed) :
    Deployer.changed.act c u state.Life.Dead true (some unit) s =
      match c.mgr.RecallUnit u s.w with
      | (some e, w1) => (Ret.err e, ⟨s.d, w1, s.calls ++ [Call.RecallUnit u]⟩)
      | (none, w1) =>
        Deployer.remove c unit
          ⟨⟨s.d.entityName, s.d.deployed.erase u⟩, w1, s.calls ++ [Call.RecallUnit u]⟩ := by
  rcases h : c.mgr.RecallUnit u s.w with ⟨_ | e, w1⟩ <;>
    simp [Deployer.changed.act, Deployer.recall, hu, h]

/-! ## What each helper does to the deployer and to the log -/

theorem remove_d {W : Type} (c : Collab W) (unit : state.Unit) (s : Run W) :
    (Deployer.remove c unit s).2.d = s.d := by
  by_cases hu : unit.Name ∈ s.d.deployed
  · simp [Deployer.remove, hu]
  by_cases hlife : unit.Life = state.Life.Alive
  · simp [Deployer.remove, hu, hlife]
  rcases hed : c.st.EnsureDead unit s.w with ⟨_ | e, w1⟩
  · rcases hsv : c.st.Service unit w1 with ⟨e | service, w2⟩
    · simp [Deployer.remove, hu, hlife, hed, hsv]
    · rcases hrm : c.st.RemoveUnit service unit w2 with ⟨_ | e, w3⟩ <;>
        simp [Deployer.remove, hu, hlife, hed, hsv, hrm]
  · simp [Deployer.remove, hu, hlife, hed]

theorem remove_calls {W : Type} (c : Collab W) (unit : state.Unit) (s : Run W) :
    ∃ ext, (Deployer.remove c unit s).2.calls = s.calls ++ ext ∧
      ∀ x ∈ ext, x = Call.EnsureDead unit.Name ∨ x = Call.Service unit.Name ∨
        ∃ service, x = Call.RemoveUnit service unit.Name := by
  by_cases hu : unit.Name ∈ s.d.deployed
  · exact ⟨[], by simp [Deployer.remove, hu]⟩
  by_cases hlife : unit.Life = state.Life.Alive
  · exact ⟨[], by simp [Deployer.remove, hu, hlife]⟩
  rcases hed : c.st.EnsureDead unit s.w with ⟨_ | e, w1⟩
  · rcases hsv : c.st.Service unit w1 with ⟨e | service, w2⟩
    · exact ⟨[Call.EnsureDead unit.Name, Call.Service unit.Name],
        by simp [Deployer.remove, hu, hlife, hed, hsv]⟩
    · rcases hrm : c.st.RemoveUnit service unit w2 with ⟨_ | e, w3⟩ <;>
        exact ⟨[Call.EnsureDead unit.Name, Call.Service unit.Name,
            Call.RemoveUnit service.Name unit.Name],
          by simp [Deployer.remove, hu, hlife, hed, hsv, hrm]⟩
  · exact ⟨[Call.EnsureDead unit.Name], by simp [Deployer.remove, hu, hlife, hed]⟩

theorem remove_not_panic {W : Type} (c : Collab W) (unit : state.Unit) (s : Run W)
    (hu : unit.Name ∉ s.d.deployed) (hlife : unit.Life ≠ state.Life.Alive) (msg : String) :
    (Deployer.remove c unit s).1 ≠ Ret.panic msg := by
  rcases hed : c.st.EnsureDead unit s.w with ⟨_ | e, w1⟩
  · rcases hsv : c.st.Service unit w1 with ⟨e | service, w2⟩
    · simp [Deployer.remove, hu, hlife, hed, hsv]
    · rcases hrm : c.st.RemoveUnit service unit w2 with ⟨_ | e, w3⟩ <;>
        simp [Deployer.remove, hu, hlife, hed, hsv, hrm]
  · simp [Deployer.remove, hu, hlife, hed]

theorem deploy_subset {W : Type} (c : Collab W) (unit : state.Unit) (s : Run W) :
    s.d.deployed ⊆ (Deployer.deploy c unit s).2.d.deployed := by
  by_cases hu : unit.Name ∈ s.d.deployed
  · simp [Deployer.deploy, hu]
  rcases hpw : c.RandomPassword s.w with ⟨e | p, w1⟩
  · simp [Deployer.deploy, hu, hpw]
  rcases hset : c.st.SetPassword unit p w1 with ⟨_ | e, w2⟩
  · rcases hdep : c.mgr.DeployUnit unit.Name p w2 with ⟨_ | e, w3⟩ <;>
      simp [Deployer.deploy, hu, hpw, hset, hdep]
  · simp [Deployer.deploy, hu, hpw, hset]

theorem deploy_d_of_ne_nil {W : Type} (c : Collab W) (unit : state.Unit) (s : Run W)
    (h : (Deployer.deploy c unit s).1 ≠ Ret.nil) :
    (Deployer.deploy c unit s).2.d = s.d := by
  by_cases hu : unit.Name ∈ s.d.deployed
  · simp [Deployer.deploy, hu]
  rcases hpw : c.RandomPassword s.w with ⟨e | p, w1⟩
  · simp [Deployer.deploy, hu, hpw]
  rcases hset : c.st.SetPassword unit p w1 with ⟨_ | e, w2⟩
  · rcases hdep : c.mgr.DeployUnit unit.Name p w2 with ⟨_ | e, w3⟩
    · simp [Deployer.deploy, hu, hpw, hset, hdep] at h
    · simp [Deployer.deploy, hu, hpw, hset, hdep]
  · simp [Deployer.deploy, hu, hpw, hset]

theorem deploy_calls {W : Type} (c : Collab W) (unit : state.Unit) (s : Run W) :
    ∃ ext, (Deployer.deploy c unit s).2.calls = s.calls ++ ext ∧
      ∀ x ∈ ext, x = Call.RandomPassword ∨ (∃ p, x = Call.SetPassword unit.Name p) ∨
        ∃ p, x = Call.DeployUnit unit.Name p := by
  by_cases hu : unit.Name ∈ s.d.deployed
  · exact ⟨[], by simp [Deployer.deploy, hu]⟩
  rcases hpw : c.RandomPassword s.w with ⟨e | p, w1⟩
  · exact ⟨[Call.RandomPassword], by simp [Deployer.deploy, hu, hpw]⟩
  rcases hset : c.st.SetPassword unit p w1 with ⟨_ | e, w2⟩
  · rcases hdep : c.mgr.DeployUnit unit.Name p w2 with ⟨_ | e, w3⟩ <;>
      exact ⟨[Call.RandomPassword, Call.SetPassword unit.Name p, Call.DeployUnit unit.Name p],
        by simp [Deployer.deploy, hu, hpw, hset, hdep]⟩
  · exact ⟨[Call.RandomPassword, Call.SetPassword unit.Name p],
      by simp [Deployer.deploy, hu, hpw, hset]⟩

theorem recall_calls {W : Type} (c : Collab W) (u : String) (s : Run W) :
    (Deployer.recall c u s).2.calls = s.calls ∨
      (Deployer.recall c u s).2.calls = s.calls ++ [Call.RecallUnit u] := by
  by_cases hu : u ∈ s.d.deployed
  · right
    rw [recall_of_mem c u s hu]
  · left
    simp [Deployer.recall, hu]

/-- The log of one step: the lookup, followed either by calls of `deploy`
only, or by calls of `recall` and `remove` only. -/
theorem changed_calls {W : Type} (c : Collab W) (u : String) (s : Run W) :
    (∃ ext, (Deployer.changed c u s).2.calls = s.calls ++ Call.Unit u :: ext ∧
      ∀ x ∈ ext, x = Call.RandomPassword ∨ (∃ v p, x = Call.SetPassword v p) ∨
        ∃ v p, x = Call.DeployUnit v p) ∨
    (∃ ext, (Deployer.changed c u s).2.calls = s.calls ++ Call.Unit u :: ext ∧
      ∀ x ∈ ext, x = Call.RecallUnit u ∨ (∃ v, x = Call.EnsureDead v) ∨
        (∃ v, x = Call.Service v) ∨ ∃ service v, x = Call.RemoveUnit service v) := by
  have hnil : ∀ w1 : W, (s.afterLookup u w1).calls = s.calls ++ Call.Unit u :: [] := by
    intro w1
    simp [Run.afterLookup]
  have hrecall : ∀ w1 : W, ∃ ext,
      (Deployer.recall c u (s.afterLookup u w1)).2.calls = s.calls ++ Call.Unit u :: ext ∧
      ∀ x ∈ ext, x = Call.RecallUnit u ∨ (∃ v, x = Call.EnsureDead v) ∨
        (∃ v, x = Call.Service v) ∨ ∃ service v, x = Call.RemoveUnit service v := by
    intro w1
    rcases recall_calls c u (s.afterLookup u w1) with h | h
    · exact ⟨[], by rw [h, hnil], by simp⟩
    · exact ⟨[Call.RecallUnit u], by rw [h]; simp [Run.afterLookup], by simp⟩
  have hremove : ∀ (unit : state.Unit) (s1 : Run W) (pre : List Call),
      s1.calls = s.calls ++ Call.Unit u :: pre → (∀ x ∈ pre, x = Call.RecallUnit u) →
      ∃ ext, (Deployer.remove c unit s1).2.calls = s.calls ++ Call.Unit u :: ext ∧
      ∀ x ∈ ext, x = Call.RecallUnit u ∨ (∃ v, x = Call.EnsureDead v) ∨
        (∃ v, x = Call.Service v) ∨ ∃ service v, x = Call.RemoveUnit service v := by
    intro unit s1 pre hs1 hpre
    obtain ⟨ext, hext, hall⟩ := remove_calls c unit s1
    refine ⟨pre ++ ext, by rw [hext, hs1]; simp, ?_⟩
    intro x hx
    rcases List.mem_append.1 hx with hx | hx
    · exact Or.inl (hpre x hx)
    · rcases hall x hx with h | h | ⟨service, h⟩
      · exact Or.inr (Or.inl ⟨_, h⟩)
      · exact Or.inr (Or.inr (Or.inl ⟨_, h⟩))
      · exact Or.inr (Or.inr (Or.inr ⟨service, _, h⟩))
  rcases hlookup : c.st.Unit u s.w with ⟨unit | _ | e, w1⟩
  · rw [changed_found c u s unit w1 hlookup]
    by_cases hu : u ∈ (s.afterLookup u w1).d.deployed
    · cases hresp : responsible unit s.d
      · rw [act_unowned_deployed c u _ _ _ hu]
        exact Or.inr (hrecall w1)
      · by_cases hdead : unit.Life = state.Life.Dead
        · rw [hdead, act_owned_deployed_dead c u unit _ hu]
          rcases hrec : c.mgr.RecallUnit u (s.afterLookup u w1).w with ⟨_ | e, w2⟩
          · exact Or.inr (hremove unit _ [Call.RecallUnit u] (by simp [Run.afterLookup])
              (by simp))
          · exact Or.inr ⟨[Call.RecallUnit u], by simp [Run.afterLookup], by simp⟩
        · rw [act_owned_deployed_not_dead c u _ _ _ hu hdead]
          exact Or.inl ⟨[], hnil w1, by simp⟩
    · cases hresp : responsible unit s.d
      · rw [act_unowned_undeployed c u _ _ _ hu]
        exact Or.inl ⟨[], hnil w1, by simp⟩
      · by_cases halive : unit.Life = state.Life.Alive
        · rw [halive, act_owned_undeployed_alive c u unit _ hu]
          obtain ⟨ext, hext, hall⟩ := deploy_calls c unit (s.afterLookup u w1)
          refine Or.inl ⟨ext, by rw [hext]; simp [Run.afterLookup], ?_⟩
          intro x hx
          rcases hall x hx with h | ⟨p, h⟩ | ⟨p, h⟩
          · exact Or.inl h
          · exact Or.inr (Or.inl ⟨_, p, h⟩)
          · exact Or.inr (Or.inr ⟨_, p, h⟩)
        · rw [act_owned_undeployed_not_alive c u _ unit _ hu halive]
          exact Or.inr (hremove unit _ [] (by simp [Run.afterLookup]) (by simp))
  · rw [changed_notFound c u s w1 hlookup]
    by_cases hu : u ∈ (s.afterLookup u w1).d.deployed
    · rw [act_unowned_deployed c u _ _ _ hu]
      exact Or.inr (hrecall w1)
    · rw [act_unowned_undeployed c u _ _ _ hu]
      exact Or.inl ⟨[], hnil w1, by simp⟩
  · rw [changed_failed c u s e w1 hlookup]
    exact Or.inl ⟨[], hnil w1, by simp⟩

/-! ## Repeated steps -/

/-- A step for a deployed unit that is found, owned by the deployer and not
Dead only adds the lookup to the log. -/
theorem changed_converged {W : Type} (c : Collab W) (u : String) (s : Run W)
    (unit : state.Unit) (hu : u ∈ s.d.deployed)
    (hfound : (c.st.Unit u s.w).1 = Lookup.found unit)
    (hown : unit.DeployerName = some s.d.entityName)
    (hlife : unit.Life ≠ state.Life.Dead) :
    Deployer.changed c u s = (Ret.nil, s.afterLookup u (c.st.Unit u s.w).2) := by
  have hlookup : c.st.Unit u s.w = (Lookup.found unit, (c.st.Unit u s.w).2) := by
    rw [← hfound]
  rw [changed_found c u s unit _ hlookup, (responsible_eq_true_iff unit s.d).2 hown]
  exact act_owned_deployed_not_dead c u _ _ _ hu hlife

/-- Running the step `k` more times on a deployed unit that each of the `k`
lookups finds Alive and owned issues `k` lookups and nothing else. -/
theorem changes_replicate_lookups {W : Type} (c : Collab W) (u : String) :
    ∀ (k : Nat) (s : Run W), u ∈ s.d.deployed →
      (∀ j, j < k → ∃ unit, (c.st.Unit u (afterLookups c u j s.w)).1 = Lookup.found unit ∧
        unit.Life = state.Life.Alive ∧ unit.DeployerName = some s.d.entityName) →
      Deployer.loop.changes c (List.replicate k u) s =
        (Ret.nil, ⟨s.d, afterLookups c u k s.w, s.calls ++ List.replicate k (Call.Unit u)⟩) := by
  intro k
  induction k with
  | zero =>
    intro s _ _
    simp [Deployer.loop.changes, afterLookups]
  | succ k ih =>
    intro s hu hfound
    obtain ⟨unit, hunit, hlife, hown⟩ := hfound 0 (Nat.succ_pos k)
    have hstep := changed_converged c u s unit hu hunit hown (by rw [hlife]; decide)
    have hrest := ih (s.afterLookup u (c.st.Unit u s.w).2) hu
      (fun j hj => hfound (j + 1) (Nat.succ_lt_succ hj))
    simp only [List.replicate_succ, Deployer.loop.changes, hstep, hrest]
    simp [Run.afterLookup, afterLookups]

/-! ## A step followed by a second step -/

theorem deploy_of_nil {W : Type} (c : Collab W) (unit : state.Unit) (s : Run W)
    (h : (Deployer.deploy c unit s).1 = Ret.nil) :
    (Deployer.deploy c unit s).2.d = ⟨s.d.entityName, insert unit.Name s.d.deployed⟩ := by
  by_cases hu : unit.Name ∈ s.d.deployed
  · simp [Deployer.deploy, hu] at h
  rcases hpw : c.RandomPassword s.w with ⟨e | p, w1⟩
  · simp [Deployer.deploy, hu, hpw] at h
  rcases hset : c.st.SetPassword unit p w1 with ⟨_ | e, w2⟩
  · rcases hdep : c.mgr.DeployUnit unit.Name p w2 with ⟨_ | e, w3⟩
    · simp [Deployer.deploy, hu, hpw, hset, hdep]
    · simp [Deployer.deploy, hu, hpw, hset, hdep] at h
  · simp [Deployer.deploy, hu, hpw, hset] at h

/-- Three situations in which a step issues no `DeployUnit`, no `RecallUnit`
and reaches no panic: the unit is not deployed and is not found or not owned;
the unit is not deployed, owned and not Alive (the step is a removal); the
unit is deployed, owned and not Dead. -/
theorem changed_quiet {W : Type} (c : Collab W) (u : String) (d : Deployer) (w : W)
    (h : (u ∉ d.deployed ∧ ((c.st.Unit u w).1 = Lookup.notFound ∨
          ∃ unit, (c.st.Unit u w).1 = Lookup.found unit ∧
            (unit.DeployerName ≠ some d.entityName ∨
              (unit.Name = u ∧ unit.Life ≠ state.Life.Alive)))) ∨
        (u ∈ d.deployed ∧ ∃ unit, (c.st.Unit u w).1 = Lookup.found unit ∧
          unit.DeployerName = some d.entityName ∧ unit.Life ≠ state.Life.Dead)) :
    (∀ v p, Call.DeployUnit v p ∉ (Deployer.changed c u ⟨d, w, []⟩).2.calls) ∧
    (∀ v, Call.RecallUnit v ∉ (Deployer.changed c u ⟨d, w, []⟩).2.calls) ∧
    ∀ msg, (Deployer.changed c u ⟨d, w, []⟩).1 ≠ Ret.panic msg := by
  have hpair : ∀ l : Lookup, (c.st.Unit u w).1 = l → c.st.Unit u w = (l, (c.st.Unit u w).2) := by
    intro l hl
    rw [← hl]
  rcases h with ⟨hu, hnf | ⟨unit, hfound, hcase⟩⟩ | ⟨hu, unit, hfound, hown, hlife⟩
  · rw [changed_notFound c u _ _ (hpair _ hnf), act_unowned_undeployed c u _ _ _ hu]
    simp [Run.afterLookup]
  · rw [changed_found c u _ unit _ (hpair _ hfound)]
    by_cases hown : unit.DeployerName = some d.entityName
    · rcases hcase with hne | ⟨hname, hlife⟩
      · exact absurd hown hne
      · rw [(responsible_eq_true_iff unit d).2 hown,
          act_owned_undeployed_not_alive c u _ unit _ hu hlife]
        subst hname
        obtain ⟨ext, hext, hall⟩ := remove_calls c unit
          (Run.afterLookup ⟨d, w, []⟩ unit.Name (c.st.Unit unit.Name w).2)
        refine ⟨?_, ?_, remove_not_panic c unit _ hu hlife⟩
        · intro v p hmem
          rw [hext] at hmem
          simp only [Run.afterLookup, List.nil_append, List.mem_append, List.mem_singleton,
            reduceCtorEq, false_or] at hmem
          rcases hall _ hmem with h | h | ⟨service, h⟩ <;> cases h
        · intro v hmem
          rw [hext] at hmem
          simp only [Run.afterLookup, List.nil_append, List.mem_append, List.mem_singleton,
            reduceCtorEq, false_or] at hmem
          rcases hall _ hmem with h | h | ⟨service, h⟩ <;> cases h
    · rw [(responsible_eq_false_iff unit d).2 hown, act_unowned_undeployed c u _ _ _ hu]
      simp [Run.afterLookup]
  · rw [changed_found c u _ unit _ (hpair _ hfound), (responsible_eq_true_iff unit d).2 hown,
      act_owned_deployed_not_dead c u _ _ _ hu hlife]
    simp [Run.afterLookup]

/-- What a step that returns nil leaves behind: the entity name is kept, the
lookup did not fail, and either `u` is no longer (or never was) deployed while
not found or not owned, or `u` is deployed, owned, not Dead and the step
issued no `EnsureDead` or `RemoveUnit`, or `u` is not deployed, owned and not
Alive. -/
theorem changed_nil_summary {W : Type} (c : Collab W) (u : String) (d : Deployer) (w : W)
    (hnil : (Deployer.changed c u ⟨d, w, []⟩).1 = Ret.nil)
    (hname : ∀ unit, (c.st.Unit u w).1 = Lookup.found unit → unit.Name = u) :
    (Deployer.changed c u ⟨d, w, []⟩).2.d.entityName = d.entityName ∧
    (((c.st.Unit u w).1 = Lookup.notFound ∧
        u ∉ (Deployer.changed c u ⟨d, w, []⟩).2.d.deployed) ∨
      (∃ unit, (c.st.Unit u w).1 = Lookup.found unit ∧
        unit.DeployerName ≠ some d.entityName ∧
        u ∉ (Deployer.changed c u ⟨d, w, []⟩).2.d.deployed) ∨
      (∃ unit, (c.st.Unit u w).1 = Lookup.found unit ∧
        unit.DeployerName = some d.entityName ∧
        u ∈ (Deployer.changed c u ⟨d, w, []⟩).2.d.deployed ∧
        unit.Life ≠ state.Life.Dead ∧
        (∀ v, Call.EnsureDead v ∉ (Deployer.changed c u ⟨d, w, []⟩).2.calls) ∧
        ∀ service v, Call.RemoveUnit service v ∉ (Deployer.changed c u ⟨d, w, []⟩).2.calls) ∨
      (∃ unit, (c.st.Unit u w).1 = Lookup.found unit ∧
        unit.DeployerName = some d.entityName ∧
        u ∉ (Deployer.changed c u ⟨d, w, []⟩).2.d.deployed ∧
        unit.Life ≠ state.Life.Alive)) := by
  have hrecall : ∀ w1 : W, u ∈ d.deployed →
      (Deployer.recall c u (Run.afterLookup ⟨d, w, []⟩ u w1)).1 = Ret.nil →
      (Deployer.recall c u (Run.afterLookup ⟨d, w, []⟩ u w1)).2.d.entityName = d.entityName ∧
      u ∉ (Deployer.recall c u (Run.afterLookup ⟨d, w, []⟩ u w1)).2.d.deployed := by
    intro w1 hu h
    rw [recall_of_mem c u _ hu] at h ⊢
    simp only [Run.afterLookup] at h ⊢
    rcases hrec : c.mgr.RecallUnit u w1 with ⟨_ | e, w2⟩
    · simp
    · simp [hrec] at h
  rcases hlookup : c.st.Unit u w with ⟨unit | _ | e, w1⟩
  · have hstep := changed_found c u ⟨d, w, []⟩ unit w1 hlookup
    by_cases hu : u ∈ d.deployed
    · cases hresp : responsible unit d
      · have hown := (responsible_eq_false_iff unit d).1 hresp
        rw [hresp, act_unowned_deployed c u _ _ _ hu] at hstep
        rw [hstep] at hnil ⊢
        exact ⟨(hrecall w1 hu hnil).1, Or.inr (Or.inl ⟨unit, rfl, hown, (hrecall w1 hu hnil).2⟩)⟩
      · have hown := (responsible_eq_true_iff unit d).1 hresp
        by_cases hdead : unit.Life = state.Life.Dead
        · rw [hresp, hdead, act_owned_deployed_dead c u unit _ hu] at hstep
          simp only [Run.afterLookup] at hstep
          rcases hrec : c.mgr.RecallUnit u w1 with ⟨_ | e, w2⟩
          · rw [hrec] at hstep
            simp only at hstep
            rw [hstep, remove_d]
            exact ⟨rfl, Or.inr (Or.inr (Or.inr ⟨unit, rfl, hown, Finset.not_mem_erase _ _,
              by rw [hdead]; decide⟩))⟩
          · rw [hrec] at hstep
            simp only at hstep
            rw [hstep] at hnil
            simp at hnil
        · rw [hresp, act_owned_deployed_not_dead c u _ _ _ hu hdead] at hstep
          rw [hstep]
          exact ⟨rfl, Or.inr (Or.inr (Or.inl ⟨unit, rfl, hown, hu, hdead,
            by simp [Run.afterLookup], by simp [Run.afterLookup]⟩))⟩
    · cases hresp : responsible unit d
      · have hown := (responsible_eq_false_iff unit d).1 hresp
        rw [hresp, act_unowned_undeployed c u _ _ _ hu] at hstep
        rw [hstep]
        exact ⟨rfl, Or.inr (Or.inl ⟨unit, rfl, hown, hu⟩)⟩
      · have hown := (responsible_eq_true_iff unit d).1 hresp
        by_cases halive : unit.Life = state.Life.Alive
        · rw [hresp, halive, act_owned_undeployed_alive c u unit _ hu] at hstep
          rw [hstep] at hnil ⊢
          have hnm : unit.Name = u := hname unit (by rw [hlookup])
          obtain ⟨ext, hext, hall⟩ := deploy_calls c unit (Run.afterLookup ⟨d, w, []⟩ u w1)
          rw [deploy_of_nil c unit _ hnil, hext]
          refine ⟨rfl, Or.inr (Or.inr (Or.inl ⟨unit, rfl, hown, ?_, by rw [halive]; decide,
            ?_, ?_⟩))⟩
          · rw [hnm]
            exact Finset.mem_insert_self _ _
          · intro v hmem
            simp only [Run.afterLookup, List.nil_append, List.mem_append, List.mem_singleton,
              reduceCtorEq, false_or] at hmem
            rcases hall _ hmem with h | ⟨p, h⟩ | ⟨p, h⟩ <;> cases h
          · intro service v hmem
            simp only [Run.afterLookup, List.nil_append, List.mem_append, List.mem_singleton,
              reduceCtorEq, false_or] at hmem
            rcases hall _ hmem with h | ⟨p, h⟩ | ⟨p, h⟩ <;> cases h
        · rw [hresp, act_owned_undeployed_not_alive c u _ unit _ hu halive] at hstep
          rw [hstep, remove_d]
          exact ⟨rfl, Or.inr (Or.inr (Or.inr ⟨unit, rfl, hown, hu, halive⟩))⟩
  · have hstep := changed_notFound c u ⟨d, w, []⟩ w1 hlookup
    by_cases hu : u ∈ d.deployed
    · rw [act_unowned_deployed c u _ _ _ hu] at hstep
      rw [hstep] at hnil ⊢
      exact ⟨(hrecall w1 hu hnil).1, Or.inl ⟨rfl, (hrecall w1 hu hnil).2⟩⟩
    · rw [act_unowned_undeployed c u _ _ _ hu] at hstep
      rw [hstep]
      exact ⟨rfl, Or.inl ⟨rfl, hu⟩⟩
  · rw [changed_failed c u ⟨d, w, []⟩ e w1 hlookup] at hnil
    simp at hnil

/-! ## Panics -/

theorem deploy_not_panic {W : Type} (c : Collab W) (unit : state.Unit) (s : Run W)
    (hu : unit.Name ∉ s.d.deployed) (msg : String) :
    (Deployer.deploy c unit s).1 ≠ Ret.panic msg := by
  rcases hpw : c.RandomPassword s.w with ⟨e | p, w1⟩
  · simp [Deployer.deploy, hu, hpw]
  rcases hset : c.st.SetPassword unit p w1 with ⟨_ | e, w2⟩
  · rcases hdep : c.mgr.DeployUnit unit.Name p w2 with ⟨_ | e, w3⟩ <;>
      simp [Deployer.deploy, hu, hpw, hset, hdep]
  · simp [Deployer.deploy, hu, hpw, hset]

theorem recall_not_panic {W : Type} (c : Collab W) (u : String) (s : Run W)
    (hu : u ∈ s.d.deployed) (msg : String) :
    (Deployer.recall c u s).1 ≠ Ret.panic msg := by
  rw [recall_of_mem c u s hu]
  cases (c.mgr.RecallUnit u s.w).1 <;> simp

/-! ## The loops -/

/-- The batch loop on a concatenation runs the first part and, if that
returns nil, the second part from where the first ended. -/
theorem changes_append {W : Type} (c : Collab W) (xs ys : List String) (s : Run W) :
    Deployer.loop.changes c (xs ++ ys) s =
      match Deployer.loop.changes c xs s with
      | (Ret.nil, s1) => Deployer.loop.changes c ys s1
      | (e, s1) => (e, s1) := by
  induction xs generalizing s with
  | nil => simp [Deployer.loop.changes]
  | cons x xs ih =>
    simp only [List.cons_append, Deployer.loop.changes]
    rcases h : Deployer.changed c x s with ⟨r, s1⟩
    cases r <;> simp [ih]

/-! ## Invariants of the deployed set and the world -/

theorem remove_preserves {W : Type} (c : Collab W) (P : Finset String → W → Prop)
    (hEnsureDead : ∀ D unit w, P D w → P D (c.st.EnsureDead unit w).2)
    (hService : ∀ D unit w, P D w → P D (c.st.Service unit w).2)
    (hRemoveUnit : ∀ D service unit w, P D w → P D (c.st.RemoveUnit service unit w).2)
    (unit : state.Unit) (s : Run W) (hP : P s.d.deployed s.w) :
    P (Deployer.remove c unit s).2.d.deployed (Deployer.remove c unit s).2.w := by
  by_cases hu : unit.Name ∈ s.d.deployed
  · simpa [Deployer.remove, hu] using hP
  by_cases hlife : unit.Life = state.Life.Alive
  · simpa [Deployer.remove, hu, hlife] using hP
  have h1 := hEnsureDead _ unit _ hP
  rcases hed : c.st.EnsureDead unit s.w with ⟨_ | e, w1⟩
  · rw [hed] at h1
    have h2 := hService _ unit _ h1
    rcases hsv : c.st.Service unit w1 with ⟨e | service, w2⟩
    · rw [hsv] at h2
      simpa [Deployer.remove, hu, hlife, hed, hsv] using h2
    · rw [hsv] at h2
      have h3 := hRemoveUnit _ service unit _ h2
      rcases hrm : c.st.RemoveUnit service unit w2 with ⟨_ | e, w3⟩ <;>
      · rw [hrm] at h3
        simpa [Deployer.remove, hu, hlife, hed, hsv, hrm] using h3
  · rw [hed] at h1
    simpa [Deployer.remove, hu, hlife, hed] using h1

theorem deploy_preserves {W : Type} (c : Collab W) (P : Finset String → W → Prop)
    (hRandomPassword : ∀ D w, P D w → P D (c.RandomPassword w).2)
    (hSetPassword : ∀ D unit p w, P D w → P D (c.st.SetPassword unit p w).2)
    (hDeployUnit : ∀ D v p w, P D w →
      P (match (c.mgr.DeployUnit v p w).1 with
          | none => insert v D
          | some _ => D) (c.mgr.DeployUnit v p w).2)
    (unit : state.Unit) (s : Run W) (hP : P s.d.deployed s.w) :
    P (Deployer.deploy c unit s).2.d.deployed (Deployer.deploy c unit s).2.w := by
  by_cases hu : unit.Name ∈ s.d.deployed
  · simpa [Deployer.deploy, hu] using hP
  have h1 := hRandomPassword _ _ hP
  rcases hpw : c.RandomPassword s.w with ⟨e | p, w1⟩
  · rw [hpw] at h1
    simpa [Deployer.deploy, hu, hpw] using h1
  rw [hpw] at h1
  have h2 := hSetPassword _ unit p _ h1
  rcases hset : c.st.SetPassword unit p w1 with ⟨_ | e, w2⟩
  · rw [hset] at h2
    have h3 := hDeployUnit _ unit.Name p _ h2
    rcases hdep : c.mgr.DeployUnit unit.Name p w2 with ⟨_ | e, w3⟩ <;>
    · rw [hdep] at h3
      simpa [Deployer.deploy, hu, hpw, hset, hdep] using h3
  · rw [hset] at h2
    simpa [Deployer.deploy, hu, hpw, hset] using h2

theorem recall_preserves {W : Type} (c : Collab W) (u : String)
    (P : Finset String → W → Prop)
    (hRecallUnit : ∀ D w, P D w →
      P (match (c.mgr.RecallUnit u w).1 with
          | none => D.erase u
          | some _ => D) (c.mgr.RecallUnit u w).2)
    (s : Run W) (hP : P s.d.deployed s.w) :
    P (Deployer.recall c u s).2.d.deployed (Deployer.recall c u s).2.w := by
  by_cases hu : u ∈ s.d.deployed
  · rw [recall_of_mem c u s hu]
    exact hRecallUnit _ _ hP
  · simpa [Deployer.recall, hu] using hP

/-- A property of the deployed set and the world that every collaborator call
keeps, `DeployUnit` and `RecallUnit` being taken together with the change of
the deployed set that follows their success, is kept by a step. -/
theorem changed_preserves {W : Type} (c : Collab W) (u : String)
    (P : Finset String → W → Prop)
    (hUnit : ∀ D w, P D w → P D (c.st.Unit u w).2)
    (hRandomPassword : ∀ D w, P D w → P D (c.RandomPassword w).2)
    (hSetPassword : ∀ D unit p w, P D w → P D (c.st.SetPassword unit p w).2)
    (hEnsureDead : ∀ D unit w, P D w → P D (c.st.EnsureDead unit w).2)
    (hService : ∀ D unit w, P D w → P D (c.st.Service unit w).2)
    (hRemoveUnit : ∀ D service unit w, P D w → P D (c.st.RemoveUnit service unit w).2)
    (hDeployUnit : ∀ D v p w, P D w →
      P (match (c.mgr.DeployUnit v p w).1 with
          | none => insert v D
          | some _ => D) (c.mgr.DeployUnit v p w).2)
    (hRecallUnit : ∀ D w, P D w →
      P (match (c.mgr.RecallUnit u w).1 with
          | none => D.erase u
          | some _ => D) (c.mgr.RecallUnit u w).2)
    (s : Run W) (hP : P s.d.deployed s.w) :
    P (Deployer.changed c u s).2.d.deployed (Deployer.changed c u s).2.w := by
  have h0 := hUnit _ _ hP
  have hact : ∀ (life : state.Life) (resp : Bool) (unit : Option state.Unit) (s1 : Run W),
      P s1.d.deployed s1.w →
      P (Deployer.changed.act c u life resp unit s1).2.d.deployed
        (Deployer.changed.act c u life resp unit s1).2.w := by
    intro life resp unit s1 h1
    have hrec := recall_preserves c u P hRecallUnit s1 h1
    unfold Deployer.changed.act
    by_cases hu : u ∈ s1.d.deployed
    · by_cases hcond : life = state.Life.Dead ∨ resp = false
      · simp only [hu, hcond, if_true]
        rcases hr : Deployer.recall c u s1 with ⟨r, s2⟩
        rw [hr] at hrec
        cases r
        · simp only
          split
          · split
            · cases unit with
              | none => exact hrec
              | some un =>
                exact deploy_preserves c P hRandomPassword hSetPassword hDeployUnit un s2 hrec
            · cases unit with
              | none => exact hrec
              | some un =>
                exact remove_preserves c P hEnsureDead hService hRemoveUnit un s2 hrec
          · exact hrec
        · exact hrec
        · exact hrec
      · simp only [hu, hcond, if_true, if_false, not_true_eq_false, and_false]
        exact h1
    · simp only [hu, if_false, not_false_eq_true, and_true]
      split
      · split
        · cases unit with
          | none => exact h1
          | some un =>
            exact deploy_preserves c P hRandomPassword hSetPassword hDeployUnit un s1 h1
        · cases unit with
          | none => exact h1
          | some un =>
            exact remove_preserves c P hEnsureDead hService hRemoveUnit un s1 h1
      · exact h1
  rcases hlookup : c.st.Unit u s.w with ⟨unit | _ | e, w1⟩
  · rw [hlookup] at h0
    rw [changed_found c u s unit w1 hlookup]
    exact hact _ _ _ _ h0
  · rw [hlookup] at h0
    rw [changed_notFound c u s w1 hlookup]
    exact hact _ _ _ _ h0
  · rw [hlookup] at h0
    rw [changed_failed c u s e w1 hlookup]
    exact h0

/-! ## The deployed set and the set manager -/

/-- With the set manager, a step keeps the deployed set within the list of the
manager. -/
theorem changed_subset_manager {S : Type} (st : State S)
    (rp : S → Except Error String × S) (u : String) (s : Run (S × List String))
    (hsub : ∀ v ∈ s.d.deployed, v ∈ s.w.2) :
    ∀ v ∈ (Deployer.changed (withSetManager st rp) u s).2.d.deployed,
      v ∈ (Deployer.changed (withSetManager st rp) u s).2.w.2 := by
  refine changed_preserves (withSetManager st rp) u (fun D w => ∀ v ∈ D, v ∈ w.2)
    (fun D w h => h) (fun D w h => h) (fun D unit p w h => h) (fun D unit w h => h)
    (fun D unit w h => h) (fun D service unit w h => h) ?_ ?_ s hsub
  · intro D v p w h
    by_cases hv : v ∈ w.2
    · simpa [withSetManager, setManager, hv] using h
    · simp only [withSetManager, setManager, hv, if_false]
      intro x hx
      rcases Finset.mem_insert.1 hx with rfl | hx
      · simp
      · exact List.mem_append_left _ (h x hx)
  · intro D w h
    by_cases hu : u ∈ w.2
    · simp only [withSetManager, setManager, hu, if_true]
      intro x hx
      have hx' := Finset.mem_erase.1 hx
      simp [hx'.1, h x hx'.2]
    · simpa [withSetManager, setManager, hu] using h

/-- With the set manager, a step for `u` keeps every other unit in the list of
the manager. -/
theorem changed_keeps_manager {S : Type} (st : State S)
    (rp : S → Except Error String × S) (u v : String) (hvu : v ≠ u)
    (s : Run (S × List String)) (hv : v ∈ s.w.2) :
    v ∈ (Deployer.changed (withSetManager st rp) u s).2.w.2 := by
  refine changed_preserves (withSetManager st rp) u (fun _ w => v ∈ w.2)
    (fun D w h => h) (fun D w h => h) (fun D unit p w h => h) (fun D unit w h => h)
    (fun D unit w h => h) (fun D service unit w h => h) ?_ ?_ s hv
  · intro D x p w h
    by_cases hx : x ∈ w.2
    · simpa [withSetManager, setManager, hx] using h
    · simp only [withSetManager, setManager, hx, if_false]
      exact List.mem_append_left _ h
  · intro D w h
    by_cases hu : u ∈ w.2
    · simp only [withSetManager, setManager, hu, if_true]
      simp [h, hvu]
    · simpa [withSetManager, setManager, hu] using h

/-- With the set manager, seeding from a duplicate-free list of units that the
manager has deployed keeps the deployed set within the list of the manager. -/
theorem seed_subset_manager {S : Type} (st : State S)
    (rp : S → Except Error String × S) :
    ∀ (L : List String) (s : Run (S × List String)), L.Nodup →
      (∀ v ∈ s.d.deployed, v ∈ s.w.2) → (∀ v ∈ L, v ∈ s.w.2) →
      ∀ v ∈ (Deployer.loop.seed (withSetManager st rp) L s).2.d.deployed,
        v ∈ (Deployer.loop.seed (withSetManager st rp) L s).2.w.2 := by
  intro L
  induction L with
  | nil =>
    intro s _ hsub _
    simpa [Deployer.loop.seed] using hsub
  | cons u rest ih =>
    intro s hnodup hsub hL
    have hu : u ∈ s.w.2 := hL u (List.mem_cons_self _ _)
    have hsub1 : ∀ v ∈ (⟨⟨s.d.entityName, insert u s.d.deployed⟩, s.w, s.calls⟩ :
        Run (S × List String)).d.deployed,
        v ∈ (⟨⟨s.d.entityName, insert u s.d.deployed⟩, s.w, s.calls⟩ :
          Run (S × List String)).w.2 := by
      intro v hv
      rcases Finset.mem_insert.1 hv with rfl | hv
      · exact hu
      · exact hsub v hv
    have hstep := changed_subset_manager st rp u _ hsub1
    have hrest : ∀ v ∈ rest, v ∈ (Deployer.changed (withSetManager st rp) u
        ⟨⟨s.d.entityName, insert u s.d.deployed⟩, s.w, s.calls⟩).2.w.2 := by
      intro v hv
      have hvu : v ≠ u := by
        rintro rfl
        exact (List.nodup_cons.1 hnodup).1 hv
      exact changed_keeps_manager st rp u v hvu _ (hL v (List.mem_cons_of_mem _ hv))
    simp only [Deployer.loop.seed]
    rcases hr : Deployer.changed (withSetManager st rp) u
        ⟨⟨s.d.entityName, insert u s.d.deployed⟩, s.w, s.calls⟩ with ⟨r, s1⟩
    rw [hr] at hstep hrest
    cases r
    · exact ih s1 (List.nodup_cons.1 hnodup).2 hstep hrest
    · exact hstep
    · exact hstep

/-- With the set manager, the batch loop keeps the deployed set within the
list of the manager. -/
theorem changes_subset_manager {S : Type} (st : State S)
    (rp : S → Except Error String × S) :
    ∀ (L : List String) (s : Run (S × List String)),
      (∀ v ∈ s.d.deployed, v ∈ s.w.2) →
      ∀ v ∈ (Deployer.loop.changes (withSetManager st rp) L s).2.d.deployed,
        v ∈ (Deployer.loop.changes (withSetManager st rp) L s).2.w.2 := by
  intro L
  induction L with
  | nil =>
    intro s hsub
    simpa [Deployer.loop.changes] using hsub
  | cons u rest ih =>
    intro s hsub
    have hstep := changed_subset_manager st rp u s hsub
    simp only [Deployer.loop.changes]
    rcases hr : Deployer.changed (withSetManager st rp) u s with ⟨r, s1⟩
    rw [hr] at hstep
    cases r
    · exact ih s1 hstep
    · exact hstep
    · exact hstep

/-- With the set manager, the main loop keeps the deployed set within the list
of the manager. -/
theorem wait_subset_manager {S : Type} (st : State S)
    (rp : S → Except Error String × S) :
    ∀ (selects : List Select) (s : Run (S × List String)),
      (∀ v ∈ s.d.deployed, v ∈ s.w.2) →
      ∀ v ∈ (Deployer.loop.wait (withSetManager st rp) selects s).2.d.deployed,
        v ∈ (Deployer.loop.wait (withSetManager st rp) selects s).2.w.2 := by
  intro selects
  induction selects with
  | nil =>
    intro s hsub
    simpa [Deployer.loop.wait] using hsub
  | cons x rest ih =>
    intro s hsub
    cases x with
    | Dying => simpa [Deployer.loop.wait] using hsub
    | Closed mustErr => simpa [Deployer.loop.wait] using hsub
    | Changes changes =>
      have hbatch := changes_subset_manager st rp changes s hsub
      simp only [Deployer.loop.wait]
      rcases hr : Deployer.loop.changes (withSetManager st rp) changes s with ⟨r, s1⟩
      rw [hr] at hbatch
      cases r
      · exact ih s1 hbatch
      · exact hbatch
      · exact hbatch

/-! ## Startup seeding -/

/-- When the three calls it makes succeed, `remove` of a unit that is neither
deployed nor Alive returns nil, leaves the deployer as it was and logs the
three calls. -/
theorem remove_of_calls_ok {W : Type} (c : Collab W) (unit : state.Unit) (s : Run W)
    (service : state.Service)
    (hu : unit.Name ∉ s.d.deployed) (hlife : unit.Life ≠ state.Life.Alive)
    (hEnsureDead : (c.st.EnsureDead unit s.w).1 = none)
    (hService : (c.st.Service unit (c.st.EnsureDead unit s.w).2).1 = Except.ok service)
    (hRemoveUnit : (c.st.RemoveUnit service unit
      (c.st.Service unit (c.st.EnsureDead unit s.w).2).2).1 = none) :
    Deployer.remove c unit s =
      (Ret.nil, ⟨s.d,
        (c.st.RemoveUnit service unit (c.st.Service unit (c.st.EnsureDead unit s.w).2).2).2,
        s.calls ++ [Call.EnsureDead unit.Name, Call.Service unit.Name,
          Call.RemoveUnit service.Name unit.Name]⟩) := by
  rcases hed : c.st.EnsureDead unit s.w with ⟨r1, w1⟩
  rw [hed] at hEnsureDead hService hRemoveUnit
  simp only at hEnsureDead hService hRemoveUnit
  subst hEnsureDead
  rcases hsv : c.st.Service unit w1 with ⟨r2, w2⟩
  rw [hsv] at hService hRemoveUnit
  simp only at hService hRemoveUnit
  subst hService
  rcases hrm : c.st.RemoveUnit service unit w2 with ⟨r3, w3⟩
  rw [hrm] at hRemoveUnit
  simp only at hRemoveUnit
  subst hRemoveUnit
  simp [Deployer.remove, hu, hlife, hed, hsv, hrm]

/-- A seeding iteration for a unit that stays: the unit is added to the
deployed set and the step only looks it up. -/
theorem seed_step_stays {W : Type} (c : Collab W) (u : String) (s : Run W)
    (hstays : stays c s.d.entityName s.w u) :
    Deployer.changed c u ⟨⟨s.d.entityName, insert u s.d.deployed⟩, s.w, s.calls⟩ =
      (Ret.nil, ⟨⟨s.d.entityName, insert u s.d.deployed⟩, (c.st.Unit u s.w).2,
        s.calls ++ [Call.Unit u]⟩) := by
  obtain ⟨unit, hfound, hlife, hown⟩ := hstays
  exact changed_converged c u ⟨⟨s.d.entityName, insert u s.d.deployed⟩, s.w, s.calls⟩ unit
    (Finset.mem_insert_self _ _) hfound hown hlife

/-- One iteration of startup for the unit `u`, when the calls it makes
succeed: the step returns nil, `u` is in the deployed set afterwards exactly
if it stays, the other units are in it as before, a unit that does not stay
has been recalled, and `DeployUnit` has not been called. -/
theorem seed_step_calls_ok {W : Type} (c : Collab W) (u : String) (s : Run W)
    (hUnit : ∀ e, (c.st.Unit u s.w).1 ≠ Lookup.failed e)
    (hname : ∀ unit, (c.st.Unit u s.w).1 = Lookup.found unit → unit.Name = u)
    (hRecallUnit : ¬ stays c s.d.entityName s.w u →
      (c.mgr.RecallUnit u (c.st.Unit u s.w).2).1 = none)
    (hremove : ∀ unit, (c.st.Unit u s.w).1 = Lookup.found unit →
      unit.Life = state.Life.Dead → unit.DeployerName = some s.d.entityName →
      (c.st.EnsureDead unit (c.mgr.RecallUnit u (c.st.Unit u s.w).2).2).1 = none ∧
      ∃ service,
        (c.st.Service unit
          (c.st.EnsureDead unit (c.mgr.RecallUnit u (c.st.Unit u s.w).2).2).2).1 =
            Except.ok service ∧
        (c.st.RemoveUnit service unit
          (c.st.Service unit
            (c.st.EnsureDead unit (c.mgr.RecallUnit u (c.st.Unit u s.w).2).2).2).2).1 = none) :
    ∃ s1, Deployer.changed c u ⟨⟨s.d.entityName, insert u s.d.deployed⟩, s.w, s.calls⟩ =
        (Ret.nil, s1) ∧
      s1.d.entityName = s.d.entityName ∧
      (u ∈ s1.d.deployed ↔ stays c s.d.entityName s.w u) ∧
      (∀ v, v ≠ u → (v ∈ s1.d.deployed ↔ v ∈ s.d.deployed)) ∧
      ∃ ext, s1.calls = s.calls ++ ext ∧
        (¬ stays c s.d.entityName s.w u → Call.RecallUnit u ∈ ext) ∧
        ∀ v p, Call.DeployUnit v p ∉ ext := by
  by_cases hst : stays c s.d.entityName s.w u
  · refine ⟨_, seed_step_stays c u s hst, rfl, ?_, ?_, [Call.Unit u], rfl, ?_, by simp⟩
    · simp [hst]
    · intro v hv
      simp [Finset.mem_insert, hv]
    · exact fun h => absurd hst h
  · have hmem : u ∈ insert u s.d.deployed := Finset.mem_insert_self _ _
    have herase : (insert u s.d.deployed).erase u = s.d.deployed.erase u :=
      Finset.erase_insert_eq_erase _ _
    have hrec : c.mgr.RecallUnit u (c.st.Unit u s.w).2 =
        (none, (c.mgr.RecallUnit u (c.st.Unit u s.w).2).2) := by
      rw [← hRecallUnit hst]
    have hothers : ∀ v, v ≠ u → (v ∈ s.d.deployed.erase u ↔ v ∈ s.d.deployed) := by
      intro v hv
      simp [Finset.mem_erase, hv]
    rcases hlookup : c.st.Unit u s.w with ⟨unit | _ | e, w1⟩
    · rw [hlookup] at hrec
      simp only at hrec
      have hnm : unit.Name = u := hname unit (by rw [hlookup])
      rw [changed_found c u ⟨⟨s.d.entityName, insert u s.d.deployed⟩, s.w, s.calls⟩ unit w1
        hlookup]
      cases hresp : responsible unit ⟨s.d.entityName, insert u s.d.deployed⟩
      · rw [act_unowned_deployed c u _ _ _ hmem, recall_of_mem c u _ hmem]
        simp only [Run.afterLookup]
        rw [hrec]
        simp only [herase]
        refine ⟨_, rfl, rfl, ?_, hothers, [Call.Unit u, Call.RecallUnit u], by simp, by simp,
          by simp⟩
        simp [hst]
      · have hown := (responsible_eq_true_iff unit _).1 hresp
        have hdead : unit.Life = state.Life.Dead := by
          by_contra hne
          exact hst ⟨unit, by rw [hlookup], hne, hown⟩
        obtain ⟨hed, service, hsv, hrm⟩ := hremove unit (by rw [hlookup]) hdead hown
        rw [hlookup] at hed hsv hrm
        simp only at hed hsv hrm
        rw [hdead, act_owned_deployed_dead c u unit _ hmem]
        simp only [Run.afterLookup]
        rw [hrec]
        simp only [herase]
        rw [remove_of_calls_ok c unit
          ⟨⟨s.d.entityName, s.d.deployed.erase u⟩, (c.mgr.RecallUnit u w1).2,
            s.calls ++ [Call.Unit u] ++ [Call.RecallUnit u]⟩ service
          (by rw [hnm]; exact Finset.not_mem_erase _ _)
          (by rw [hdead]; exact fun h => state.Life.noConfusion h) hed hsv hrm]
        refine ⟨_, rfl, rfl, ?_, hothers, [Call.Unit u, Call.RecallUnit u,
          Call.EnsureDead unit.Name, Call.Service unit.Name,
          Call.RemoveUnit service.Name unit.Name], by simp, by simp, by simp⟩
        simp [hst]
    · rw [hlookup] at hrec
      simp only at hrec
      rw [changed_notFound c u ⟨⟨s.d.entityName, insert u s.d.deployed⟩, s.w, s.calls⟩ w1
          hlookup,
        act_unowned_deployed c u _ _ _ hmem, recall_of_mem c u _ hmem]
      simp only [Run.afterLookup]
      rw [hrec]
      simp only [herase]
      refine ⟨_, rfl, rfl, ?_, hothers, [Call.Unit u, Call.RecallUnit u], by simp, by simp,
        by simp⟩
      simp [hst]
    · exact absurd (by rw [hlookup]) (hUnit e)

/-- Startup on the list `L`, started in any state, when the calls made
succeed: startup returns nil, the deployed set becomes the units of `L` that
stay when they are looked up for the last time together with the units that
were deployed and are not in `L`, every unit of `L` that is not deployed at
the end has been recalled, and `DeployUnit` has not been called. -/
theorem seed_calls_ok {W : Type} (c : Collab W) :
    ∀ (L : List String) (s : Run W),
      (∀ pre u post, L = pre ++ u :: post →
        ∀ e, (c.st.Unit u (Deployer.loop.seed c pre s).2.w).1 ≠ Lookup.failed e) →
      (∀ pre u post, L = pre ++ u :: post →
        ∀ unit, (c.st.Unit u (Deployer.loop.seed c pre s).2.w).1 = Lookup.found unit →
          unit.Name = u) →
      (∀ pre u post, L = pre ++ u :: post →
        ¬ stays c s.d.entityName (Deployer.loop.seed c pre s).2.w u →
        (c.mgr.RecallUnit u (c.st.Unit u (Deployer.loop.seed c pre s).2.w).2).1 = none) →
      (∀ pre u post, L = pre ++ u :: post →
        ∀ unit, (c.st.Unit u (Deployer.loop.seed c pre s).2.w).1 = Lookup.found unit →
          unit.Life = state.Life.Dead → unit.DeployerName = some s.d.entityName →
          (c.st.EnsureDead unit
            (c.mgr.RecallUnit u (c.st.Unit u (Deployer.loop.seed c pre s).2.w).2).2).1 = none ∧
          ∃ service,
            (c.st.Service unit
              (c.st.EnsureDead unit
                (c.mgr.RecallUnit u
                  (c.st.Unit u (Deployer.loop.seed c pre s).2.w).2).2).2).1 =
                Except.ok service ∧
            (c.st.RemoveUnit service unit
              (c.st.Service unit
                (c.st.EnsureDead unit
                  (c.mgr.RecallUnit u
                    (c.st.Unit u (Deployer.loop.seed c pre s).2.w).2).2).2).2).1 = none) →
      ∃ s1, Deployer.loop.seed c L s = (Ret.nil, s1) ∧ s1.d.entityName = s.d.entityName ∧
        (∀ v, v ∈ s1.d.deployed ↔
          (∃ pre post, L = pre ++ v :: post ∧ v ∉ post ∧
            stays c s.d.entityName (Deployer.loop.seed c pre s).2.w v) ∨
          (v ∈ s.d.deployed ∧ v ∉ L)) ∧
        ∃ ext, s1.calls = s.calls ++ ext ∧
          (∀ u ∈ L, u ∉ s1.d.deployed → Call.RecallUnit u ∈ ext) ∧
          ∀ v p, Call.DeployUnit v p ∉ ext := by
  intro L
  induction L with
  | nil =>
    intro s _ _ _ _
    exact ⟨s, by simp [Deployer.loop.seed], rfl, by simp, [], by simp, by simp, by simp⟩
  | cons u rest ih =>
    intro s hUnit hname hRecallUnit hremove
    obtain ⟨s1, hstep, hent1, hu1, hothers, ext0, hext0, hrec0, hnodep0⟩ :=
      seed_step_calls_ok c u s (hUnit [] u rest rfl) (hname [] u rest rfl)
        (hRecallUnit [] u rest rfl) (hremove [] u rest rfl)
    have hseed : ∀ pre, Deployer.loop.seed c (u :: pre) s = Deployer.loop.seed c pre s1 := by
      intro pre
      simp only [Deployer.loop.seed, hstep]
    obtain ⟨s2, hs2, hent2, hD2, ext, hext, hrecalled, hnodeploy⟩ :=
      ih s1
        (fun pre v post h => by
          have := hUnit (u :: pre) v post (by rw [h]; rfl)
          rwa [hseed pre] at this)
        (fun pre v post h => by
          have := hname (u :: pre) v post (by rw [h]; rfl)
          rwa [hseed pre] at this)
        (fun pre v post h => by
          have := hRecallUnit (u :: pre) v post (by rw [h]; rfl)
          rwa [hseed pre, ← hent1] at this)
        (fun pre v post h => by
          have := hremove (u :: pre) v post (by rw [h]; rfl)
          rwa [hseed pre, ← hent1] at this)
    have hD : ∀ v, v ∈ s2.d.deployed ↔
        (∃ pre post, u :: rest = pre ++ v :: post ∧ v ∉ post ∧
          stays c s.d.entityName (Deployer.loop.seed c pre s).2.w v) ∨
        (v ∈ s.d.deployed ∧ v ∉ u :: rest) := by
      intro v
      rw [hD2 v, hent1]
      constructor
      · rintro (⟨pre, post, h, hlast, hst⟩ | ⟨hmem, hnot⟩)
        · exact Or.inl ⟨u :: pre, post, by rw [h]; rfl, hlast, by rw [hseed pre]; exact hst⟩
        · by_cases hvu : v = u
          · subst hvu
            exact Or.inl ⟨[], rest, rfl, hnot, hu1.1 hmem⟩
          · exact Or.inr ⟨(hothers v hvu).1 hmem, by simp [hvu, hnot]⟩
      · rintro (⟨pre, post, h, hlast, hst⟩ | ⟨hmem, hnot⟩)
        · cases pre with
          | nil =>
            simp only [List.nil_append, List.cons.injEq] at h
            obtain ⟨rfl, rfl⟩ := h
            exact Or.inr ⟨hu1.2 hst, hlast⟩
          | cons a pre =>
            simp only [List.cons_append, List.cons.injEq] at h
            obtain ⟨rfl, h⟩ := h
            rw [hseed pre] at hst
            exact Or.inl ⟨pre, post, h, hlast, hst⟩
        · have hvu : v ≠ u := fun h => hnot (by rw [h]; exact List.mem_cons_self _ _)
          exact Or.inr ⟨(hothers v hvu).2 hmem, fun h => hnot (List.mem_cons_of_mem _ h)⟩
    refine ⟨s2, by simp only [Deployer.loop.seed, hstep]; exact hs2, by rw [hent2, hent1], hD,
      ext0 ++ ext, by rw [hext, hext0]; simp, ?_, ?_⟩
    · intro x hx hnot
      by_cases hxr : x ∈ rest
      · exact List.mem_append_right _ (hrecalled x hxr hnot)
      · have hxu : x = u := by
          rcases List.mem_cons.1 hx with h | h
          · exact h
          · exact absurd h hxr
        subst hxu
        refine List.mem_append_left _ (hrec0 ?_)
        intro hst
        exact hnot ((hD x).2 (Or.inl ⟨[], rest, rfl, hxr, hst⟩))
    · intro v p hmem
      rcases List.mem_append.1 hmem with h | h
      · exact hnodep0 v p h
      · exact hnodeploy v p h

/-- The three ways of splitting a list of three around one of its members. -/
theorem split_three {α : Type} (a b c : α) (pre : List α) (u : α) (post : List α)
    (h : [a, b, c] = pre ++ u :: post) :
    (pre = [] ∧ u = a ∧ post = [b, c]) ∨ (pre = [a] ∧ u = b ∧ post = [c]) ∨
      (pre = [a, b] ∧ u = c ∧ post = []) := by
  rcases pre with _ | ⟨x, _ | ⟨y, _ | ⟨z, pre⟩⟩⟩ <;> simp at h
  · obtain ⟨rfl, rfl⟩ := h
    simp
  · obtain ⟨rfl, rfl, rfl⟩ := h
    simp
  · obtain ⟨rfl, rfl, rfl, rfl⟩ := h
    simp

/-! ## The six ways a step can go -/

/-- A step is one of: the lookup fails; nothing is done after the lookup; a
bare `recall`; a successful `RecallUnit` followed by `remove` of the unit
found; `deploy` of the unit found; `remove` of the unit found. -/
theorem changed_rows {W : Type} (c : Collab W) (u : String) (s : Run W) :
    (∃ e, (c.st.Unit u s.w).1 = Lookup.failed e ∧
      Deployer.changed c u s = (Ret.err e, s.afterLookup u (c.st.Unit u s.w).2)) ∨
    Deployer.changed c u s = (Ret.nil, s.afterLookup u (c.st.Unit u s.w).2) ∨
    (u ∈ s.d.deployed ∧
      Deployer.changed c u s = Deployer.recall c u (s.afterLookup u (c.st.Unit u s.w).2)) ∨
    (∃ unit, (c.st.Unit u s.w).1 = Lookup.found unit ∧ u ∈ s.d.deployed ∧
      unit.Life = state.Life.Dead ∧ unit.DeployerName = some s.d.entityName ∧
      (c.mgr.RecallUnit u (c.st.Unit u s.w).2).1 = none ∧
      Deployer.changed c u s =
        Deployer.remove c unit
          ⟨⟨s.d.entityName, s.d.deployed.erase u⟩, (c.mgr.RecallUnit u (c.st.Unit u s.w).2).2,
            s.calls ++ [Call.Unit u, Call.RecallUnit u]⟩) ∨
    (∃ unit, (c.st.Unit u s.w).1 = Lookup.found unit ∧ u ∉ s.d.deployed ∧
      Deployer.changed c u s =
        Deployer.deploy c unit (s.afterLookup u (c.st.Unit u s.w).2)) ∨
    (∃ unit, (c.st.Unit u s.w).1 = Lookup.found unit ∧ u ∉ s.d.deployed ∧
      unit.Life ≠ state.Life.Alive ∧
      Deployer.changed c u s =
        Deployer.remove c unit (s.afterLookup u (c.st.Unit u s.w).2)) := by
  rcases hlookup : c.st.Unit u s.w with ⟨unit | _ | e, w1⟩
  · have hstep := changed_found c u s unit w1 hlookup
    by_cases hu : u ∈ s.d.deployed
    · cases hresp : responsible unit s.d
      · rw [hresp, act_unowned_deployed c u _ _ (s.afterLookup u w1) hu] at hstep
        exact Or.inr (Or.inr (Or.inl ⟨hu, hstep⟩))
      · by_cases hdead : unit.Life = state.Life.Dead
        · rw [hresp, hdead, act_owned_deployed_dead c u unit (s.afterLookup u w1) hu] at hstep
          simp only [Run.afterLookup] at hstep
          rcases hrec : c.mgr.RecallUnit u w1 with ⟨_ | e, w2⟩
          · rw [hrec] at hstep
            refine Or.inr (Or.inr (Or.inr (Or.inl ⟨unit, rfl, hu, hdead,
              (responsible_eq_true_iff unit s.d).1 hresp, rfl, ?_⟩)))
            rw [hstep]
            simp
          · rw [hrec] at hstep
            refine Or.inr (Or.inr (Or.inl ⟨hu, ?_⟩))
            rw [hstep, recall_of_mem c u (s.afterLookup u w1) hu]
            simp [Run.afterLookup, hrec]
        · rw [hresp, act_owned_deployed_not_dead c u _ _ (s.afterLookup u w1) hu hdead] at hstep
          exact Or.inr (Or.inl hstep)
    · cases hresp : responsible unit s.d
      · rw [hresp, act_unowned_undeployed c u _ _ (s.afterLookup u w1) hu] at hstep
        exact Or.inr (Or.inl hstep)
      · by_cases halive : unit.Life = state.Life.Alive
        · rw [hresp, halive, act_owned_undeployed_alive c u unit (s.afterLookup u w1) hu] at hstep
          exact Or.inr (Or.inr (Or.inr (Or.inr (Or.inl ⟨unit, rfl, hu, hstep⟩))))
        · rw [hresp, act_owned_undeployed_not_alive c u _ unit (s.afterLookup u w1) hu halive] at hstep
          exact Or.inr (Or.inr (Or.inr (Or.inr (Or.inr ⟨unit, rfl, hu, halive, hstep⟩))))
  · have hstep := changed_notFound c u s w1 hlookup
    by_cases hu : u ∈ s.d.deployed
    · rw [act_unowned_deployed c u _ _ (s.afterLookup u w1) hu] at hstep
      exact Or.inr (Or.inr (Or.inl ⟨hu, hstep⟩))
    · rw [act_unowned_undeployed c u _ _ (s.afterLookup u w1) hu] at hstep
      exact Or.inr (Or.inl hstep)
  · exact Or.inl ⟨e, rfl, changed_failed c u s e w1 hlookup⟩

theorem remove_err_calls {W : Type} (c : Collab W) (unit : state.Unit) (s : Run W) (e : Error)
    (h : (Deployer.remove c unit s).1 = Ret.err e) :
    Call.EnsureDead unit.Name ∈ (Deployer.remove c unit s).2.calls := by
  by_cases hu : unit.Name ∈ s.d.deployed
  · simp [Deployer.remove, hu] at h
  by_cases hlife : unit.Life = state.Life.Alive
  · simp [Deployer.remove, hu, hlife] at h
  rcases hed : c.st.EnsureDead unit s.w with ⟨_ | e1, w1⟩
  · rcases hsv : c.st.Service unit w1 with ⟨e2 | service, w2⟩
    · simp [Deployer.remove, hu, hlife, hed, hsv]
    · rcases hrm : c.st.RemoveUnit service unit w2 with ⟨_ | e3, w3⟩ <;>
        simp [Deployer.remove, hu, hlife, hed, hsv, hrm]
  · simp [Deployer.remove, hu, hlife, hed]

theorem deploy_panic_msg {W : Type} (c : Collab W) (unit : state.Unit) (s : Run W)
    (msg : String) (h : (Deployer.deploy c unit s).1 = Ret.panic msg) :
    msg = "must not re-deploy a deployed unit" := by
  by_cases hu : unit.Name ∈ s.d.deployed
  · simp [Deployer.deploy, hu] at h
    exact h.symm
  · exact absurd h (deploy_not_panic c unit s hu msg)

theorem recall_panic_msg {W : Type} (c : Collab W) (u : String) (s : Run W)
    (msg : String) (h : (Deployer.recall c u s).1 = Ret.panic msg) :
    msg = "must not recall a unit that is not deployed" := by
  by_cases hu : u ∈ s.d.deployed
  · exact absurd h (recall_not_panic c u s hu msg)
  · simp [Deployer.recall, hu] at h
    exact h.symm

theorem remove_panic_msg {W : Type} (c : Collab W) (unit : state.Unit) (s : Run W)
    (msg : String) (h : (Deployer.remove c unit s).1 = Ret.panic msg) :
    msg = "must not remove a deployed unit" ∨ msg = "must not remove an Alive unit" := by
  by_cases hu : unit.Name ∈ s.d.deployed
  · simp [Deployer.remove, hu] at h
    exact Or.inl h.symm
  by_cases hlife : unit.Life = state.Life.Alive
  · simp [Deployer.remove, hu, hlife] at h
    exact Or.inr h.symm
  · exact absurd h (remove_not_panic c unit s hu hlife msg)

/-- When the deployer is not responsible, the step after the lookup does not
depend on the unit it is given. -/
theorem act_unowned_any {W : Type} (c : Collab W) (u : String) (life : state.Life)
    (x y : Option state.Unit) (s : Run W) :
    Deployer.changed.act c u life false x s = Deployer.changed.act c u life false y s := by
  by_cases hu : u ∈ s.d.deployed
  · rw [act_unowned_deployed c u life x s hu, act_unowned_deployed c u life y s hu]
  · rw [act_unowned_undeployed c u life x s hu, act_unowned_undeployed c u life y s hu]

/-! ## Units the step does not look at -/

theorem recall_addDeployed {W : Type} (c : Collab W) (u : String) (s : Run W)
    (E : Finset String) (hE : u ∉ E) :
    Deployer.recall c u (s.addDeployed E) =
      ((Deployer.recall c u s).1, (Deployer.recall c u s).2.addDeployed E) := by
  by_cases hu : u ∈ s.d.deployed
  · have hu2 : u ∈ (s.addDeployed E).d.deployed := Finset.mem_union_left _ hu
    have herase : (s.d.deployed ∪ E).erase u = s.d.deployed.erase u ∪ E := by
      rw [Finset.erase_union_distrib, Finset.erase_eq_of_not_mem hE]
    rw [recall_of_mem c u s hu, recall_of_mem c u (s.addDeployed E) hu2]
    cases hr : (c.mgr.RecallUnit u s.w).1 <;> simp [Run.addDeployed, herase, hr]
  · have hu2 : u ∉ (s.addDeployed E).d.deployed := by
      simp [Run.addDeployed, hu, hE]
    simp only [Deployer.recall, hu, hu2, not_false_eq_true, if_true]

theorem remove_addDeployed {W : Type} (c : Collab W) (unit : state.Unit) (s : Run W)
    (E : Finset String) (hE : unit.Name ∉ E) :
    Deployer.remove c unit (s.addDeployed E) =
      ((Deployer.remove c unit s).1, (Deployer.remove c unit s).2.addDeployed E) := by
  by_cases hu : unit.Name ∈ s.d.deployed
  · simp [Deployer.remove, Run.addDeployed, hu]
  by_cases hlife : unit.Life = state.Life.Alive
  · simp [Deployer.remove, Run.addDeployed, hu, hE, hlife]
  rcases hed : c.st.EnsureDead unit s.w with ⟨_ | e, w1⟩
  · rcases hsv : c.st.Service unit w1 with ⟨e | service, w2⟩
    · simp [Deployer.remove, Run.addDeployed, hu, hE, hlife, hed, hsv]
    · rcases hrm : c.st.RemoveUnit service unit w2 with ⟨_ | e, w3⟩ <;>
        simp [Deployer.remove, Run.addDeployed, hu, hE, hlife, hed, hsv, hrm]
  · simp [Deployer.remove, Run.addDeployed, hu, hE, hlife, hed]

theorem deploy_addDeployed {W : Type} (c : Collab W) (unit : state.Unit) (s : Run W)
    (E : Finset String) (hE : unit.Name ∉ E) :
    Deployer.deploy c unit (s.addDeployed E) =
      ((Deployer.deploy c unit s).1, (Deployer.deploy c unit s).2.addDeployed E) := by
  by_cases hu : unit.Name ∈ s.d.deployed
  · simp [Deployer.deploy, Run.addDeployed, hu]
  rcases hpw : c.RandomPassword s.w with ⟨e | p, w1⟩
  · simp [Deployer.deploy, Run.addDeployed, hu, hE, hpw]
  rcases hset : c.st.SetPassword unit p w1 with ⟨_ | e, w2⟩
  · rcases hdep : c.mgr.DeployUnit unit.Name p w2 with ⟨_ | e, w3⟩ <;>
      simp [Deployer.deploy, Run.addDeployed, hu, hE, hpw, hset, hdep, Finset.insert_union]
  · simp [Deployer.deploy, Run.addDeployed, hu, hE, hpw, hset]

/-- A step for `u` does not look at other units: adding to the deployed set
units other than `u` changes neither its result, nor the world, nor the log,
and leaves these units in the deployed set. -/
theorem changed_addDeployed {W : Type} (c : Collab W) (u : String) (s : Run W)
    (E : Finset String) (hE : u ∉ E)
    (hname : ∀ unit, (c.st.Unit u s.w).1 = Lookup.found unit → unit.Name = u) :
    Deployer.changed c u (s.addDeployed E) =
      ((Deployer.changed c u s).1, (Deployer.changed c u s).2.addDeployed E) := by
  have hmem : u ∈ (s.addDeployed E).d.deployed ↔ u ∈ s.d.deployed := by
    simp [Run.addDeployed, hE]
  have hafter : ∀ w1, (s.addDeployed E).afterLookup u w1 = (s.afterLookup u w1).addDeployed E :=
    fun _ => rfl
  rcases hlookup : c.st.Unit u s.w with ⟨unit | _ | e, w1⟩
  · have hnm : unit.Name = u := hname unit (by rw [hlookup])
    have hresp2 : responsible unit (s.addDeployed E).d = responsible unit s.d := rfl
    rw [changed_found c u s unit w1 hlookup,
      changed_found c u (s.addDeployed E) unit w1 hlookup, hresp2, hafter]
    by_cases hu : u ∈ s.d.deployed
    · have hu1 : u ∈ (s.afterLookup u w1).d.deployed := hu
      have hu2 : u ∈ ((s.afterLookup u w1).addDeployed E).d.deployed := hmem.2 hu
      cases hresp : responsible unit s.d
      · rw [act_unowned_deployed c u _ _ (s.afterLookup u w1) hu1,
          act_unowned_deployed c u _ _ ((s.afterLookup u w1).addDeployed E) hu2]
        exact recall_addDeployed c u _ E hE
      · by_cases hdead : unit.Life = state.Life.Dead
        · rw [hdead, act_owned_deployed_dead c u unit (s.afterLookup u w1) hu1,
            act_owned_deployed_dead c u unit ((s.afterLookup u w1).addDeployed E) hu2]
          have herase : (s.d.deployed ∪ E).erase u = s.d.deployed.erase u ∪ E := by
            rw [Finset.erase_union_distrib, Finset.erase_eq_of_not_mem hE]
          simp only [Run.afterLookup, Run.addDeployed]
          rcases hrec : c.mgr.RecallUnit u w1 with ⟨_ | e, w2⟩
          · simp only [herase]
            exact remove_addDeployed c unit
              ⟨⟨s.d.entityName, s.d.deployed.erase u⟩, w2,
                s.calls ++ [Call.Unit u] ++ [Call.RecallUnit u]⟩ E (by rw [hnm]; exact hE)
          · rfl
        · rw [act_owned_deployed_not_dead c u _ _ (s.afterLookup u w1) hu1 hdead,
            act_owned_deployed_not_dead c u _ _ ((s.afterLookup u w1).addDeployed E) hu2 hdead]
    · have hu1 : u ∉ (s.afterLookup u w1).d.deployed := hu
      have hu2 : u ∉ ((s.afterLookup u w1).addDeployed E).d.deployed :=
        fun h => hu (hmem.1 h)
      cases hresp : responsible unit s.d
      · rw [act_unowned_undeployed c u _ _ (s.afterLookup u w1) hu1,
          act_unowned_undeployed c u _ _ ((s.afterLookup u w1).addDeployed E) hu2]
      · by_cases halive : unit.Life = state.Life.Alive
        · rw [halive, act_owned_undeployed_alive c u unit (s.afterLookup u w1) hu1,
            act_owned_undeployed_alive c u unit ((s.afterLookup u w1).addDeployed E) hu2]
          exact deploy_addDeployed c unit _ E (by rw [hnm]; exact hE)
        · rw [act_owned_undeployed_not_alive c u _ unit (s.afterLookup u w1) hu1 halive,
            act_owned_undeployed_not_alive c u _ unit ((s.afterLookup u w1).addDeployed E)
              hu2 halive]
          exact remove_addDeployed c unit _ E (by rw [hnm]; exact hE)
  · rw [changed_notFound c u s w1 hlookup,
      changed_notFound c u (s.addDeployed E) w1 hlookup, hafter]
    by_cases hu : u ∈ s.d.deployed
    · have hu1 : u ∈ (s.afterLookup u w1).d.deployed := hu
      have hu2 : u ∈ ((s.afterLookup u w1).addDeployed E).d.deployed := hmem.2 hu
      rw [act_unowned_deployed c u _ _ (s.afterLookup u w1) hu1,
        act_unowned_deployed c u _ _ ((s.afterLookup u w1).addDeployed E) hu2]
      exact recall_addDeployed c u _ E hE
    · have hu1 : u ∉ (s.afterLookup u w1).d.deployed := hu
      have hu2 : u ∉ ((s.afterLookup u w1).addDeployed E).d.deployed :=
        fun h => hu (hmem.1 h)
      rw [act_unowned_undeployed c u _ _ (s.afterLookup u w1) hu1,
        act_unowned_undeployed c u _ _ ((s.afterLookup u w1).addDeployed E) hu2]
  · rw [changed_failed c u s e w1 hlookup,
      changed_failed c u (s.addDeployed E) e w1 hlookup, hafter]

/-- For a duplicate-free list, seeding all at once and then reconciling runs
the same steps as the coded startup, each lookup that startup makes returning
a unit of the name asked for: same result, world and log, the deployed set
being larger by the units `E` not yet visited, and `E` is empty when no step
failed. -/
theorem seed_vs_reconcile_calls {W : Type} (c : Collab W) :
    ∀ (L : List String) (s : Run W), L.Nodup →
      (∀ pre u post, L = pre ++ u :: post →
        ∀ unit, (c.st.Unit u (Deployer.loop.seed c pre s).2.w).1 = Lookup.found unit →
          unit.Name = u) →
      ∃ E, seedThenReconcile c L s =
          ((Deployer.loop.seed c L s).1, (Deployer.loop.seed c L s).2.addDeployed E) ∧
        ((Deployer.loop.seed c L s).1 = Ret.nil → E = ∅) := by
  intro L
  induction L with
  | nil =>
    intro s _ _
    exact ⟨∅, by simp [seedThenReconcile, Deployer.loop.changes, Deployer.loop.seed],
      fun _ => rfl⟩
  | cons u rest ih =>
    intro s hnodup hname
    have hu : u ∉ rest.toFinset := by
      rw [List.mem_toFinset]
      exact (List.nodup_cons.1 hnodup).1
    have hstart : s.addDeployed (u :: rest).toFinset =
        Run.addDeployed ⟨⟨s.d.entityName, insert u s.d.deployed⟩, s.w, s.calls⟩
          rest.toFinset := by
      simp [Run.addDeployed, Finset.insert_union, Finset.union_insert]
    have hframe := changed_addDeployed c u
      ⟨⟨s.d.entityName, insert u s.d.deployed⟩, s.w, s.calls⟩ rest.toFinset hu
      (hname [] u rest rfl)
    have hseed : ∀ pre s1,
        Deployer.changed c u ⟨⟨s.d.entityName, insert u s.d.deployed⟩, s.w, s.calls⟩ =
          (Ret.nil, s1) →
        Deployer.loop.seed c (u :: pre) s = Deployer.loop.seed c pre s1 := by
      intro pre s1 hstep
      simp only [Deployer.loop.seed, hstep]
    simp only [seedThenReconcile, Deployer.loop.changes, Deployer.loop.seed, hstart, hframe]
    rcases hr : Deployer.changed c u
        ⟨⟨s.d.entityName, insert u s.d.deployed⟩, s.w, s.calls⟩ with ⟨r, s1⟩
    cases r with
    | nil =>
      exact ih s1 (List.nodup_cons.1 hnodup).2
        (fun pre v post h => by
          have := hname (u :: pre) v post (by rw [h]; rfl)
          rwa [hseed pre s1 hr] at this)
    | err e => exact ⟨rest.toFinset, rfl, fun h => Ret.noConfusion h⟩
    | panic msg => exact ⟨rest.toFinset, rfl, fun h => Ret.noConfusion h⟩

/-! ## The claims -/

/-- C1. Deploy step: when `u` is not deployed, the unit `u` is found Alive and
owned by this deployer, and `RandomPassword`, `SetPassword` and `DeployUnit`
all succeed, the step issues, after the lookup, exactly `RandomPassword`,
`SetPassword(p)` and `DeployUnit(u, p)` with the generated password `p`, in
that order and nothing else, returns nil, and leaves `deployed = D ∪ {u}`. -/
theorem C1_deploy_step {W : Type} (c : Collab W) (d : Deployer) (u p : String)
    (unit : state.Unit) (w w1 w2 w3 w4 : W)
    (hu : u ∉ d.deployed)
    (hfound : c.st.Unit u w = (Lookup.found unit, w1))
    (hname : unit.Name = u)
    (hlife : unit.Life = state.Life.Alive)
    (hown : unit.DeployerName = some d.entityName)
    (hpw : c.RandomPassword w1 = (Except.ok p, w2))
    (hset : c.st.SetPassword unit p w2 = (none, w3))
    (hdep : c.mgr.DeployUnit u p w3 = (none, w4)) :
    Deployer.changed c u ⟨d, w, []⟩ =
      (Ret.nil, ⟨⟨d.entityName, insert u d.deployed⟩, w4,
        [Call.Unit u, Call.RandomPassword, Call.SetPassword u p, Call.DeployUnit u p]⟩) := by
  subst hname
  simp [Deployer.changed, Deployer.changed.act, Deployer.deploy, hfound, hu, hlife, hown,
    hpw, hset, hdep]

/-- Scenario B of the spec as an instance of C1: nothing deployed, `app/1`
Alive and owned by `machine-0`. -/
theorem C1_deploy_step_witness :
    Deployer.changed (Script.allOk (Lookup.found ⟨"app/1", state.Life.Alive, some "machine-0"⟩)).collab
        "app/1" ⟨⟨"machine-0", ∅⟩, 0, []⟩ =
      (Ret.nil, ⟨⟨"machine-0", insert "app/1" ∅⟩, 4,
        [Call.Unit "app/1", Call.RandomPassword, Call.SetPassword "app/1" "pw",
          Call.DeployUnit "app/1" "pw"]⟩) :=
  C1_deploy_step _ ⟨"machine-0", ∅⟩ "app/1" "pw" ⟨"app/1", state.Life.Alive, some "machine-0"⟩
    0 1 2 3 4 (by simp) rfl rfl rfl rfl rfl rfl rfl

/-- C2. Ownership handoff: when `u` is deployed and the found unit has no owner
or an owner other than this deployer, whatever its life, and `RecallUnit`
succeeds, the step issues after the lookup exactly one `RecallUnit(u)` and no
other call, returns nil, and leaves `deployed = D \ {u}`. -/
theorem C2_ownership_handoff {W : Type} (c : Collab W) (d : Deployer) (u : String)
    (unit : state.Unit) (w w1 w2 : W)
    (hu : u ∈ d.deployed)
    (hfound : c.st.Unit u w = (Lookup.found unit, w1))
    (hown : unit.DeployerName ≠ some d.entityName)
    (hrec : c.mgr.RecallUnit u w1 = (none, w2)) :
    Deployer.changed c u ⟨d, w, []⟩ =
      (Ret.nil, ⟨⟨d.entityName, d.deployed.erase u⟩, w2,
        [Call.Unit u, Call.RecallUnit u]⟩) := by
  have hresp : (match unit.DeployerName with
      | some deployerName => decide (deployerName = d.entityName)
      | none => false) = false := by
    cases hdn : unit.DeployerName with
    | none => rfl
    | some n =>
      have hne : n ≠ d.entityName := fun h => hown (by rw [hdn, h])
      simp [hne]
  simp [Deployer.changed, Deployer.changed.act, Deployer.recall, hfound, hu, hresp, hrec]

/-- An instance of C2: `app/0` is deployed, still Alive, but now owned by
`machine-1`. -/
theorem C2_ownership_handoff_witness :
    Deployer.changed (Script.allOk (Lookup.found ⟨"app/0", state.Life.Alive, some "machine-1"⟩)).collab
        "app/0" ⟨⟨"machine-0", {"app/0"}⟩, 0, []⟩ =
      (Ret.nil, ⟨⟨"machine-0", Finset.erase {"app/0"} "app/0"⟩, 2,
        [Call.Unit "app/0", Call.RecallUnit "app/0"]⟩) :=
  C2_ownership_handoff _ ⟨"machine-0", {"app/0"}⟩ "app/0" ⟨"app/0", state.Life.Alive, some "machine-1"⟩
    0 1 2 (by simp) rfl (by decide) rfl

/-- C3. Not-found while deployed: when `u` is deployed, the lookup reports
not-found and `RecallUnit` succeeds, the step issues after the lookup exactly
one `RecallUnit(u)` and no other call, returns nil (the not-found error is not
returned), and leaves `deployed = D \ {u}`. -/
theorem C3_not_found_while_deployed {W : Type} (c : Collab W) (d : Deployer) (u : String)
    (w w1 w2 : W)
    (hu : u ∈ d.deployed)
    (hlookup : c.st.Unit u w = (Lookup.notFound, w1))
    (hrec : c.mgr.RecallUnit u w1 = (none, w2)) :
    Deployer.changed c u ⟨d, w, []⟩ =
      (Ret.nil, ⟨⟨d.entityName, d.deployed.erase u⟩, w2,
        [Call.Unit u, Call.RecallUnit u]⟩) := by
  simp [Deployer.changed, Deployer.changed.act, Deployer.recall, hlookup, hu, hrec]

/-- Scenario C of the spec as an instance of C3. -/
theorem C3_not_found_while_deployed_witness :
    Deployer.changed (Script.allOk Lookup.notFound).collab
        "app/2" ⟨⟨"machine-0", {"app/2"}⟩, 0, []⟩ =
      (Ret.nil, ⟨⟨"machine-0", Finset.erase {"app/2"} "app/2"⟩, 2,
        [Call.Unit "app/2", Call.RecallUnit "app/2"]⟩) :=
  C3_not_found_while_deployed _ ⟨"machine-0", {"app/2"}⟩ "app/2" 0 1 2 (by simp) rfl rfl

/-- C4, as stated, fails when `EnsureDead` returns an error: `app/3` is not
deployed, found Dying and owned by this deployer, yet the step returns the
error right after `EnsureDead` and never calls `RemoveUnit`. -/
theorem C4_removal_counterexample :
    Deployer.changed Script.ensureDeadFails.collab "app/3" ⟨⟨"machine-0", ∅⟩, 0, []⟩ =
      (Ret.err ⟨"cannot set unit to dead"⟩,
        ⟨⟨"machine-0", ∅⟩, 2, [Call.Unit "app/3", Call.EnsureDead "app/3"]⟩) := by
  simp [Deployer.changed, Deployer.changed.act, Deployer.remove, Script.ensureDeadFails,
    Script.collab]

/-- C4, amended. Removal without start/stop: when `u` is not deployed and the
found unit `u` is owned by this deployer with life Dying or Dead, the step
leaves the deployer unchanged and its first call after the lookup is
`EnsureDead`, followed by nothing but `Service` and `RemoveUnit` calls for `u`
(so no `DeployUnit`, `RecallUnit`, `SetPassword` or `RandomPassword`).  If
`EnsureDead` and `Service` succeed, `RemoveUnit` is then called on the service
returned and its result is the result of the step; if `EnsureDead` or
`Service` fails, the step returns that error without calling `RemoveUnit`. -/
theorem C4_removal_amended {W : Type} (c : Collab W) (d : Deployer) (u : String)
    (unit : state.Unit) (w w1 : W)
    (hu : u ∉ d.deployed)
    (hfound : c.st.Unit u w = (Lookup.found unit, w1))
    (hname : unit.Name = u)
    (hown : unit.DeployerName = some d.entityName)
    (hlife : unit.Life ≠ state.Life.Alive) :
    (Deployer.changed c u ⟨d, w, []⟩).2.d = d ∧
    (∃ rest, (Deployer.changed c u ⟨d, w, []⟩).2.calls = Call.Unit u :: Call.EnsureDead u :: rest ∧
      ∀ x ∈ rest, x = Call.Service u ∨ ∃ service, x = Call.RemoveUnit service u) ∧
    (∀ w2 w3 w4 service r, c.st.EnsureDead unit w1 = (none, w2) →
      c.st.Service unit w2 = (Except.ok service, w3) →
      c.st.RemoveUnit service unit w3 = (r, w4) →
      Deployer.changed c u ⟨d, w, []⟩ =
        (match r with
          | none => Ret.nil
          | some e => Ret.err e,
         ⟨d, w4, [Call.Unit u, Call.EnsureDead u, Call.Service u,
            Call.RemoveUnit service.Name u]⟩)) ∧
    (∀ w2 e, c.st.EnsureDead unit w1 = (some e, w2) →
      Deployer.changed c u ⟨d, w, []⟩ =
        (Ret.err e, ⟨d, w2, [Call.Unit u, Call.EnsureDead u]⟩)) ∧
    (∀ w2 w3 e, c.st.EnsureDead unit w1 = (none, w2) →
      c.st.Service unit w2 = (Except.error e, w3) →
      Deployer.changed c u ⟨d, w, []⟩ =
        (Ret.err e, ⟨d, w3, [Call.Unit u, Call.EnsureDead u, Call.Service u]⟩)) := by
  subst hname
  have hstep : Deployer.changed c unit.Name ⟨d, w, []⟩ =
      Deployer.remove c unit ⟨d, w1, [Call.Unit unit.Name]⟩ := by
    simp [Deployer.changed, Deployer.changed.act, hfound, hu, hown, hlife]
  rw [hstep]
  refine ⟨?_, ?_, ?_, ?_, ?_⟩
  · rcases hed : c.st.EnsureDead unit w1 with ⟨_ | e, w2⟩
    · rcases hsv : c.st.Service unit w2 with ⟨e | service, w3⟩
      · simp [Deployer.remove, hu, hlife, hed, hsv]
      · rcases hrm : c.st.RemoveUnit service unit w3 with ⟨_ | e, w4⟩ <;>
          simp [Deployer.remove, hu, hlife, hed, hsv, hrm]
    · simp [Deployer.remove, hu, hlife, hed]
  · rcases hed : c.st.EnsureDead unit w1 with ⟨_ | e, w2⟩
    · rcases hsv : c.st.Service unit w2 with ⟨e | service, w3⟩
      · simp [Deployer.remove, hu, hlife, hed, hsv]
      · rcases hrm : c.st.RemoveUnit service unit w3 with ⟨_ | e, w4⟩ <;>
          simp [Deployer.remove, hu, hlife, hed, hsv, hrm]
    · simp [Deployer.remove, hu, hlife, hed]
  · intro w2 w3 w4 service r hed hsv hrm
    cases r <;> simp [Deployer.remove, hu, hlife, hed, hsv, hrm]
  · intro w2 e hed
    simp [Deployer.remove, hu, hlife, hed]
  · intro w2 w3 e hed hsv
    simp [Deployer.remove, hu, hlife, hed, hsv]

/-- Scenario D of the spec as an instance of the amended C4: with every call
succeeding, `app/3` is set Dead and removed through its service. -/
theorem C4_removal_amended_witness :
    Deployer.changed (Script.allOk (Lookup.found ⟨"app/3", state.Life.Dying, some "machine-0"⟩)).collab
        "app/3" ⟨⟨"machine-0", ∅⟩, 0, []⟩ =
      (Ret.nil, ⟨⟨"machine-0", ∅⟩, 4, [Call.Unit "app/3", Call.EnsureDead "app/3",
        Call.Service "app/3", Call.RemoveUnit "app" "app/3"]⟩) :=
  (C4_removal_amended (Script.allOk (Lookup.found ⟨"app/3", state.Life.Dying, some "machine-0"⟩)).collab
    ⟨"machine-0", ∅⟩ "app/3" ⟨"app/3", state.Life.Dying, some "machine-0"⟩ 0 1
    (by simp) rfl rfl rfl (by decide)).2.2.1 2 3 4 ⟨"app"⟩ none rfl rfl rfl

/-- C5. Already converged: when `u` is deployed and the found unit is owned by
this deployer and not Dead, the step issues no call besides the lookup,
returns nil and leaves the deployer, hence `deployed`, as it was. -/
theorem C5_already_converged {W : Type} (c : Collab W) (d : Deployer) (u : String)
    (unit : state.Unit) (w w1 : W)
    (hu : u ∈ d.deployed)
    (hfound : c.st.Unit u w = (Lookup.found unit, w1))
    (hown : unit.DeployerName = some d.entityName)
    (hlife : unit.Life ≠ state.Life.Dead) :
    Deployer.changed c u ⟨d, w, []⟩ = (Ret.nil, ⟨d, w1, [Call.Unit u]⟩) := by
  simp [Deployer.changed, Deployer.changed.act, hfound, hu, hown, hlife]

/-- Scenario A of the spec as an instance of C5. -/
theorem C5_already_converged_witness :
    Deployer.changed (Script.allOk (Lookup.found ⟨"app/0", state.Life.Alive, some "machine-0"⟩)).collab
        "app/0" ⟨⟨"machine-0", {"app/0"}⟩, 0, []⟩ =
      (Ret.nil, ⟨⟨"machine-0", {"app/0"}⟩, 1, [Call.Unit "app/0"]⟩) :=
  C5_already_converged _ ⟨"machine-0", {"app/0"}⟩ "app/0" ⟨"app/0", state.Life.Alive, some "machine-0"⟩
    0 1 (by simp) rfl rfl (by decide)

/-- C6, as stated, fails for a deployed unit that is Dead and still owned by
this deployer: with every call succeeding, the step recalls `app/0` and then,
in the same step, also performs removal (`EnsureDead`, `Service`,
`RemoveUnit`). -/
theorem C6_recall_only_counterexample :
    Deployer.changed (Script.allOk (Lookup.found ⟨"app/0", state.Life.Dead, some "machine-0"⟩)).collab
        "app/0" ⟨⟨"machine-0", {"app/0"}⟩, 0, []⟩ =
      (Ret.nil, ⟨⟨"machine-0", Finset.erase {"app/0"} "app/0"⟩, 5,
        [Call.Unit "app/0", Call.RecallUnit "app/0", Call.EnsureDead "app/0",
          Call.Service "app/0", Call.RemoveUnit "app" "app/0"]⟩) := by
  simp [Deployer.changed, Deployer.changed.act, Deployer.recall, Deployer.remove,
    Script.allOk, Script.collab]

/-- C6, amended. Steps 3 and 4 run in sequence.  (1) Every step issues, after
the lookup, either calls of deploy only (`RandomPassword`, `SetPassword`,
`DeployUnit`) or calls of recall and removal only (`RecallUnit`, `EnsureDead`,
`Service`, `RemoveUnit`): deploy never shares a step with recall or removal.
(2) When `u` is deployed and this deployer is not responsible (unit not found,
or found with owner absent or different), the step performs recall only: its
log is the lookup and `RecallUnit(u)`.  (3) When `u` is deployed and the found
unit `u` is Dead and owned by this deployer, the step issues `RecallUnit(u)`
first; if that fails the step ends there with the error, and if it succeeds
`u` leaves `deployed` and removal follows in the same step, starting with
`EnsureDead(u)`. -/
theorem C6_recall_then_removal_amended {W : Type} (c : Collab W) (d : Deployer) (u : String)
    (w : W) :
    ((∃ ext, (Deployer.changed c u ⟨d, w, []⟩).2.calls = Call.Unit u :: ext ∧
        ∀ x ∈ ext, x = Call.RandomPassword ∨ (∃ v p, x = Call.SetPassword v p) ∨
          ∃ v p, x = Call.DeployUnit v p) ∨
      (∃ ext, (Deployer.changed c u ⟨d, w, []⟩).2.calls = Call.Unit u :: ext ∧
        ∀ x ∈ ext, x = Call.RecallUnit u ∨ (∃ v, x = Call.EnsureDead v) ∨
          (∃ v, x = Call.Service v) ∨ ∃ service v, x = Call.RemoveUnit service v)) ∧
    (∀ l w1, c.st.Unit u w = (l, w1) → u ∈ d.deployed →
      (l = Lookup.notFound ∨
        ∃ unit, l = Lookup.found unit ∧ unit.DeployerName ≠ some d.entityName) →
      (Deployer.changed c u ⟨d, w, []⟩).2.calls = [Call.Unit u, Call.RecallUnit u]) ∧
    (∀ unit w1, c.st.Unit u w = (Lookup.found unit, w1) → u ∈ d.deployed →
      unit.Name = u → unit.DeployerName = some d.entityName → unit.Life = state.Life.Dead →
      (∀ e w2, c.mgr.RecallUnit u w1 = (some e, w2) →
        Deployer.changed c u ⟨d, w, []⟩ =
          (Ret.err e, ⟨d, w2, [Call.Unit u, Call.RecallUnit u]⟩)) ∧
      (∀ w2, c.mgr.RecallUnit u w1 = (none, w2) →
        (Deployer.changed c u ⟨d, w, []⟩).2.d = ⟨d.entityName, d.deployed.erase u⟩ ∧
        ∃ rest, (Deployer.changed c u ⟨d, w, []⟩).2.calls =
            Call.Unit u :: Call.RecallUnit u :: Call.EnsureDead u :: rest ∧
          ∀ x ∈ rest, x = Call.Service u ∨ ∃ service, x = Call.RemoveUnit service u)) := by
  refine ⟨?_, ?_, ?_⟩
  · simpa using changed_calls c u ⟨d, w, []⟩
  · intro l w1 hlookup hu hcase
    rcases hcase with rfl | ⟨unit, rfl, hown⟩
    · rw [changed_notFound c u _ w1 hlookup, act_unowned_deployed c u _ _ _ hu,
        recall_of_mem c u _ hu]
      simp [Run.afterLookup]
    · rw [changed_found c u _ unit w1 hlookup,
        (responsible_eq_false_iff unit d).2 hown, act_unowned_deployed c u _ _ _ hu,
        recall_of_mem c u _ hu]
      simp [Run.afterLookup]
  · intro unit w1 hlookup hu hname hown hdead
    have hstep := changed_found c u ⟨d, w, []⟩ unit w1 hlookup
    rw [(responsible_eq_true_iff unit d).2 hown, hdead,
      act_owned_deployed_dead c u unit _ hu] at hstep
    subst hname
    constructor
    · intro e w2 hrec
      rw [hstep]
      simp [Run.afterLookup, hrec]
    · intro w2 hrec
      rw [hstep]
      simp only [Run.afterLookup, hrec]
      have herase : unit.Name ∉ d.deployed.erase unit.Name := Finset.not_mem_erase _ _
      have hlife : unit.Life ≠ state.Life.Alive := by rw [hdead]; decide
      refine ⟨remove_d c unit _, ?_⟩
      rcases hed : c.st.EnsureDead unit w2 with ⟨_ | e, w3⟩
      · rcases hsv : c.st.Service unit w3 with ⟨e | service, w4⟩
        · simp [Deployer.remove, herase, hlife, hed, hsv]
        · rcases hrm : c.st.RemoveUnit service unit w4 with ⟨_ | e, w5⟩ <;>
            simp [Deployer.remove, herase, hlife, hed, hsv, hrm]
      · simp [Deployer.remove, herase, hlife, hed]

/-- An instance of the amended C6: with `app/0` deployed and now owned by
`machine-1` the step performs recall only (part 2); with `app/0` deployed,
Dead and still owned by `machine-0`, recall is followed by removal (part 3). -/
theorem C6_recall_then_removal_amended_witness :
    (Deployer.changed (Script.allOk (Lookup.found ⟨"app/0", state.Life.Dead, some "machine-1"⟩)).collab
        "app/0" ⟨⟨"machine-0", {"app/0"}⟩, 0, []⟩).2.calls =
      [Call.Unit "app/0", Call.RecallUnit "app/0"] ∧
    ∃ rest,
      (Deployer.changed (Script.allOk (Lookup.found ⟨"app/0", state.Life.Dead, some "machine-0"⟩)).collab
        "app/0" ⟨⟨"machine-0", {"app/0"}⟩, 0, []⟩).2.calls =
        Call.Unit "app/0" :: Call.RecallUnit "app/0" :: Call.EnsureDead "app/0" :: rest ∧
      ∀ x ∈ rest, x = Call.Service "app/0" ∨ ∃ service, x = Call.RemoveUnit service "app/0" :=
  ⟨(C6_recall_then_removal_amended
      (Script.allOk (Lookup.found ⟨"app/0", state.Life.Dead, some "machine-1"⟩)).collab
      ⟨"machine-0", {"app/0"}⟩ "app/0" 0).2.1 _ 1 rfl (by simp)
      (Or.inr ⟨_, rfl, by decide⟩),
   (((C6_recall_then_removal_amended
      (Script.allOk (Lookup.found ⟨"app/0", state.Life.Dead, some "machine-0"⟩)).collab
      ⟨"machine-0", {"app/0"}⟩ "app/0" 0).2.2 ⟨"app/0", state.Life.Dead, some "machine-0"⟩ 1 rfl
      (by simp) rfl rfl rfl).2 2 rfl).2⟩

/-- C7. Idempotence of the step: if a step for `u` returns nil and the step
is run again from the deployer and world it left, and the second lookup sees
the unit as the first did, or made Dead when the first run called `EnsureDead`,
or gone when the first run called `RemoveUnit` (the first run changes the
unit in no other way), then the second run issues no `DeployUnit` and no
`RecallUnit` call and reaches no panic. -/
theorem C7_idempotence {W : Type} (c : Collab W) (d : Deployer) (u : String) (w : W)
    (hnil : (Deployer.changed c u ⟨d, w, []⟩).1 = Ret.nil)
    (hname : ∀ unit, (c.st.Unit u w).1 = Lookup.found unit → unit.Name = u)
    (hstate :
      (c.st.Unit u (Deployer.changed c u ⟨d, w, []⟩).2.w).1 = (c.st.Unit u w).1 ∨
      (∃ unit, (c.st.Unit u w).1 = Lookup.found unit ∧
        Call.EnsureDead u ∈ (Deployer.changed c u ⟨d, w, []⟩).2.calls ∧
        (c.st.Unit u (Deployer.changed c u ⟨d, w, []⟩).2.w).1 =
          Lookup.found ⟨unit.Name, state.Life.Dead, unit.DeployerName⟩) ∨
      (∃ service, Call.RemoveUnit service u ∈ (Deployer.changed c u ⟨d, w, []⟩).2.calls ∧
        (c.st.Unit u (Deployer.changed c u ⟨d, w, []⟩).2.w).1 = Lookup.notFound)) :
    (∀ v p, Call.DeployUnit v p ∉
      (Deployer.changed c u ⟨(Deployer.changed c u ⟨d, w, []⟩).2.d,
        (Deployer.changed c u ⟨d, w, []⟩).2.w, []⟩).2.calls) ∧
    (∀ v, Call.RecallUnit v ∉
      (Deployer.changed c u ⟨(Deployer.changed c u ⟨d, w, []⟩).2.d,
        (Deployer.changed c u ⟨d, w, []⟩).2.w, []⟩).2.calls) ∧
    ∀ msg, (Deployer.changed c u ⟨(Deployer.changed c u ⟨d, w, []⟩).2.d,
        (Deployer.changed c u ⟨d, w, []⟩).2.w, []⟩).1 ≠ Ret.panic msg := by
  obtain ⟨hent, hsum⟩ := changed_nil_summary c u d w hnil hname
  generalize (Deployer.changed c u ⟨d, w, []⟩).2 = s1 at hent hsum hstate ⊢
  apply changed_quiet c u s1.d s1.w
  rw [hent]
  rcases hsum with ⟨hl1, hu1⟩ | ⟨unit, hl1, hown, hu1⟩ | ⟨unit, hl1, hown, hu1, hlife, hed, hrm⟩ |
    ⟨unit, hl1, hown, hu1, hlife⟩
  · refine Or.inl ⟨hu1, Or.inl ?_⟩
    rcases hstate with h | ⟨unit, h, _⟩ | ⟨_, _, h⟩
    · rw [h, hl1]
    · rw [hl1] at h
      cases h
    · exact h
  · refine Or.inl ⟨hu1, ?_⟩
    rcases hstate with h | ⟨unit1, h, _, h2⟩ | ⟨_, _, h⟩
    · exact Or.inr ⟨unit, by rw [h, hl1], Or.inl hown⟩
    · rw [hl1] at h
      cases h
      exact Or.inr ⟨_, h2, Or.inl hown⟩
    · exact Or.inl h
  · refine Or.inr ⟨hu1, ?_⟩
    rcases hstate with h | ⟨_, _, h, _⟩ | ⟨service, h, _⟩
    · exact ⟨unit, by rw [h, hl1], hown, hlife⟩
    · exact absurd h (hed u)
    · exact absurd h (hrm service u)
  · refine Or.inl ⟨hu1, ?_⟩
    rcases hstate with h | ⟨unit1, h, _, h2⟩ | ⟨_, _, h⟩
    · exact Or.inr ⟨unit, by rw [h, hl1], Or.inr ⟨hname unit hl1, hlife⟩⟩
    · rw [hl1] at h
      cases h
      exact Or.inr ⟨_, h2, Or.inr ⟨hname unit hl1, fun hne => state.Life.noConfusion hne⟩⟩
    · exact Or.inl h

/-- An instance of C7 on the store double: `app/3` is Dying, owned by
`machine-0` and not deployed; the first step sets it Dead and erases it, so
the second lookup reports not-found, and the second step is quiet. -/
theorem C7_idempotence_witness :
    (∀ v p, Call.DeployUnit v p ∉
      (Deployer.changed store "app/3"
        ⟨(Deployer.changed store "app/3"
            ⟨⟨"machine-0", ∅⟩, [⟨"app/3", state.Life.Dying, some "machine-0"⟩], []⟩).2.d,
          (Deployer.changed store "app/3"
            ⟨⟨"machine-0", ∅⟩, [⟨"app/3", state.Life.Dying, some "machine-0"⟩], []⟩).2.w,
          []⟩).2.calls) ∧
    (∀ v, Call.RecallUnit v ∉
      (Deployer.changed store "app/3"
        ⟨(Deployer.changed store "app/3"
            ⟨⟨"machine-0", ∅⟩, [⟨"app/3", state.Life.Dying, some "machine-0"⟩], []⟩).2.d,
          (Deployer.changed store "app/3"
            ⟨⟨"machine-0", ∅⟩, [⟨"app/3", state.Life.Dying, some "machine-0"⟩], []⟩).2.w,
          []⟩).2.calls) ∧
    ∀ msg,
      (Deployer.changed store "app/3"
        ⟨(Deployer.changed store "app/3"
            ⟨⟨"machine-0", ∅⟩, [⟨"app/3", state.Life.Dying, some "machine-0"⟩], []⟩).2.d,
          (Deployer.changed store "app/3"
            ⟨⟨"machine-0", ∅⟩, [⟨"app/3", state.Life.Dying, some "machine-0"⟩], []⟩).2.w,
          []⟩).1 ≠ Ret.panic msg :=
  C7_idempotence store ⟨"machine-0", ∅⟩ "app/3" [⟨"app/3", state.Life.Dying, some "machine-0"⟩]
    (by simp [Deployer.changed, Deployer.changed.act, Deployer.remove, store])
    (by
      intro unit h
      simp [store] at h
      rw [← h])
    (Or.inr (Or.inr ⟨"app",
      by simp [Deployer.changed, Deployer.changed.act, Deployer.remove, store],
      by simp [Deployer.changed, Deployer.changed.act, Deployer.remove, store]⟩))

/-- C8. Convergence: starting with `u` not deployed, if the first lookup finds
the unit `u` Alive and owned by this deployer, the `RandomPassword`,
`SetPassword` and `DeployUnit` calls that follow it succeed, and each later
lookup made finds the unit Alive and owned by this deployer, then `n ≥ 1`
consecutive steps for `u` (a batch holding `u` `n` times) all return nil and
leave `deployed = D ∪ {u}`, having issued exactly one `DeployUnit(u, _)` call
and no `RecallUnit` call: the log is the deploy of the first step followed by
`n - 1` bare lookups.  Nothing is assumed of a call that is not made. -/
theorem C8_convergence {W : Type} (c : Collab W) (d : Deployer) (u p : String)
    (unit : state.Unit) (w w1 w2 w3 w4 : W) (n : Nat) (hn : 1 ≤ n) (hu : u ∉ d.deployed)
    (hfound : c.st.Unit u w = (Lookup.found unit, w1))
    (hname : unit.Name = u)
    (hlife : unit.Life = state.Life.Alive)
    (hown : unit.DeployerName = some d.entityName)
    (hpw : c.RandomPassword w1 = (Except.ok p, w2))
    (hset : c.st.SetPassword unit p w2 = (none, w3))
    (hdep : c.mgr.DeployUnit u p w3 = (none, w4))
    (hlater : ∀ j, j < n - 1 →
      ∃ unit0, (c.st.Unit u (afterLookups c u j w4)).1 = Lookup.found unit0 ∧
        unit0.Life = state.Life.Alive ∧ unit0.DeployerName = some d.entityName) :
    Deployer.loop.changes c (List.replicate n u) ⟨d, w, []⟩ =
      (Ret.nil, ⟨⟨d.entityName, insert u d.deployed⟩, afterLookups c u (n - 1) w4,
        [Call.Unit u, Call.RandomPassword, Call.SetPassword u p, Call.DeployUnit u p] ++
          List.replicate (n - 1) (Call.Unit u)⟩) ∧
    ((Deployer.loop.changes c (List.replicate n u) ⟨d, w, []⟩).2.calls.countP
      (fun x => match x with
        | Call.DeployUnit v _ => decide (v = u)
        | _ => false)) = 1 ∧
    ∀ v, Call.RecallUnit v ∉ (Deployer.loop.changes c (List.replicate n u) ⟨d, w, []⟩).2.calls := by
  obtain ⟨k, rfl⟩ : ∃ k, n = k + 1 := ⟨n - 1, by omega⟩
  have hfirst : Deployer.changed c u ⟨d, w, []⟩ =
      (Ret.nil, ⟨⟨d.entityName, insert u d.deployed⟩, w4,
        [Call.Unit u, Call.RandomPassword, Call.SetPassword u p, Call.DeployUnit u p]⟩) := by
    subst hname
    simp [Deployer.changed, Deployer.changed.act, Deployer.deploy, hfound, hu, hlife, hown,
      hpw, hset, hdep]
  have hrest := changes_replicate_lookups c u k
    ⟨⟨d.entityName, insert u d.deployed⟩, w4,
      [Call.Unit u, Call.RandomPassword, Call.SetPassword u p, Call.DeployUnit u p]⟩
    (Finset.mem_insert_self _ _) hlater
  have hall : Deployer.loop.changes c (List.replicate (k + 1) u) ⟨d, w, []⟩ =
      (Ret.nil, ⟨⟨d.entityName, insert u d.deployed⟩, afterLookups c u (k + 1 - 1) w4,
        [Call.Unit u, Call.RandomPassword, Call.SetPassword u p, Call.DeployUnit u p] ++
          List.replicate (k + 1 - 1) (Call.Unit u)⟩) := by
    simp only [List.replicate_succ, Deployer.loop.changes, hfirst, hrest]
    simp
  refine ⟨hall, ?_, ?_⟩
  · rw [hall]
    simp [List.countP_cons, List.countP_append, List.countP_replicate]
  · intro v
    rw [hall]
    simp

/-- An instance of C8 on a manager that follows its contract: `app/1`, Alive
and owned by `machine-0` in the store, is delivered three times with nothing
deployed at the start.  The one `DeployUnit` call succeeds, and a second one
would fail. -/
theorem C8_convergence_witness :
    Deployer.loop.changes (withSetManager store.st store.RandomPassword)
        (List.replicate 3 "app/1")
        ⟨⟨"machine-0", ∅⟩, ([⟨"app/1", state.Life.Alive, some "machine-0"⟩], []), []⟩ =
      (Ret.nil, ⟨⟨"machine-0", insert "app/1" ∅⟩,
        ([⟨"app/1", state.Life.Alive, some "machine-0"⟩], ["app/1"]),
        [Call.Unit "app/1", Call.RandomPassword, Call.SetPassword "app/1" "pw",
          Call.DeployUnit "app/1" "pw", Call.Unit "app/1", Call.Unit "app/1"]⟩) ∧
    ((withSetManager store.st store.RandomPassword).mgr.DeployUnit "app/1" "pw"
        ([⟨"app/1", state.Life.Alive, some "machine-0"⟩], ["app/1"])).1 =
      some ⟨"agent already deployed"⟩ :=
  ⟨(C8_convergence (withSetManager store.st store.RandomPassword) ⟨"machine-0", ∅⟩
      "app/1" "pw" ⟨"app/1", state.Life.Alive, some "machine-0"⟩
      ([⟨"app/1", state.Life.Alive, some "machine-0"⟩], [])
      ([⟨"app/1", state.Life.Alive, some "machine-0"⟩], [])
      ([⟨"app/1", state.Life.Alive, some "machine-0"⟩], [])
      ([⟨"app/1", state.Life.Alive, some "machine-0"⟩], [])
      ([⟨"app/1", state.Life.Alive, some "machine-0"⟩], ["app/1"])
      3 (by decide) (by simp)
      (by simp [withSetManager, store]) rfl rfl rfl
      (by simp [withSetManager, store])
      (by simp [withSetManager, store])
      (by simp [withSetManager, setManager])
      (by
        intro j hj
        refine ⟨⟨"app/1", state.Life.Alive, some "machine-0"⟩, ?_, rfl, rfl⟩
        interval_cases j <;> simp [afterLookups, withSetManager, store])).1,
   by simp [withSetManager, setManager]⟩

/-- C9. Deploy failure is atomic: in the deploy branch (`u` not deployed, unit
`u` found Alive and owned by this deployer), a failure of `RandomPassword`, of
`SetPassword` or of `DeployUnit` is returned as the result of the step, the
log ends with the failing call (so nothing after it is executed), and the
deployer, hence `deployed`, is as it was before the step. -/
theorem C9_deploy_failure_atomic {W : Type} (c : Collab W) (d : Deployer) (u : String)
    (unit : state.Unit) (w w1 : W)
    (hu : u ∉ d.deployed)
    (hfound : c.st.Unit u w = (Lookup.found unit, w1))
    (hname : unit.Name = u)
    (hlife : unit.Life = state.Life.Alive)
    (hown : unit.DeployerName = some d.entityName) :
    (∀ e w2, c.RandomPassword w1 = (Except.error e, w2) →
      Deployer.changed c u ⟨d, w, []⟩ =
        (Ret.err e, ⟨d, w2, [Call.Unit u, Call.RandomPassword]⟩)) ∧
    (∀ p e w2 w3, c.RandomPassword w1 = (Except.ok p, w2) →
      c.st.SetPassword unit p w2 = (some e, w3) →
      Deployer.changed c u ⟨d, w, []⟩ =
        (Ret.err e, ⟨d, w3, [Call.Unit u, Call.RandomPassword, Call.SetPassword u p]⟩)) ∧
    (∀ p e w2 w3 w4, c.RandomPassword w1 = (Except.ok p, w2) →
      c.st.SetPassword unit p w2 = (none, w3) →
      c.mgr.DeployUnit u p w3 = (some e, w4) →
      Deployer.changed c u ⟨d, w, []⟩ =
        (Ret.err e, ⟨d, w4, [Call.Unit u, Call.RandomPassword, Call.SetPassword u p,
          Call.DeployUnit u p]⟩)) := by
  subst hname
  have hstep : Deployer.changed c unit.Name ⟨d, w, []⟩ =
      Deployer.deploy c unit ⟨d, w1, [Call.Unit unit.Name]⟩ := by
    simp [Deployer.changed, Deployer.changed.act, hfound, hu, hown, hlife]
  rw [hstep]
  refine ⟨?_, ?_, ?_⟩
  · intro e w2 hpw
    simp [Deployer.deploy, hu, hpw]
  · intro p e w2 w3 hpw hset
    simp [Deployer.deploy, hu, hpw, hset]
  · intro p e w2 w3 w4 hpw hset hdep
    simp [Deployer.deploy, hu, hpw, hset, hdep]

/-- An instance of C9: `DeployUnit` fails for `app/1`; the error is returned
and nothing is added to `deployed`. -/
theorem C9_deploy_failure_atomic_witness :
    Deployer.changed Script.deployUnitFails.collab "app/1" ⟨⟨"machine-0", ∅⟩, 0, []⟩ =
      (Ret.err ⟨"agent already deployed"⟩, ⟨⟨"machine-0", ∅⟩, 4,
        [Call.Unit "app/1", Call.RandomPassword, Call.SetPassword "app/1" "pw",
          Call.DeployUnit "app/1" "pw"]⟩) :=
  (C9_deploy_failure_atomic Script.deployUnitFails.collab ⟨"machine-0", ∅⟩ "app/1"
    ⟨"app/1", state.Life.Alive, some "machine-0"⟩ 0 1 (by simp) rfl rfl rfl rfl).2.2
    "pw" ⟨"agent already deployed"⟩ 2 3 4 rfl rfl rfl

/-- C10. Removal from `deployed` only by a successful recall: if `v` is in
`deployed` before a step for `u` and not after it, then `v = u`, the step
called `RecallUnit(v)`, and that call (made in the world left by the lookup)
returned no error.  And when the step calls `RecallUnit(u)` and it fails with
`e`, the step returns `e` and the deployer, hence `deployed`, is unchanged. -/
theorem C10_removed_only_by_recall {W : Type} (c : Collab W) (d : Deployer) (u : String)
    (w : W) :
    (∀ v, v ∈ d.deployed → v ∉ (Deployer.changed c u ⟨d, w, []⟩).2.d.deployed →
      v = u ∧ Call.RecallUnit v ∈ (Deployer.changed c u ⟨d, w, []⟩).2.calls ∧
        (c.mgr.RecallUnit v (c.st.Unit u w).2).1 = none) ∧
    (∀ e, Call.RecallUnit u ∈ (Deployer.changed c u ⟨d, w, []⟩).2.calls →
      (c.mgr.RecallUnit u (c.st.Unit u w).2).1 = some e →
      (Deployer.changed c u ⟨d, w, []⟩).1 = Ret.err e ∧
        (Deployer.changed c u ⟨d, w, []⟩).2.d = d) := by
  -- the step that is a bare recall
  have hrecall : ∀ w1 : W, (c.st.Unit u w).2 = w1 → u ∈ d.deployed →
      Deployer.changed c u ⟨d, w, []⟩ =
        Deployer.recall c u (Run.afterLookup ⟨d, w, []⟩ u w1) →
      (∀ v, v ∈ d.deployed → v ∉ (Deployer.changed c u ⟨d, w, []⟩).2.d.deployed →
        v = u ∧ Call.RecallUnit v ∈ (Deployer.changed c u ⟨d, w, []⟩).2.calls ∧
          (c.mgr.RecallUnit v (c.st.Unit u w).2).1 = none) ∧
      (∀ e, Call.RecallUnit u ∈ (Deployer.changed c u ⟨d, w, []⟩).2.calls →
        (c.mgr.RecallUnit u (c.st.Unit u w).2).1 = some e →
        (Deployer.changed c u ⟨d, w, []⟩).1 = Ret.err e ∧
          (Deployer.changed c u ⟨d, w, []⟩).2.d = d) := by
    intro w1 hw1 hu hstep
    rw [hstep, recall_of_mem c u _ hu, hw1]
    simp only [Run.afterLookup]
    rcases hrec : c.mgr.RecallUnit u w1 with ⟨_ | e, w2⟩
    · refine ⟨?_, by simp⟩
      intro v hv hv'
      have hvu : v = u := by
        by_contra hne
        exact hv' (Finset.mem_erase.2 ⟨hne, hv⟩)
      subst hvu
      simp [hrec]
    · refine ⟨fun v hv hv' => absurd hv hv', ?_⟩
      intro e' _ he'
      simp at he'
      simp [he']
  -- a step that leaves the deployed set at least as large and never recalls
  have hkeep : d.deployed ⊆ (Deployer.changed c u ⟨d, w, []⟩).2.d.deployed →
      Call.RecallUnit u ∉ (Deployer.changed c u ⟨d, w, []⟩).2.calls →
      (∀ v, v ∈ d.deployed → v ∉ (Deployer.changed c u ⟨d, w, []⟩).2.d.deployed →
        v = u ∧ Call.RecallUnit v ∈ (Deployer.changed c u ⟨d, w, []⟩).2.calls ∧
          (c.mgr.RecallUnit v (c.st.Unit u w).2).1 = none) ∧
      (∀ e, Call.RecallUnit u ∈ (Deployer.changed c u ⟨d, w, []⟩).2.calls →
        (c.mgr.RecallUnit u (c.st.Unit u w).2).1 = some e →
        (Deployer.changed c u ⟨d, w, []⟩).1 = Ret.err e ∧
          (Deployer.changed c u ⟨d, w, []⟩).2.d = d) :=
    fun hsub hno => ⟨fun v hv hv' => absurd (hsub hv) hv', fun e hcall _ => absurd hcall hno⟩
  rcases hlookup : c.st.Unit u w with ⟨unit | _ | e, w1⟩
  · have hstep := changed_found c u ⟨d, w, []⟩ unit w1 hlookup
    by_cases hu : u ∈ d.deployed
    · cases hresp : responsible unit d
      · rw [hresp, act_unowned_deployed c u _ _ _ hu] at hstep
        simpa [hlookup] using hrecall w1 (by rw [hlookup]) hu hstep
      · by_cases hdead : unit.Life = state.Life.Dead
        · rw [hresp, hdead, act_owned_deployed_dead c u unit _ hu] at hstep
          simp only [Run.afterLookup] at hstep
          rcases hrec : c.mgr.RecallUnit u w1 with ⟨_ | e, w2⟩
          · rw [hrec] at hstep
            simp only at hstep
            obtain ⟨ext, hext, -⟩ := remove_calls c unit
              ⟨⟨d.entityName, d.deployed.erase u⟩, w2, [] ++ [Call.Unit u] ++ [Call.RecallUnit u]⟩
            rw [hstep, remove_d, hext]
            refine ⟨?_, by simp [hrec]⟩
            intro v hv hv'
            have hvu : v = u := by
              by_contra hne
              exact hv' (Finset.mem_erase.2 ⟨hne, hv⟩)
            subst hvu
            simp [hrec]
          · rw [hrec] at hstep
            simp only at hstep
            rw [hstep]
            refine ⟨fun v hv hv' => absurd hv hv', ?_⟩
            intro e' _ he'
            simp [hrec] at he'
            simp [he']
        · rw [hresp, act_owned_deployed_not_dead c u _ _ _ hu hdead] at hstep
          simpa [hlookup] using hkeep (by rw [hstep]; simp [Run.afterLookup])
            (by rw [hstep]; simp [Run.afterLookup])
    · cases hresp : responsible unit d
      · rw [hresp, act_unowned_undeployed c u _ _ _ hu] at hstep
        simpa [hlookup] using hkeep (by rw [hstep]; simp [Run.afterLookup])
          (by rw [hstep]; simp [Run.afterLookup])
      · by_cases halive : unit.Life = state.Life.Alive
        · rw [hresp, halive, act_owned_undeployed_alive c u unit _ hu] at hstep
          obtain ⟨ext, hext, hall⟩ := deploy_calls c unit (Run.afterLookup ⟨d, w, []⟩ u w1)
          have hsub : d.deployed ⊆ (Deployer.changed c u ⟨d, w, []⟩).2.d.deployed := by
            rw [hstep]
            exact deploy_subset c unit (Run.afterLookup ⟨d, w, []⟩ u w1)
          have hno : Call.RecallUnit u ∉ (Deployer.changed c u ⟨d, w, []⟩).2.calls := by
            rw [hstep, hext]
            intro hmem
            simp only [Run.afterLookup, List.nil_append, List.mem_append, List.mem_singleton,
              reduceCtorEq, false_or] at hmem
            rcases hall _ hmem with h | ⟨p, h⟩ | ⟨p, h⟩ <;> cases h
          simpa [hlookup] using hkeep hsub hno
        · rw [hresp, act_owned_undeployed_not_alive c u _ unit _ hu halive] at hstep
          obtain ⟨ext, hext, hall⟩ := remove_calls c unit (Run.afterLookup ⟨d, w, []⟩ u w1)
          have hsub : d.deployed ⊆ (Deployer.changed c u ⟨d, w, []⟩).2.d.deployed := by
            rw [hstep, remove_d]
            simp [Run.afterLookup]
          have hno : Call.RecallUnit u ∉ (Deployer.changed c u ⟨d, w, []⟩).2.calls := by
            rw [hstep, hext]
            intro hmem
            simp only [Run.afterLookup, List.nil_append, List.mem_append, List.mem_singleton,
              reduceCtorEq, false_or] at hmem
            rcases hall _ hmem with h | h | ⟨service, h⟩ <;> cases h
          simpa [hlookup] using hkeep hsub hno
  · have hstep := changed_notFound c u ⟨d, w, []⟩ w1 hlookup
    by_cases hu : u ∈ d.deployed
    · rw [act_unowned_deployed c u _ _ _ hu] at hstep
      simpa [hlookup] using hrecall w1 (by rw [hlookup]) hu hstep
    · rw [act_unowned_undeployed c u _ _ _ hu] at hstep
      simpa [hlookup] using hkeep (by rw [hstep]; simp [Run.afterLookup])
        (by rw [hstep]; simp [Run.afterLookup])
  · have hstep := changed_failed c u ⟨d, w, []⟩ e w1 hlookup
    simpa [hlookup] using hkeep (by rw [hstep]; simp [Run.afterLookup])
      (by rw [hstep]; simp [Run.afterLookup])

/-- An instance of C10: `app/2` is deployed and not found; when every call
succeeds it leaves `deployed` and `RecallUnit` was called and succeeded, and
when `RecallUnit` fails the step returns that error and leaves the deployer
unchanged. -/
theorem C10_removed_only_by_recall_witness :
    ("app/2" = "app/2" ∧
      Call.RecallUnit "app/2" ∈
        (Deployer.changed (Script.allOk Lookup.notFound).collab "app/2"
          ⟨⟨"machine-0", {"app/2"}⟩, 0, []⟩).2.calls ∧
      ((Script.allOk Lookup.notFound).collab.mgr.RecallUnit "app/2"
        (((Script.allOk Lookup.notFound).collab.st.Unit "app/2" 0).2)).1 = none) ∧
    ((Deployer.changed Script.recallUnitFails.collab "app/2"
        ⟨⟨"machine-0", {"app/2"}⟩, 0, []⟩).1 = Ret.err ⟨"agent not deployed"⟩ ∧
      (Deployer.changed Script.recallUnitFails.collab "app/2"
        ⟨⟨"machine-0", {"app/2"}⟩, 0, []⟩).2.d = ⟨"machine-0", {"app/2"}⟩) :=
  ⟨(C10_removed_only_by_recall (Script.allOk Lookup.notFound).collab
      ⟨"machine-0", {"app/2"}⟩ "app/2" 0).1 "app/2" (by simp)
      (by simp [Deployer.changed, Deployer.changed.act, Deployer.recall, Script.allOk,
        Script.collab]),
   (C10_removed_only_by_recall Script.recallUnitFails.collab
      ⟨"machine-0", {"app/2"}⟩ "app/2" 0).2 ⟨"agent not deployed"⟩
      (by simp [Deployer.changed, Deployer.changed.act, Deployer.recall,
        Script.recallUnitFails, Script.collab])
      rfl⟩

/-- C11. The panics are unreachable from the step: whatever the deployed set,
the outcome of the lookup (a unit named `u` of any life and owner, not-found,
or an error) and the answers of the collaborators, `Deployer.changed` does not
end in a panic: neither one of the four invariant panics of `deploy`,
`recall` and `remove`, nor a nil dereference.  `Life` is read from the same
unit snapshot each time. -/
theorem C11_no_panic {W : Type} (c : Collab W) (d : Deployer) (u : String) (w : W)
    (hname : ∀ unit, (c.st.Unit u w).1 = Lookup.found unit → unit.Name = u)
    (msg : String) :
    (Deployer.changed c u ⟨d, w, []⟩).1 ≠ Ret.panic msg := by
  rcases hlookup : c.st.Unit u w with ⟨unit | _ | e, w1⟩
  · have hnm : unit.Name = u := hname unit (by rw [hlookup])
    rw [changed_found c u _ unit w1 hlookup]
    by_cases hu : u ∈ d.deployed
    · cases hresp : responsible unit d
      · rw [act_unowned_deployed c u _ _ _ hu]
        exact recall_not_panic c u _ hu msg
      · by_cases hdead : unit.Life = state.Life.Dead
        · rw [hdead, act_owned_deployed_dead c u unit _ hu]
          simp only [Run.afterLookup]
          rcases hrec : c.mgr.RecallUnit u w1 with ⟨_ | e, w2⟩
          · exact remove_not_panic c unit _
              (by rw [hnm]; exact Finset.not_mem_erase _ _)
              (by rw [hdead]; exact fun h => state.Life.noConfusion h) msg
          · simp
        · rw [act_owned_deployed_not_dead c u _ _ _ hu hdead]
          simp
    · cases hresp : responsible unit d
      · rw [act_unowned_undeployed c u _ _ _ hu]
        simp
      · by_cases halive : unit.Life = state.Life.Alive
        · rw [halive, act_owned_undeployed_alive c u unit _ hu]
          exact deploy_not_panic c unit _ (by rw [hnm]; exact hu) msg
        · rw [act_owned_undeployed_not_alive c u _ unit _ hu halive]
          exact remove_not_panic c unit _ (by rw [hnm]; exact hu) halive msg
  · rw [changed_notFound c u _ w1 hlookup]
    by_cases hu : u ∈ d.deployed
    · rw [act_unowned_deployed c u _ _ _ hu]
      exact recall_not_panic c u _ hu msg
    · rw [act_unowned_undeployed c u _ _ _ hu]
      simp
  · rw [changed_failed c u _ e w1 hlookup]
    simp

/-- An instance of C11 on the store double: `app/0` is deployed, Dead and
owned, so the step runs both `recall` and `remove`, and does not panic. -/
theorem C11_no_panic_witness :
    (Deployer.changed store "app/0"
      ⟨⟨"machine-0", {"app/0"}⟩, [⟨"app/0", state.Life.Dead, some "machine-0"⟩], []⟩).1 ≠
      Ret.panic "must not remove a deployed unit" :=
  C11_no_panic store ⟨"machine-0", {"app/0"}⟩ "app/0"
    [⟨"app/0", state.Life.Dead, some "machine-0"⟩]
    (by
      intro unit h
      simp [store] at h
      rw [← h])
    "must not remove a deployed unit"

/-- C12. The deployed set is a subset of the manager's own view.  With the
manager modelled as the set `M` of its documented contract (and any state
store and password generator): (1) if `deployed ⊆ M` before a step, then
`deployed ⊆ M` after it, whatever the step returns; (2) starting from
`NewDeployer`, after `DeployedUnits` returned `M`, `deployed ⊆ M` holds after
every seeding iteration, that is after seeding with any initial part `L1` of
`M`; (3) `deployed ⊆ M` holds wherever `Deployer.loop` stands or ends, for any
outcomes of its `select`s. -/
theorem C12_deployed_subset_of_manager {S : Type} (st : State S)
    (rp : S → Except Error String × S) :
    (∀ (u : String) (s : Run (S × List String)), (∀ v ∈ s.d.deployed, v ∈ s.w.2) →
      ∀ v ∈ (Deployer.changed (withSetManager st rp) u s).2.d.deployed,
        v ∈ (Deployer.changed (withSetManager st rp) u s).2.w.2) ∧
    (∀ (entityName : String) (x : S) (M L1 L2 : List String), M.Nodup → M = L1 ++ L2 →
      ∀ v ∈ (Deployer.loop.seed (withSetManager st rp) L1
          ⟨NewDeployer entityName, (x, M), [Call.DeployedUnits]⟩).2.d.deployed,
        v ∈ (Deployer.loop.seed (withSetManager st rp) L1
          ⟨NewDeployer entityName, (x, M), [Call.DeployedUnits]⟩).2.w.2) ∧
    (∀ (entityName : String) (x : S) (M : List String) (selects : List Select), M.Nodup →
      ∀ v ∈ (Deployer.loop (withSetManager st rp) selects
          ⟨NewDeployer entityName, (x, M), []⟩).2.d.deployed,
        v ∈ (Deployer.loop (withSetManager st rp) selects
          ⟨NewDeployer entityName, (x, M), []⟩).2.w.2) := by
  refine ⟨changed_subset_manager st rp, ?_, ?_⟩
  · intro entityName x M L1 L2 hnodup hM
    subst hM
    exact seed_subset_manager st rp L1 _ (List.Nodup.of_append_left hnodup)
      (by simp [NewDeployer]) (fun v hv => List.mem_append_left _ hv)
  · intro entityName x M selects hnodup
    have hseed := seed_subset_manager st rp M
      ⟨NewDeployer entityName, (x, M), [] ++ [Call.DeployedUnits]⟩ hnodup
      (by simp [NewDeployer]) (fun v hv => hv)
    have hdu : (withSetManager st rp).mgr.DeployedUnits (x, M) = (Except.ok M, (x, M)) := rfl
    simp only [Deployer.loop, hdu]
    rcases hr : Deployer.loop.seed (withSetManager st rp) M
        ⟨NewDeployer entityName, (x, M), [] ++ [Call.DeployedUnits]⟩ with ⟨r, s1⟩
    rw [hr] at hseed
    cases r
    · exact wait_subset_manager st rp selects s1 hseed
    · exact hseed
    · exact hseed

/-- An instance of C12 on the store double with the set manager: nothing is
deployed at startup, the first batch delivers `app/1`, Alive and owned by
`machine-0`; it is deployed, and it is in the list of the manager. -/
theorem C12_deployed_subset_of_manager_witness :
    "app/1" ∈ (Deployer.loop (withSetManager store.st store.RandomPassword)
      [Select.Changes ["app/1"]]
      ⟨NewDeployer "machine-0", ([⟨"app/1", state.Life.Alive, some "machine-0"⟩], []), []⟩).2.w.2 :=
  (C12_deployed_subset_of_manager store.st store.RandomPassword).2.2 "machine-0"
    [⟨"app/1", state.Life.Alive, some "machine-0"⟩] [] [Select.Changes ["app/1"]]
    List.nodup_nil "app/1"
    (by simp [Deployer.loop, Deployer.loop.seed, Deployer.loop.wait, Deployer.loop.changes,
      Deployer.changed, Deployer.changed.act, Deployer.deploy, NewDeployer, withSetManager,
      setManager, store])

/-- C13. Fail-fast, in-order batch processing: when the `select`s of the main
loop deliver the batches `batches` (followed by any further outcomes `more`),
the loop runs the step on the names of the batches in order, batch after
batch, as one pass over their concatenation, and goes on with `more` only if
every step returned nil.  If the step for a name returns the error `e`, all
steps before it having returned nil, the loop ends with exactly `e` in the
state that failing step left: the log has no call for any later name of that
batch or of a later batch. -/
theorem C13_fail_fast_in_order {W : Type} (c : Collab W) (batches : List (List String))
    (more : List Select) (s : Run W) :
    (Deployer.loop.wait c (batches.map Select.Changes ++ more) s =
      match Deployer.loop.changes c batches.flatten s with
      | (Ret.nil, s1) => Deployer.loop.wait c more s1
      | (e, s1) => (some e, s1)) ∧
    (∀ pre u post e s1 s2, batches.flatten = pre ++ u :: post →
      Deployer.loop.changes c pre s = (Ret.nil, s1) →
      Deployer.changed c u s1 = (Ret.err e, s2) →
      Deployer.loop.wait c (batches.map Select.Changes ++ more) s = (some (Ret.err e), s2)) := by
  have hflat : ∀ (bs : List (List String)) (s0 : Run W),
      Deployer.loop.wait c (bs.map Select.Changes ++ more) s0 =
        match Deployer.loop.changes c bs.flatten s0 with
        | (Ret.nil, s1) => Deployer.loop.wait c more s1
        | (e, s1) => (some e, s1) := by
    intro bs
    induction bs with
    | nil =>
      intro s0
      simp [Deployer.loop.changes]
    | cons b bs ih =>
      intro s0
      simp only [List.map_cons, List.cons_append, Deployer.loop.wait, List.flatten_cons,
        changes_append]
      rcases h : Deployer.loop.changes c b s0 with ⟨r, s1⟩
      cases r <;> simp [ih]
  refine ⟨hflat batches s, ?_⟩
  intro pre u post e s1 s2 hsplit hpre hstep
  rw [hflat, hsplit, changes_append, hpre]
  simp [Deployer.loop.changes, hstep]

/-- An instance of C13: the batches `[app/1, app/2]` and `[app/3]`, then a
dying tomb; `app/1` is deployed, the lookup of `app/2` fails, and the loop
ends with that error without any call for `app/3`. -/
theorem C13_fail_fast_in_order_witness :
    Deployer.loop.wait (tableCollab [] sampleTable)
        ([["app/1", "app/2"], ["app/3"]].map Select.Changes ++ [Select.Dying])
        ⟨⟨"machine-0", ∅⟩, 0, []⟩ =
      (some (Ret.err ⟨"connection lost"⟩),
        ⟨⟨"machine-0", insert "app/1" ∅⟩, 5,
          [Call.Unit "app/1", Call.RandomPassword, Call.SetPassword "app/1" "pw",
            Call.DeployUnit "app/1" "pw", Call.Unit "app/2"]⟩) :=
  (C13_fail_fast_in_order (tableCollab [] sampleTable) [["app/1", "app/2"], ["app/3"]]
    [Select.Dying] ⟨⟨"machine-0", ∅⟩, 0, []⟩).2
    ["app/1"] "app/2" ["app/3"] ⟨"connection lost"⟩
    ⟨⟨"machine-0", insert "app/1" ∅⟩, 4,
      [Call.Unit "app/1", Call.RandomPassword, Call.SetPassword "app/1" "pw",
        Call.DeployUnit "app/1" "pw"]⟩
    ⟨⟨"machine-0", insert "app/1" ∅⟩, 5,
      [Call.Unit "app/1", Call.RandomPassword, Call.SetPassword "app/1" "pw",
        Call.DeployUnit "app/1" "pw", Call.Unit "app/2"]⟩
    (by simp)
    (by simp [Deployer.loop.changes, Deployer.changed, Deployer.changed.act, Deployer.deploy,
      tableCollab, sampleTable])
    (by simp [Deployer.changed, tableCollab, sampleTable])

/-- C14. Startup seeding result: if `DeployedUnits` returns the list `L` and
every collaborator call made during startup succeeds (no lookup of a unit of
`L` fails, each returns a unit of the name asked for, and the `RecallUnit`,
`EnsureDead`, `Service` and `RemoveUnit` calls that startup makes return no
error, each in the world in which it is made), then `Deployer.loop`, started
from `NewDeployer`, reaches its first `select` with `deployed` being exactly
the units of `L` that the lookup startup makes for them (the last one, should
`L` name a unit twice) finds not Dead and owned by this deployer; every other
unit of `L` has been recalled and no `DeployUnit` call has been made.  Nothing
is assumed of a call that is not made. -/
theorem C14_startup_seeding {W : Type} (c : Collab W) (entityName : String) (w w1 : W)
    (L : List String)
    (hL : c.mgr.DeployedUnits w = (Except.ok L, w1))
    (hUnit : ∀ pre u post, L = pre ++ u :: post →
      ∀ e, (c.st.Unit u (startupWorld c entityName w1 pre)).1 ≠ Lookup.failed e)
    (hname : ∀ pre u post, L = pre ++ u :: post →
      ∀ unit, (c.st.Unit u (startupWorld c entityName w1 pre)).1 = Lookup.found unit →
        unit.Name = u)
    (hRecallUnit : ∀ pre u post, L = pre ++ u :: post →
      ¬ stays c entityName (startupWorld c entityName w1 pre) u →
      (c.mgr.RecallUnit u (c.st.Unit u (startupWorld c entityName w1 pre)).2).1 = none)
    (hremove : ∀ pre u post, L = pre ++ u :: post →
      ∀ unit, (c.st.Unit u (startupWorld c entityName w1 pre)).1 = Lookup.found unit →
        unit.Life = state.Life.Dead → unit.DeployerName = some entityName →
        (c.st.EnsureDead unit
          (c.mgr.RecallUnit u (c.st.Unit u (startupWorld c entityName w1 pre)).2).2).1 = none ∧
        ∃ service,
          (c.st.Service unit
            (c.st.EnsureDead unit
              (c.mgr.RecallUnit u
                (c.st.Unit u (startupWorld c entityName w1 pre)).2).2).2).1 =
              Except.ok service ∧
          (c.st.RemoveUnit service unit
            (c.st.Service unit
              (c.st.EnsureDead unit
                (c.mgr.RecallUnit u
                  (c.st.Unit u (startupWorld c entityName w1 pre)).2).2).2).2).1 = none) :
    ∃ s1, Deployer.loop c [] ⟨NewDeployer entityName, w, []⟩ = (none, s1) ∧
      (∀ u, u ∈ s1.d.deployed ↔
        ∃ pre post, L = pre ++ u :: post ∧ u ∉ post ∧
          stays c entityName (startupWorld c entityName w1 pre) u) ∧
      (∀ u ∈ L, u ∉ s1.d.deployed → Call.RecallUnit u ∈ s1.calls) ∧
      ∀ v p, Call.DeployUnit v p ∉ s1.calls := by
  obtain ⟨s1, hs1, -, hD, ext, hext, hrecalled, hnodeploy⟩ :=
    seed_calls_ok c L ⟨NewDeployer entityName, w1, [Call.DeployedUnits]⟩
      hUnit hname hRecallUnit hremove
  refine ⟨s1, ?_, ?_, ?_, ?_⟩
  · simp only [Deployer.loop, hL, List.nil_append, hs1, Deployer.loop.wait]
  · intro u
    rw [hD u]
    simp [NewDeployer, startupWorld]
  · intro u hu hnot
    rw [hext]
    exact List.mem_append_right _ (hrecalled u hu hnot)
  · intro v p hmem
    rw [hext] at hmem
    rcases List.mem_append.1 hmem with h | h
    · simp at h
    · exact hnodeploy v p h

/-- An instance of C14 on a store and a manager that follow their contracts:
the manager has deployed `app/0`, `app/1` and `app/2`; in the store `app/0` is
Dead and `app/1` Alive, both owned by `machine-0`, and `app/2` is not there.
After startup exactly `app/1` is deployed, the other two have been recalled
(and `app/0` removed from the store), and nothing has been deployed. -/
theorem C14_startup_seeding_witness :
    (∃ s1, Deployer.loop (withSetManager store.st store.RandomPassword) []
        ⟨NewDeployer "machine-0",
          ([⟨"app/0", state.Life.Dead, some "machine-0"⟩,
            ⟨"app/1", state.Life.Alive, some "machine-0"⟩], ["app/0", "app/1", "app/2"]),
          []⟩ = (none, s1) ∧
      (∀ u, u ∈ s1.d.deployed ↔
        ∃ pre post, ["app/0", "app/1", "app/2"] = pre ++ u :: post ∧ u ∉ post ∧
          stays (withSetManager store.st store.RandomPassword) "machine-0"
            (startupWorld (withSetManager store.st store.RandomPassword) "machine-0"
              ([⟨"app/0", state.Life.Dead, some "machine-0"⟩,
                ⟨"app/1", state.Life.Alive, some "machine-0"⟩], ["app/0", "app/1", "app/2"])
              pre) u) ∧
      (∀ u ∈ ["app/0", "app/1", "app/2"], u ∉ s1.d.deployed → Call.RecallUnit u ∈ s1.calls) ∧
      ∀ v p, Call.DeployUnit v p ∉ s1.calls) ∧
    Deployer.loop (withSetManager store.st store.RandomPassword) []
        ⟨NewDeployer "machine-0",
          ([⟨"app/0", state.Life.Dead, some "machine-0"⟩,
            ⟨"app/1", state.Life.Alive, some "machine-0"⟩], ["app/0", "app/1", "app/2"]),
          []⟩ =
      (none, ⟨⟨"machine-0", {"app/1"}⟩,
        ([⟨"app/1", state.Life.Alive, some "machine-0"⟩], ["app/1"]),
        [Call.DeployedUnits, Call.Unit "app/0", Call.RecallUnit "app/0",
          Call.EnsureDead "app/0", Call.Service "app/0", Call.RemoveUnit "app" "app/0",
          Call.Unit "app/1", Call.Unit "app/2", Call.RecallUnit "app/2"]⟩) :=
  ⟨C14_startup_seeding (withSetManager store.st store.RandomPassword) "machine-0"
      ([⟨"app/0", state.Life.Dead, some "machine-0"⟩,
        ⟨"app/1", state.Life.Alive, some "machine-0"⟩], ["app/0", "app/1", "app/2"])
      ([⟨"app/0", state.Life.Dead, some "machine-0"⟩,
        ⟨"app/1", state.Life.Alive, some "machine-0"⟩], ["app/0", "app/1", "app/2"])
      ["app/0", "app/1", "app/2"]
      (by simp [withSetManager, setManager])
      (by
        intro pre u post h
        rcases split_three _ _ _ pre u post h with ⟨rfl, rfl, rfl⟩ | ⟨rfl, rfl, rfl⟩ |
          ⟨rfl, rfl, rfl⟩ <;>
        simp [startupWorld, Deployer.loop.seed, Deployer.changed, Deployer.changed.act,
          Deployer.recall, Deployer.remove, NewDeployer, withSetManager, setManager, store])
      (by
        intro pre u post h
        rcases split_three _ _ _ pre u post h with ⟨rfl, rfl, rfl⟩ | ⟨rfl, rfl, rfl⟩ |
          ⟨rfl, rfl, rfl⟩ <;>
        simp [startupWorld, Deployer.loop.seed, Deployer.changed, Deployer.changed.act,
          Deployer.recall, Deployer.remove, NewDeployer, withSetManager, setManager, store])
      (by
        intro pre u post h
        rcases split_three _ _ _ pre u post h with ⟨rfl, rfl, rfl⟩ | ⟨rfl, rfl, rfl⟩ |
          ⟨rfl, rfl, rfl⟩ <;>
        simp [stays, startupWorld, Deployer.loop.seed, Deployer.changed, Deployer.changed.act,
          Deployer.recall, Deployer.remove, NewDeployer, withSetManager, setManager, store])
      (by
        intro pre u post h
        rcases split_three _ _ _ pre u post h with ⟨rfl, rfl, rfl⟩ | ⟨rfl, rfl, rfl⟩ |
          ⟨rfl, rfl, rfl⟩ <;>
        simp [startupWorld, Deployer.loop.seed, Deployer.changed, Deployer.changed.act,
          Deployer.recall, Deployer.remove, NewDeployer, withSetManager, setManager, store]),
   by simp [Deployer.loop, Deployer.loop.seed, Deployer.loop.wait, Deployer.changed,
      Deployer.changed.act, Deployer.recall, Deployer.remove, NewDeployer, withSetManager,
      setManager, store]⟩

/-- C15. A lookup failure propagates without side effects: whether or not `u`
is deployed, if `st.Unit(u)` fails with an error that is not not-found, the
step returns exactly that error, its log holds the lookup only, and the
deployer, hence `deployed`, is unchanged. -/
theorem C15_lookup_failure {W : Type} (c : Collab W) (d : Deployer) (u : String)
    (e : Error) (w w1 : W)
    (hlookup : c.st.Unit u w = (Lookup.failed e, w1)) :
    Deployer.changed c u ⟨d, w, []⟩ = (Ret.err e, ⟨d, w1, [Call.Unit u]⟩) := by
  simp [Deployer.changed, hlookup]

/-- An instance of C15: the lookup of the deployed `app/0` fails. -/
theorem C15_lookup_failure_witness :
    Deployer.changed (Script.allOk (Lookup.failed ⟨"connection lost"⟩)).collab "app/0"
        ⟨⟨"machine-0", {"app/0"}⟩, 0, []⟩ =
      (Ret.err ⟨"connection lost"⟩, ⟨⟨"machine-0", {"app/0"}⟩, 1, [Call.Unit "app/0"]⟩) :=
  C15_lookup_failure _ ⟨"machine-0", {"app/0"}⟩ "app/0" ⟨"connection lost"⟩ 0 1 rfl

/-- C20. Stale identifiers are harmless: when `u` is not deployed and the
lookup reports not-found, or finds a unit of any life with no owner or an
owner other than this deployer, the step issues no call besides the lookup,
returns nil and leaves the deployer, hence `deployed`, unchanged. -/
theorem C20_stale_identifier {W : Type} (c : Collab W) (d : Deployer) (u : String)
    (w w1 : W) (hu : u ∉ d.deployed) :
    (c.st.Unit u w = (Lookup.notFound, w1) →
      Deployer.changed c u ⟨d, w, []⟩ = (Ret.nil, ⟨d, w1, [Call.Unit u]⟩)) ∧
    (∀ unit, c.st.Unit u w = (Lookup.found unit, w1) →
      unit.DeployerName ≠ some d.entityName →
      Deployer.changed c u ⟨d, w, []⟩ = (Ret.nil, ⟨d, w1, [Call.Unit u]⟩)) := by
  constructor
  · intro hlookup
    rw [changed_notFound c u _ w1 hlookup, act_unowned_undeployed c u _ _ _ hu]
    simp [Run.afterLookup]
  · intro unit hlookup hown
    rw [changed_found c u _ unit w1 hlookup, (responsible_eq_false_iff unit d).2 hown,
      act_unowned_undeployed c u _ _ _ hu]
    simp [Run.afterLookup]

/-- An instance of C20: `app/9` is not deployed and not found; and `app/9` is
not deployed and found Alive but owned by `machine-1`. -/
theorem C20_stale_identifier_witness :
    Deployer.changed (Script.allOk Lookup.notFound).collab "app/9"
        ⟨⟨"machine-0", {"app/0"}⟩, 0, []⟩ =
      (Ret.nil, ⟨⟨"machine-0", {"app/0"}⟩, 1, [Call.Unit "app/9"]⟩) ∧
    Deployer.changed
        (Script.allOk (Lookup.found ⟨"app/9", state.Life.Alive, some "machine-1"⟩)).collab "app/9"
        ⟨⟨"machine-0", {"app/0"}⟩, 0, []⟩ =
      (Ret.nil, ⟨⟨"machine-0", {"app/0"}⟩, 1, [Call.Unit "app/9"]⟩) :=
  ⟨(C20_stale_identifier (Script.allOk Lookup.notFound).collab ⟨"machine-0", {"app/0"}⟩
      "app/9" 0 1 (by decide)).1 rfl,
   (C20_stale_identifier
      (Script.allOk (Lookup.found ⟨"app/9", state.Life.Alive, some "machine-1"⟩)).collab
      ⟨"machine-0", {"app/0"}⟩ "app/9" 0 1 (by decide)).2 _ rfl (by decide)⟩

/-- C21. Interleaved seeding equals seed-then-reconcile: for every list `L`
as `DeployedUnits` returns it, naming each deployed unit once, and every
state, each lookup that startup makes returning a unit of the name asked for,
the coded startup (add one unit of `L` to `deployed`, run the step on it, then
add the next) and startup that first adds all the units of `L` and then runs
the step on each in order return the same result, leave the same world and
the same log of collaborator calls, and, when no step fails, end with the same
deployer, hence the same `deployed`. -/
theorem C21_interleaved_seeding {W : Type} (c : Collab W) (L : List String) (s : Run W)
    (hnodup : L.Nodup)
    (hname : ∀ pre u post, L = pre ++ u :: post →
      ∀ unit, (c.st.Unit u (Deployer.loop.seed c pre s).2.w).1 = Lookup.found unit →
        unit.Name = u) :
    (seedThenReconcile c L s).1 = (Deployer.loop.seed c L s).1 ∧
    (seedThenReconcile c L s).2.calls = (Deployer.loop.seed c L s).2.calls ∧
    (seedThenReconcile c L s).2.w = (Deployer.loop.seed c L s).2.w ∧
    ((Deployer.loop.seed c L s).1 = Ret.nil →
      (seedThenReconcile c L s).2.d = (Deployer.loop.seed c L s).2.d) := by
  obtain ⟨E, hE, hnil⟩ := seed_vs_reconcile_calls c L s hnodup hname
  rw [hE]
  refine ⟨rfl, rfl, rfl, ?_⟩
  intro h
  rw [hnil h]
  simp [Run.addDeployed]

/-- An instance of C21 on a store and a manager that follow their contracts:
the manager has deployed `app/0`, `app/1` and `app/2`; in the store `app/0` is
Dead and `app/1` Alive, both owned by `machine-0`, and `app/2` is not there.
Both startups return nil and end with the same deployer. -/
theorem C21_interleaved_seeding_witness :
    (seedThenReconcile (withSetManager store.st store.RandomPassword)
        ["app/0", "app/1", "app/2"]
        ⟨NewDeployer "machine-0",
          ([⟨"app/0", state.Life.Dead, some "machine-0"⟩,
            ⟨"app/1", state.Life.Alive, some "machine-0"⟩], ["app/0", "app/1", "app/2"]),
          [Call.DeployedUnits]⟩).2.d =
      (Deployer.loop.seed (withSetManager store.st store.RandomPassword)
        ["app/0", "app/1", "app/2"]
        ⟨NewDeployer "machine-0",
          ([⟨"app/0", state.Life.Dead, some "machine-0"⟩,
            ⟨"app/1", state.Life.Alive, some "machine-0"⟩], ["app/0", "app/1", "app/2"]),
          [Call.DeployedUnits]⟩).2.d :=
  (C21_interleaved_seeding (withSetManager store.st store.RandomPassword)
    ["app/0", "app/1", "app/2"]
    ⟨NewDeployer "machine-0",
      ([⟨"app/0", state.Life.Dead, some "machine-0"⟩,
        ⟨"app/1", state.Life.Alive, some "machine-0"⟩], ["app/0", "app/1", "app/2"]),
      [Call.DeployedUnits]⟩
    (by decide)
    (by
      intro pre u post h
      rcases split_three _ _ _ pre u post h with ⟨rfl, rfl, rfl⟩ | ⟨rfl, rfl, rfl⟩ |
        ⟨rfl, rfl, rfl⟩ <;>
      simp [Deployer.loop.seed, Deployer.changed, Deployer.changed.act,
        Deployer.recall, Deployer.remove, NewDeployer, withSetManager, setManager, store])).2.2.2
    (by simp [Deployer.loop.seed, Deployer.changed, Deployer.changed.act, Deployer.recall,
      Deployer.remove, NewDeployer, withSetManager, setManager, store])

/-- C22. A step touches only its own identifier: when the lookup returns a
unit of the name asked for, a step for `u` leaves the membership in `deployed`
of every `v ≠ u` as it was, and every `DeployUnit` or `RecallUnit` call it
issues names `u`. -/
theorem C22_step_touches_own_identifier {W : Type} (c : Collab W) (d : Deployer)
    (u : String) (w : W)
    (hname : ∀ unit, (c.st.Unit u w).1 = Lookup.found unit → unit.Name = u) :
    (∀ v, v ≠ u → (v ∈ (Deployer.changed c u ⟨d, w, []⟩).2.d.deployed ↔ v ∈ d.deployed)) ∧
    (∀ v p, Call.DeployUnit v p ∈ (Deployer.changed c u ⟨d, w, []⟩).2.calls → v = u) ∧
    (∀ v, Call.RecallUnit v ∈ (Deployer.changed c u ⟨d, w, []⟩).2.calls → v = u) := by
  have hrows := changed_rows c u ⟨d, w, []⟩
  dsimp only at hrows
  rcases hrows with ⟨e1, _, h⟩ | h | ⟨hu, h⟩ |
    ⟨unit, hfound, hu, _, _, _, h⟩ | ⟨unit, hfound, _, h⟩ | ⟨unit, hfound, _, _, h⟩
  · rw [h]
    simp [Run.afterLookup]
  · rw [h]
    simp [Run.afterLookup]
  · rw [h, recall_of_mem c u (Run.afterLookup ⟨d, w, []⟩ u (c.st.Unit u w).2) hu]
    simp only [Run.afterLookup]
    refine ⟨?_, by simp, by simp⟩
    intro v hv
    cases (c.mgr.RecallUnit u (c.st.Unit u w).2).1 with
    | none => simp [Finset.mem_erase, hv]
    | some e => simp
  · have hnm := hname unit hfound
    obtain ⟨ext, hext, hall⟩ := remove_calls c unit
      ⟨⟨d.entityName, d.deployed.erase u⟩, (c.mgr.RecallUnit u (c.st.Unit u w).2).2,
        [] ++ [Call.Unit u, Call.RecallUnit u]⟩
    rw [h, remove_d, hext]
    refine ⟨fun v hv => by simp [Finset.mem_erase, hv], ?_, ?_⟩
    · intro v p hmem
      simp only [List.nil_append, List.mem_append, List.mem_cons, reduceCtorEq,
        List.not_mem_nil, or_false, false_or] at hmem
      rcases hall _ hmem with hx | hx | ⟨service, hx⟩ <;> cases hx
    · intro v hmem
      simp only [List.nil_append, List.mem_append, List.mem_cons, reduceCtorEq,
        List.not_mem_nil, or_false, false_or, Call.RecallUnit.injEq] at hmem
      rcases hmem with hv | hmem
      · exact hv
      · rcases hall _ hmem with hx | hx | ⟨service, hx⟩ <;> cases hx
  · have hnm := hname unit hfound
    obtain ⟨ext, hext, hall⟩ := deploy_calls c unit
      (Run.afterLookup ⟨d, w, []⟩ u (c.st.Unit u w).2)
    rw [h, hext]
    refine ⟨?_, ?_, ?_⟩
    · intro v hv
      by_cases hnil : (Deployer.deploy c unit
          (Run.afterLookup ⟨d, w, []⟩ u (c.st.Unit u w).2)).1 = Ret.nil
      · rw [deploy_of_nil c unit _ hnil, hnm]
        simp [Run.afterLookup, Finset.mem_insert, hv]
      · rw [deploy_d_of_ne_nil c unit _ hnil]
        simp [Run.afterLookup]
    · intro v p hmem
      simp only [Run.afterLookup, List.nil_append, List.mem_append, List.mem_cons,
        reduceCtorEq, List.not_mem_nil, or_false, false_or] at hmem
      rcases hall _ hmem with hx | ⟨q, hx⟩ | ⟨q, hx⟩
      · cases hx
      · cases hx
      · cases hx
        exact hnm
    · intro v hmem
      simp only [Run.afterLookup, List.nil_append, List.mem_append, List.mem_cons,
        reduceCtorEq, List.not_mem_nil, or_false, false_or] at hmem
      rcases hall _ hmem with hx | ⟨q, hx⟩ | ⟨q, hx⟩ <;> cases hx
  · obtain ⟨ext, hext, hall⟩ := remove_calls c unit
      (Run.afterLookup ⟨d, w, []⟩ u (c.st.Unit u w).2)
    rw [h, remove_d, hext]
    refine ⟨fun v _ => by simp [Run.afterLookup], ?_, ?_⟩
    · intro v p hmem
      simp only [Run.afterLookup, List.nil_append, List.mem_append, List.mem_cons,
        reduceCtorEq, List.not_mem_nil, or_false, false_or] at hmem
      rcases hall _ hmem with hx | hx | ⟨service, hx⟩ <;> cases hx
    · intro v hmem
      simp only [Run.afterLookup, List.nil_append, List.mem_append, List.mem_cons,
        reduceCtorEq, List.not_mem_nil, or_false, false_or] at hmem
      rcases hall _ hmem with hx | hx | ⟨service, hx⟩ <;> cases hx

/-- An instance of C22: `app/0` is deployed and the step for `app/1` deploys
`app/1`; `app/0` is still deployed, and the `DeployUnit` call names `app/1`. -/
theorem C22_step_touches_own_identifier_witness :
    ("app/0" ∈ (Deployer.changed
        (Script.allOk (Lookup.found ⟨"app/1", state.Life.Alive, some "machine-0"⟩)).collab
        "app/1" ⟨⟨"machine-0", {"app/0"}⟩, 0, []⟩).2.d.deployed ↔
      "app/0" ∈ ({"app/0"} : Finset String)) :=
  (C22_step_touches_own_identifier
    (Script.allOk (Lookup.found ⟨"app/1", state.Life.Alive, some "machine-0"⟩)).collab
    ⟨"machine-0", {"app/0"}⟩ "app/1" 0
    (by
      intro unit h
      simp [Script.allOk, Script.collab] at h
      rw [← h])).1 "app/0" (by decide)

/-- C23, as stated, fails for a deployed unit that is Dead and still owned
when the removal fails after a successful recall: `app/0` is deployed,
`RecallUnit` succeeds, `EnsureDead` fails; the step returns that error and
`app/0` has left `deployed`. -/
theorem C23_error_atomicity_counterexample :
    Deployer.changed Script.deadEnsureDeadFails.collab "app/0"
        ⟨⟨"machine-0", {"app/0"}⟩, 0, []⟩ =
      (Ret.err ⟨"cannot set unit to dead"⟩,
        ⟨⟨"machine-0", Finset.erase {"app/0"} "app/0"⟩, 3,
          [Call.Unit "app/0", Call.RecallUnit "app/0", Call.EnsureDead "app/0"]⟩) ∧
    "app/0" ∉ Finset.erase ({"app/0"} : Finset String) "app/0" := by
  constructor
  · simp [Deployer.changed, Deployer.changed.act, Deployer.recall, Deployer.remove,
      Script.deadEnsureDeadFails, Script.collab]
  · simp

/-- C23, amended. Step-level atomicity on error: if the step returns an
error, the deployer, hence `deployed`, is as it was before the step, except
in one case: `u` was deployed, the unit is found Dead and owned by this
deployer, `RecallUnit(u)` succeeded and the removal that follows in the same
step failed (`EnsureDead` has been called); then `deployed = D \ {u}`. -/
theorem C23_error_atomicity_amended {W : Type} (c : Collab W) (d : Deployer) (u : String)
    (w : W) (e : Error)
    (herr : (Deployer.changed c u ⟨d, w, []⟩).1 = Ret.err e) :
    (Deployer.changed c u ⟨d, w, []⟩).2.d = d ∨
    (u ∈ d.deployed ∧
      (∃ unit, (c.st.Unit u w).1 = Lookup.found unit ∧ unit.Life = state.Life.Dead ∧
        unit.DeployerName = some d.entityName) ∧
      (c.mgr.RecallUnit u (c.st.Unit u w).2).1 = none ∧
      Call.RecallUnit u ∈ (Deployer.changed c u ⟨d, w, []⟩).2.calls ∧
      (∃ v, Call.EnsureDead v ∈ (Deployer.changed c u ⟨d, w, []⟩).2.calls) ∧
      (Deployer.changed c u ⟨d, w, []⟩).2.d = ⟨d.entityName, d.deployed.erase u⟩) := by
  have hrows := changed_rows c u ⟨d, w, []⟩
  dsimp only at hrows
  rcases hrows with ⟨e1, _, h⟩ | h | ⟨hu, h⟩ |
    ⟨unit, hfound, hu, hdead, hown, hrec, h⟩ | ⟨unit, _, _, h⟩ | ⟨unit, _, _, _, h⟩
  · left
    rw [h]
    rfl
  · left
    rw [h]
    rfl
  · left
    rw [h] at herr ⊢
    rw [recall_of_mem c u (Run.afterLookup ⟨d, w, []⟩ u (c.st.Unit u w).2) hu] at herr ⊢
    simp only [Run.afterLookup] at herr ⊢
    cases hr : (c.mgr.RecallUnit u (c.st.Unit u w).2).1 with
    | none =>
      rw [hr] at herr
      cases herr
    | some e2 => rfl
  · right
    rw [h] at herr ⊢
    obtain ⟨ext, hext, -⟩ := remove_calls c unit
      ⟨⟨d.entityName, d.deployed.erase u⟩, (c.mgr.RecallUnit u (c.st.Unit u w).2).2,
        [] ++ [Call.Unit u, Call.RecallUnit u]⟩
    refine ⟨hu, ⟨unit, hfound, hdead, hown⟩, hrec, ?_, ⟨unit.Name, remove_err_calls c unit _ e herr⟩,
      remove_d c unit _⟩
    rw [hext]
    simp
  · left
    rw [h] at herr ⊢
    exact deploy_d_of_ne_nil c unit _ (by rw [herr]; exact fun hne => Ret.noConfusion hne)
  · left
    rw [h]
    exact remove_d c unit _

/-- An instance of the amended C23: `DeployUnit` fails for `app/1`; the step
returns the error and the deployer is unchanged. -/
theorem C23_error_atomicity_amended_witness :
    (Deployer.changed Script.deployUnitFails.collab "app/1" ⟨⟨"machine-0", ∅⟩, 0, []⟩).2.d =
        ⟨"machine-0", ∅⟩ ∨
      ("app/1" ∈ (∅ : Finset String) ∧
        (∃ unit, (Script.deployUnitFails.collab.st.Unit "app/1" 0).1 = Lookup.found unit ∧
          unit.Life = state.Life.Dead ∧ unit.DeployerName = some "machine-0") ∧
        (Script.deployUnitFails.collab.mgr.RecallUnit "app/1"
          (Script.deployUnitFails.collab.st.Unit "app/1" 0).2).1 = none ∧
        Call.RecallUnit "app/1" ∈
          (Deployer.changed Script.deployUnitFails.collab "app/1"
            ⟨⟨"machine-0", ∅⟩, 0, []⟩).2.calls ∧
        (∃ v, Call.EnsureDead v ∈
          (Deployer.changed Script.deployUnitFails.collab "app/1"
            ⟨⟨"machine-0", ∅⟩, 0, []⟩).2.calls) ∧
        (Deployer.changed Script.deployUnitFails.collab "app/1" ⟨⟨"machine-0", ∅⟩, 0, []⟩).2.d =
          ⟨"machine-0", Finset.erase ∅ "app/1"⟩) :=
  C23_error_atomicity_amended Script.deployUnitFails.collab ⟨"machine-0", ∅⟩ "app/1" 0
    ⟨"agent already deployed"⟩
    (by simp [Deployer.changed, Deployer.changed.act, Deployer.deploy, Script.deployUnitFails,
      Script.collab])

/-- C24. No use of an unresolved unit: (1) the step never ends in a nil
dereference; (2) when the lookup reports not-found, so that `unit` is nil,
`responsible` is false and what the step does after the lookup is the same
for every value of `unit`: neither `deploy(unit)`, nor `remove(unit)`, nor
the test `unit != nil` is reached; (3) when the lookup finds a unit, that
unit is the one the rest of the step is given, so the test `unit != nil`
holds wherever it is evaluated. -/
theorem C24_no_unresolved_unit {W : Type} (c : Collab W) (u : String) (s : Run W) :
    (Deployer.changed c u s).1 ≠
      Ret.panic "invalid memory address or nil pointer dereference" ∧
    (∀ w1, c.st.Unit u s.w = (Lookup.notFound, w1) → ∀ x : Option state.Unit,
      Deployer.changed c u s =
        Deployer.changed.act c u state.Life.Dead false x (s.afterLookup u w1)) ∧
    (∀ unit w1, c.st.Unit u s.w = (Lookup.found unit, w1) →
      Deployer.changed c u s =
        Deployer.changed.act c u unit.Life (responsible unit s.d) (some unit)
          (s.afterLookup u w1)) := by
  refine ⟨?_, ?_, ?_⟩
  · intro hpanic
    have hd : ("invalid memory address or nil pointer dereference" : String) ≠
        "must not re-deploy a deployed unit" := by decide
    have hr : ("invalid memory address or nil pointer dereference" : String) ≠
        "must not recall a unit that is not deployed" := by decide
    have hm1 : ("invalid memory address or nil pointer dereference" : String) ≠
        "must not remove a deployed unit" := by decide
    have hm2 : ("invalid memory address or nil pointer dereference" : String) ≠
        "must not remove an Alive unit" := by decide
    rcases changed_rows c u s with ⟨e1, _, h⟩ | h | ⟨hu, h⟩ |
      ⟨unit, _, _, _, _, _, h⟩ | ⟨unit, _, _, h⟩ | ⟨unit, _, _, _, h⟩
    · rw [h] at hpanic
      cases hpanic
    · rw [h] at hpanic
      cases hpanic
    · rw [h] at hpanic
      exact hr (recall_panic_msg c u _ _ hpanic)
    · rw [h] at hpanic
      rcases remove_panic_msg c unit _ _ hpanic with hmsg | hmsg
      · exact hm1 hmsg
      · exact hm2 hmsg
    · rw [h] at hpanic
      exact hd (deploy_panic_msg c unit _ _ hpanic)
    · rw [h] at hpanic
      rcases remove_panic_msg c unit _ _ hpanic with hmsg | hmsg
      · exact hm1 hmsg
      · exact hm2 hmsg
  · intro w1 hlookup x
    rw [changed_notFound c u s w1 hlookup]
    exact act_unowned_any c u _ none x _
  · intro unit w1 hlookup
    exact changed_found c u s unit w1 hlookup

/-- An instance of C24: `app/2` is deployed and not found; the step is what
it would be had the lookup handed over some unit, here an Alive one owned by
`machine-0`. -/
theorem C24_no_unresolved_unit_witness :
    Deployer.changed (Script.allOk Lookup.notFound).collab "app/2"
        ⟨⟨"machine-0", {"app/2"}⟩, 0, []⟩ =
      Deployer.changed.act (Script.allOk Lookup.notFound).collab "app/2" state.Life.Dead false
        (some ⟨"app/2", state.Life.Alive, some "machine-0"⟩)
        (Run.afterLookup ⟨⟨"machine-0", {"app/2"}⟩, 0, []⟩ "app/2" 1) :=
  (C24_no_unresolved_unit (Script.allOk Lookup.notFound).collab "app/2"
    ⟨⟨"machine-0", {"app/2"}⟩, 0, []⟩).2.1 1 rfl
    (some ⟨"app/2", state.Life.Alive, some "machine-0"⟩)

end deployer

namespace charm

/-! ## The first loop of `Validate` -/

/-- When every option is of type string or int, the first loop ends with an
error exactly when it meets an entry whose key is not a declared option or
whose value, for an int option, does not parse. -/
theorem values_error_iff (sc : Strconv) (c : Config)
    (htypes : ∀ k opt, c.Options.lookup k = some opt →
      opt.Type_ = "string" ∨ opt.Type_ = "int") :
    ∀ (l : List (Σ _ : String, String)) (out : AList (fun _ : String => Value)),
      (∃ err, Config.Validate.values sc c l out = Validated.error err) ↔
        ∃ k v, (⟨k, v⟩ : Σ _ : String, String) ∈ l ∧
          (c.Options.lookup k = none ∨
            ∃ opt, c.Options.lookup k = some opt ∧ opt.Type_ = "int" ∧
              ∃ e, sc.ParseInt v = Except.error e) := by
  intro l
  induction l with
  | nil =>
    intro out
    simp [Config.Validate.values]
  | cons x rest ih =>
    intro out
    obtain ⟨k, v⟩ := x
    cases hopt : c.Options.lookup k with
    | none =>
      constructor
      · intro _
        exact ⟨k, v, List.mem_cons_self _ _, Or.inl hopt⟩
      · intro _
        exact ⟨Error.unknownOption k, by simp [Config.Validate.values, hopt]⟩
    | some opt =>
      have hne : ("int" : String) ≠ "string" := by decide
      rcases htypes k opt hopt with hty | hty
      · have hstep : Config.Validate.values sc c (⟨k, v⟩ :: rest) out =
            Config.Validate.values sc c rest (out.insert k (Value.string v)) := by
          simp [Config.Validate.values, hopt, hty]
        rw [hstep, ih]
        constructor
        · rintro ⟨k', v', hmem, hbad⟩
          exact ⟨k', v', List.mem_cons_of_mem _ hmem, hbad⟩
        · rintro ⟨k', v', hmem, hbad⟩
          rcases List.mem_cons.1 hmem with heq | hmem
          · cases heq
            rcases hbad with hnone | ⟨opt', hopt', hint, _⟩
            · rw [hopt] at hnone
              cases hnone
            · rw [hopt] at hopt'
              cases hopt'
              rw [hty] at hint
              exact absurd hint.symm hne
          · exact ⟨k', v', hmem, hbad⟩
      · cases hparse : sc.ParseInt v with
        | error e =>
          constructor
          · intro _
            exact ⟨k, v, List.mem_cons_self _ _, Or.inr ⟨opt, hopt, hty, e, hparse⟩⟩
          · intro _
            exact ⟨Error.notAnInt k v, by simp [Config.Validate.values, hopt, hty, hparse]⟩
        | ok i =>
          have hstep : Config.Validate.values sc c (⟨k, v⟩ :: rest) out =
              Config.Validate.values sc c rest (out.insert k (Value.int64 i)) := by
            simp [Config.Validate.values, hopt, hty, hparse]
          rw [hstep, ih]
          constructor
          · rintro ⟨k', v', hmem, hbad⟩
            exact ⟨k', v', List.mem_cons_of_mem _ hmem, hbad⟩
          · rintro ⟨k', v', hmem, hbad⟩
            rcases List.mem_cons.1 hmem with heq | hmem
            · cases heq
              rcases hbad with hnone | ⟨opt', hopt', _, e, he⟩
              · rw [hopt] at hnone
                cases hnone
              · rw [hparse] at he
                cases he
            · exact ⟨k', v', hmem, hbad⟩

/-- When every option is of type string or int, the first loop does not
panic. -/
theorem values_not_panic (sc : Strconv) (c : Config)
    (htypes : ∀ k opt, c.Options.lookup k = some opt →
      opt.Type_ = "string" ∨ opt.Type_ = "int") :
    ∀ (l : List (Σ _ : String, String)) (out : AList (fun _ : String => Value)) (t : String),
      Config.Validate.values sc c l out ≠ Validated.panic t := by
  intro l
  induction l with
  | nil =>
    intro out t
    simp [Config.Validate.values]
  | cons x rest ih =>
    intro out t
    obtain ⟨k, v⟩ := x
    cases hopt : c.Options.lookup k with
    | none => simp [Config.Validate.values, hopt]
    | some opt =>
      rcases htypes k opt hopt with hty | hty
      · simpa [Config.Validate.values, hopt, hty] using ih _ t
      · cases hparse : sc.ParseInt v with
        | error e => simp [Config.Validate.values, hopt, hty, hparse]
        | ok i => simpa [Config.Validate.values, hopt, hty, hparse] using ih _ t

/-- `Validate` ends with an error exactly when its first loop does. -/
theorem validate_error_iff (sc : Strconv) (c : Config)
    (values : AList (fun _ : String => String)) :
    (∃ err, Config.Validate sc c values = Validated.error err) ↔
      ∃ err, Config.Validate.values sc c values.entries ∅ = Validated.error err := by
  unfold Config.Validate
  cases Config.Validate.values sc c values.entries ∅ <;> simp

/-- When the first loop succeeds on entries with distinct keys, every entry
visited has a declared option and its key maps to the value converted
according to the type of the option, and the keys not visited map as they did
before. -/
theorem values_ok (sc : Strconv) (c : Config) :
    ∀ (l : List (Σ _ : String, String)) (out0 out : AList (fun _ : String => Value)),
      l.NodupKeys → Config.Validate.values sc c l out0 = Validated.ok out →
      (∀ k v, (⟨k, v⟩ : Σ _ : String, String) ∈ l →
        ∃ opt, c.Options.lookup k = some opt ∧
          ((opt.Type_ = "string" ∧ out.lookup k = some (Value.string v)) ∨
            (opt.Type_ = "int" ∧
              ∃ i, sc.ParseInt v = Except.ok i ∧ out.lookup k = some (Value.int64 i)) ∨
            (opt.Type_ = "float" ∧
              ∃ f, sc.ParseFloat v = Except.ok f ∧ out.lookup k = some (Value.float64 f)))) ∧
      (∀ k, k ∉ l.keys → out.lookup k = out0.lookup k) := by
  intro l
  induction l with
  | nil =>
    intro out0 out _ h
    simp only [Config.Validate.values, Validated.ok.injEq] at h
    subst h
    simp
  | cons x rest ih =>
    intro out0 out hnd h
    obtain ⟨k, v⟩ := x
    have hk : k ∉ rest.keys := (List.nodupKeys_cons.1 hnd).1
    have hnd2 : rest.NodupKeys := (List.nodupKeys_cons.1 hnd).2
    -- what the visit of the head entry inserts, and the run on the rest
    have hhead : ∃ x, Config.Validate.values sc c rest (out0.insert k x) = Validated.ok out ∧
        ∃ opt, c.Options.lookup k = some opt ∧
          ((opt.Type_ = "string" ∧ x = Value.string v) ∨
            (opt.Type_ = "int" ∧ ∃ i, sc.ParseInt v = Except.ok i ∧ x = Value.int64 i) ∨
            (opt.Type_ = "float" ∧ ∃ f, sc.ParseFloat v = Except.ok f ∧ x = Value.float64 f)) := by
      cases hopt : c.Options.lookup k with
      | none => simp [Config.Validate.values, hopt] at h
      | some opt =>
        by_cases hs : opt.Type_ = "string"
        · simp only [Config.Validate.values, hopt, hs, if_true] at h
          exact ⟨_, h, opt, rfl, Or.inl ⟨hs, rfl⟩⟩
        by_cases hi : opt.Type_ = "int"
        · cases hparse : sc.ParseInt v with
          | error e => simp [Config.Validate.values, hopt, hs, hi, hparse] at h
          | ok i =>
            simp only [Config.Validate.values, hopt, hi, hparse] at h
            exact ⟨_, by simpa using h, opt, rfl, Or.inr (Or.inl ⟨hi, i, rfl, rfl⟩)⟩
        by_cases hf : opt.Type_ = "float"
        · cases hparse : sc.ParseFloat v with
          | error e => simp [Config.Validate.values, hopt, hs, hi, hf, hparse] at h
          | ok f =>
            simp only [Config.Validate.values, hopt, hf, hparse] at h
            exact ⟨_, by simpa using h, opt, rfl, Or.inr (Or.inr ⟨hf, f, rfl, rfl⟩)⟩
        · simp [Config.Validate.values, hopt, hs, hi, hf] at h
    obtain ⟨x, hrest, opt, hopt, hconv⟩ := hhead
    obtain ⟨ih1, ih2⟩ := ih (out0.insert k x) out hnd2 hrest
    have hkout : out.lookup k = some x := by
      rw [ih2 k hk, AList.lookup_insert]
    constructor
    · intro k2 v2 hmem
      rcases List.mem_cons.1 hmem with heq | hmem
      · cases heq
        refine ⟨opt, hopt, ?_⟩
        rcases hconv with ⟨hs, hx⟩ | ⟨hi, i, hp, hx⟩ | ⟨hf, f, hp, hx⟩
        · exact Or.inl ⟨hs, by rw [hkout, hx]⟩
        · exact Or.inr (Or.inl ⟨hi, i, hp, by rw [hkout, hx]⟩)
        · exact Or.inr (Or.inr ⟨hf, f, hp, by rw [hkout, hx]⟩)
      · exact ih1 k2 v2 hmem
    · intro k2 hk2
      have hne : k2 ≠ k := fun heq => hk2 (by rw [heq]; exact List.mem_cons_self _ _)
      have hk2rest : k2 ∉ rest.keys := fun hmem => hk2 (List.mem_cons_of_mem _ hmem)
      rw [ih2 k2 hk2rest, AList.lookup_insert_ne hne]

/-- After the second loop over options with distinct keys, a key that was in
`out` maps as before, and any other key maps to the Default of its option if
it has an option whose Default is not nil, and to nothing otherwise. -/
theorem defaults_lookup :
    ∀ (l : List (Σ _ : String, Option)) (out1 : AList (fun _ : String => Value)),
      l.NodupKeys → ∀ k,
      (Config.Validate.defaults l out1).lookup k =
        match out1.lookup k with
        | some x => some x
        | none =>
          match l.dlookup k with
          | some opt => if opt.Default ≠ Value.nil then some opt.Default else none
          | none => none := by
  intro l
  induction l with
  | nil =>
    intro out1 _ k
    simp only [Config.Validate.defaults, List.dlookup_nil]
    cases out1.lookup k <;> rfl
  | cons x rest ih =>
    intro out1 hnd k
    obtain ⟨k0, opt0⟩ := x
    have hk0 : k0 ∉ rest.keys := (List.nodupKeys_cons.1 hnd).1
    have hnd2 : rest.NodupKeys := (List.nodupKeys_cons.1 hnd).2
    by_cases hcond : k0 ∉ out1 ∧ opt0.Default ≠ Value.nil
    · have hstep : Config.Validate.defaults (⟨k0, opt0⟩ :: rest) out1 =
          Config.Validate.defaults rest (out1.insert k0 opt0.Default) := by
        simp only [Config.Validate.defaults]
        rw [if_pos hcond]
      rw [hstep, ih _ hnd2 k]
      by_cases hk : k = k0
      · subst hk
        rw [AList.lookup_insert, AList.lookup_eq_none.2 hcond.1, List.dlookup_cons_eq]
        simp [hcond.2]
      · rw [AList.lookup_insert_ne hk, List.dlookup_cons_ne _ _ hk]
    · have hstep : Config.Validate.defaults (⟨k0, opt0⟩ :: rest) out1 =
          Config.Validate.defaults rest out1 := by
        simp only [Config.Validate.defaults]
        rw [if_neg hcond]
      rw [hstep, ih _ hnd2 k]
      by_cases hk : k = k0
      · subst hk
        cases hout : out1.lookup k with
        | some x => rfl
        | none =>
          have hnot : k ∉ out1 := AList.lookup_eq_none.1 hout
          have hnil : opt0.Default = Value.nil := by
            by_contra hne
            exact hcond ⟨hnot, hne⟩
          rw [List.dlookup_eq_none.2 hk0, List.dlookup_cons_eq]
          simp [hnil]
      · rw [List.dlookup_cons_ne _ _ hk]

/-! ## The claims on `Validate` -/

/-- C17. `Validate` rejects exactly the bad inputs: for a configuration whose
options all have type string or int, `Validate` returns an error (and no
processed map) if and only if some key of `values` is not a declared option
or some value supplied for an int option is rejected by `ParseInt`; otherwise
it returns a processed map and never panics; and whether it returns an error
does not depend on the order in which `values` is iterated. -/
theorem C17_validate_rejects_exactly (sc : Strconv) (c : Config)
    (values : AList (fun _ : String => String))
    (htypes : ∀ k opt, c.Options.lookup k = some opt →
      opt.Type_ = "string" ∨ opt.Type_ = "int") :
    ((∃ err, Config.Validate sc c values = Validated.error err) ↔
      ∃ k v, values.lookup k = some v ∧
        (c.Options.lookup k = none ∨
          ∃ opt, c.Options.lookup k = some opt ∧ opt.Type_ = "int" ∧
            ∃ e, sc.ParseInt v = Except.error e)) ∧
    ((∃ processed, Config.Validate sc c values = Validated.ok processed) ↔
      ¬ ∃ err, Config.Validate sc c values = Validated.error err) ∧
    (∀ values2 : AList (fun _ : String => String), values2.entries.Perm values.entries →
      ((∃ err, Config.Validate sc c values2 = Validated.error err) ↔
        ∃ err, Config.Validate sc c values = Validated.error err)) := by
  have hmain : ∀ vs : AList (fun _ : String => String),
      (∃ err, Config.Validate sc c vs = Validated.error err) ↔
        ∃ k v, vs.lookup k = some v ∧
          (c.Options.lookup k = none ∨
            ∃ opt, c.Options.lookup k = some opt ∧ opt.Type_ = "int" ∧
              ∃ e, sc.ParseInt v = Except.error e) := by
    intro vs
    rw [validate_error_iff, values_error_iff sc c htypes]
    constructor
    · rintro ⟨k, v, hmem, hbad⟩
      exact ⟨k, v, AList.mem_lookup_iff.2 hmem, hbad⟩
    · rintro ⟨k, v, hlook, hbad⟩
      exact ⟨k, v, AList.mem_lookup_iff.1 hlook, hbad⟩
  refine ⟨hmain values, ?_, ?_⟩
  · have hnp := values_not_panic sc c htypes values.entries ∅
    unfold Config.Validate
    cases hv : Config.Validate.values sc c values.entries ∅ with
    | ok out => simp
    | error err => simp
    | panic t => exact absurd hv (hnp t)
  · intro values2 hperm
    rw [hmain values2, hmain values]
    constructor
    · rintro ⟨k, v, hlook, hbad⟩
      exact ⟨k, v, by rw [← AList.perm_lookup hperm]; exact hlook, hbad⟩
    · rintro ⟨k, v, hlook, hbad⟩
      exact ⟨k, v, by rw [AList.perm_lookup hperm]; exact hlook, hbad⟩

/-- An instance of C17: the value `4x` supplied for the int option
`skill-level` makes `Validate` return an error. -/
theorem C17_validate_rejects_exactly_witness :
    ∃ err, Config.Validate strconv sampleConfig (AList.singleton "skill-level" "4x") =
      Validated.error err :=
  (C17_validate_rejects_exactly strconv sampleConfig (AList.singleton "skill-level" "4x")
    (fun k opt h =>
      (by decide : ∀ e ∈ sampleConfig.Options.entries,
        e.2.Type_ = "string" ∨ e.2.Type_ = "int") ⟨k, opt⟩ (AList.mem_lookup_iff.1 h))).1.2
    ⟨"skill-level", "4x", rfl,
      Or.inr ⟨⟨"", "", "int", Value.nil⟩, rfl, rfl, "invalid syntax", rfl⟩⟩

/-- C18. Conversion and defaults: whenever `Validate` succeeds, (1) the keys
of the processed map are exactly the keys of `values` together with the
declared options that are absent from `values` and have a non-nil Default;
(2) each supplied key has a declared option and maps to its converted value
(the string itself for a string option, the parsed int64 for an int option,
the parsed float64 for a float option), not to the Default; (3) each missing
option with a non-nil Default maps to its Default. -/
theorem C18_validate_conversion_and_defaults (sc : Strconv) (c : Config)
    (values : AList (fun _ : String => String))
    (processed : AList (fun _ : String => Value))
    (h : Config.Validate sc c values = Validated.ok processed) :
    (∀ k, k ∈ processed ↔
      k ∈ values ∨
        (k ∉ values ∧ ∃ opt, c.Options.lookup k = some opt ∧ opt.Default ≠ Value.nil)) ∧
    (∀ k v, values.lookup k = some v →
      ∃ opt, c.Options.lookup k = some opt ∧
        ((opt.Type_ = "string" ∧ processed.lookup k = some (Value.string v)) ∨
          (opt.Type_ = "int" ∧
            ∃ i, sc.ParseInt v = Except.ok i ∧ processed.lookup k = some (Value.int64 i)) ∨
          (opt.Type_ = "float" ∧
            ∃ f, sc.ParseFloat v = Except.ok f ∧
              processed.lookup k = some (Value.float64 f)))) ∧
    (∀ k opt, k ∉ values → c.Options.lookup k = some opt → opt.Default ≠ Value.nil →
      processed.lookup k = some opt.Default) := by
  -- the two loops
  obtain ⟨out, hout, hproc⟩ : ∃ out,
      Config.Validate.values sc c values.entries ∅ = Validated.ok out ∧
      processed = Config.Validate.defaults c.Options.entries out := by
    unfold Config.Validate at h
    cases hv : Config.Validate.values sc c values.entries ∅ with
    | ok out =>
      rw [hv] at h
      simp only [Validated.ok.injEq] at h
      exact ⟨out, rfl, h.symm⟩
    | error err =>
      rw [hv] at h
      cases h
    | panic t =>
      rw [hv] at h
      cases h
  obtain ⟨hconv, hother⟩ := values_ok sc c values.entries ∅ out values.nodupKeys hout
  have hlook : ∀ k, processed.lookup k =
      match out.lookup k with
      | some x => some x
      | none =>
        match c.Options.lookup k with
        | some opt => if opt.Default ≠ Value.nil then some opt.Default else none
        | none => none := by
    intro k
    rw [hproc]
    exact defaults_lookup c.Options.entries out c.Options.nodupKeys k
  have hsupplied : ∀ k v, values.lookup k = some v →
      ∃ opt, c.Options.lookup k = some opt ∧
        ((opt.Type_ = "string" ∧ processed.lookup k = some (Value.string v)) ∨
          (opt.Type_ = "int" ∧
            ∃ i, sc.ParseInt v = Except.ok i ∧ processed.lookup k = some (Value.int64 i)) ∨
          (opt.Type_ = "float" ∧
            ∃ f, sc.ParseFloat v = Except.ok f ∧
              processed.lookup k = some (Value.float64 f))) := by
    intro k v hv
    obtain ⟨opt, hopt, hcase⟩ := hconv k v (AList.mem_lookup_iff.1 hv)
    refine ⟨opt, hopt, ?_⟩
    rcases hcase with ⟨hs, hx⟩ | ⟨hi, i, hp, hx⟩ | ⟨hf, f, hp, hx⟩
    · exact Or.inl ⟨hs, by rw [hlook k, hx]⟩
    · exact Or.inr (Or.inl ⟨hi, i, hp, by rw [hlook k, hx]⟩)
    · exact Or.inr (Or.inr ⟨hf, f, hp, by rw [hlook k, hx]⟩)
  have hmissing : ∀ k, k ∉ values → processed.lookup k =
      match c.Options.lookup k with
      | some opt => if opt.Default ≠ Value.nil then some opt.Default else none
      | none => none := by
    intro k hk
    have hnone : out.lookup k = none := by
      rw [hother k (fun hmem => hk (AList.mem_keys.2 hmem))]
      exact AList.lookup_empty k
    rw [hlook k, hnone]
  refine ⟨?_, hsupplied, ?_⟩
  · intro k
    by_cases hk : k ∈ values
    · obtain ⟨v, hv⟩ := Option.isSome_iff_exists.1 (AList.lookup_isSome.2 hk)
      obtain ⟨opt, -, hcase⟩ := hsupplied k v hv
      have hin : k ∈ processed := by
        rw [← AList.lookup_isSome]
        rcases hcase with ⟨-, hx⟩ | ⟨-, i, -, hx⟩ | ⟨-, f, -, hx⟩ <;> rw [hx] <;> rfl
      exact ⟨fun _ => Or.inl hk, fun _ => hin⟩
    · rw [← AList.lookup_isSome, hmissing k hk]
      cases hopt : c.Options.lookup k with
      | none => simp [hk]
      | some opt =>
        by_cases hd : opt.Default = Value.nil
        · simp [hk, hd]
        · simp [hk, hd]
  · intro k opt hk hopt hd
    rw [hmissing k hk, hopt]
    simp [hd]

/-- An instance of C18: with `skill-level` supplied as `"5"` and nothing
else, `Validate` returns the map `sampleProcessed`; `skill-level` is a key of
it and the missing option `title` maps to its Default. -/
theorem C18_validate_conversion_and_defaults_witness :
    "skill-level" ∈ sampleProcessed ∧
      sampleProcessed.lookup "title" = some (Value.string "My Title") :=
  ⟨((C18_validate_conversion_and_defaults strconv sampleConfig sampleValues sampleProcessed
      rfl).1 "skill-level").2 (Or.inl (by decide)),
   (C18_validate_conversion_and_defaults strconv sampleConfig sampleValues sampleProcessed
      rfl).2.2 "title" ⟨"", "", "string", Value.string "My Title"⟩ (by decide) rfl (by decide)⟩

end charm

namespace apiserver

/-- C19. Login does not reveal entity existence: for an `srvAdmin` that is not
logged in, (1) if the authenticator lookup reports not-found, `Login` returns
`common.ErrBadCreds` and passes no root to `Serve`; (2) if the entity exists
but `PasswordValid` is false, `Login` returns `common.ErrBadCreds` and passes
no root to `Serve`; (3) so a run of the first kind and a run of the second
kind, on any two states of the server, have the same result. -/
theorem C19_login_hides_existence (common : Common) (a : srvAdmin) (c : params.Creds)
    (hnot : a.loggedIn = false) :
    (∀ err, a.root.Authenticator c.AuthTag = Authenticated.notFound err →
      a.Login common c = (some common.ErrBadCreds, [])) ∧
    (∀ entity, a.root.Authenticator c.AuthTag = Authenticated.found entity →
      entity.PasswordValid c.Password = false →
      a.Login common c = (some common.ErrBadCreds, [])) ∧
    (∀ (b : srvAdmin) err entity, b.loggedIn = false →
      a.root.Authenticator c.AuthTag = Authenticated.notFound err →
      b.root.Authenticator c.AuthTag = Authenticated.found entity →
      entity.PasswordValid c.Password = false →
      a.Login common c = b.Login common c) := by
  have h1 : ∀ (x : srvAdmin) err, x.loggedIn = false →
      x.root.Authenticator c.AuthTag = Authenticated.notFound err →
      x.Login common c = (some common.ErrBadCreds, []) := by
    intro x err hx hauth
    simp [srvAdmin.Login, hx, hauth]
  have h2 : ∀ (x : srvAdmin) entity, x.loggedIn = false →
      x.root.Authenticator c.AuthTag = Authenticated.found entity →
      entity.PasswordValid c.Password = false →
      x.Login common c = (some common.ErrBadCreds, []) := by
    intro x entity hx hauth hpw
    simp [srvAdmin.Login, hx, hauth, hpw]
  refine ⟨fun err => h1 a err hnot, fun entity => h2 a entity hnot, ?_⟩
  intro b err entity hb ha hbauth hpw
  rw [h1 a err hnot ha, h2 b entity hb hbauth hpw]

/-- An instance of C19: a login as the unknown `machine-9` and a login as the
existing `machine-0` with a wrong password both return `ErrBadCreds` and
serve nothing. -/
theorem C19_login_hides_existence_witness :
    srvAdmin.Login sampleCommon ⟨sampleRoot, false⟩ ⟨"machine-9", "guess", "nonce"⟩ =
        (some sampleCommon.ErrBadCreds, []) ∧
      srvAdmin.Login sampleCommon ⟨sampleRoot, false⟩ ⟨"machine-0", "guess", "nonce"⟩ =
        (some sampleCommon.ErrBadCreds, []) :=
  ⟨(C19_login_hides_existence sampleCommon ⟨sampleRoot, false⟩ ⟨"machine-9", "guess", "nonce"⟩
      rfl).1 ⟨"entity not found"⟩ rfl,
   (C19_login_hides_existence sampleCommon ⟨sampleRoot, false⟩ ⟨"machine-0", "guess", "nonce"⟩
      rfl).2.1 ⟨"machine-0", fun p => decide (p = "secret"),
        some (fun n => decide (n = "nonce"))⟩ rfl rfl⟩

end apiserver
